import Mathlib

/-! go-ethereum-substate: the contract address dictionary and the LFVM instruction handlers

A shallow embedding of

* `core/vm/contract_dictionary.go` (`ContractDictionary` with `Encode`, `Decode`,
  `Write`, `Read`), and
* handlers of `core/vm/lfvm/instructions.go`: the jump handlers (`checkJumpDest`, `opJump`,
  `opJumpi`), the super-instructions, arithmetic, comparison and shift handlers, `RETURN`
  and `REVERT`, the call and create handlers, the data copies with `getData`, the memory
  stores, `opSstore`, `opSelfdestruct` and the push handlers,

followed by the properties established about them.

Conventions of the embedding.

* A Go method with a pointer receiver becomes a function that takes the receiver and
  returns the result together with the receiver after the call.
* `error` values built with `errors.New` are represented by their message; `nil` is
  `none`.
* `cd.mutex` only serialises callers; every function below is one critical section, so
  the mutex has no counterpart.
* Go's `uint` is 32 or 64 bits wide depending on the platform. `math.MaxUint` is therefore
  an explicit parameter `maxUint` of the functions that mention it; the instances of
  interest are `2 ^ 32 - 1` and `2 ^ 64 - 1`.
-/

namespace ContractDict

/-! ## Data model -/

/-- One octet. -/
abbrev Byte := Fin 256

/-- Modelled from the spec: `common.Address` is declared outside the listed sources; the
spec fixes it as a fixed-width 20-byte account identifier. -/
abbrev Address := { l : List Byte // l.length = 20 }

/-- The zero value `common.Address{}`: twenty zero bytes. -/
def Address.zero : Address := ⟨List.replicate 20 0, by simp⟩

/-- `Address.Bytes()`: the twenty bytes of the identifier. -/
def Address.Bytes (a : Address) : List Byte := a.val

/-- Modelled from the spec: `common.BytesToAddress` is declared outside the listed sources.
It keeps the last twenty bytes of its argument and pads a shorter argument with zero
bytes on the left, so that a 20-byte record is taken as it is. -/
def BytesToAddress (b : List Byte) : Address :=
  ⟨List.replicate (20 - (b.drop (b.length - 20)).length) 0 ++ b.drop (b.length - 20), by
    simp only [List.length_append, List.length_replicate, List.length_drop]; omega⟩

/-- A Go `map[common.Address]uint`, as an association list with at most one entry per
key. -/
abbrev AddrMap := List (Address × Nat)

/-- The lookup `idx, ok = m[addr]`; `none` stands for `ok = false`. -/
def mapGet (m : AddrMap) (addr : Address) : Option Nat :=
  match m with
  | [] => none
  | (k, v) :: rest => if k = addr then some v else mapGet rest addr

/-- The assignment `m[addr] = idx`: an entry with the same key is replaced. -/
def mapSet (m : AddrMap) (addr : Address) (idx : Nat) : AddrMap :=
  (addr, idx) :: m.filter (fun p => !decide (p.1 = addr))

/-- The dictionary: `contractToIdx` for encoding and `idxToContract` for decoding. -/
structure ContractDictionary where
  contractToIdx : AddrMap
  idxToContract : List Address
deriving DecidableEq, Repr

/-- `NewContractDictionary`: both tables empty. -/
def NewContractDictionary : ContractDictionary :=
  { contractToIdx := [], idxToContract := [] }

/-! ## Encode and Decode -/

/-- The message of the error returned by `Encode` on a full table. -/
def errExhausted : String := "Contract dictionary exhausted"

/-- The message of the error returned by `Decode` on an index outside the table. -/
def errOutOfBound : String := "Index out-of-bound"

/-- `Encode`: the index of `addr`, which is entered at the end of the table when it is
new. The result is `((idx, err), cd)` with `cd` the dictionary after the call. -/
def ContractDictionary.Encode (maxUint : Nat) (cd : ContractDictionary) (addr : Address) :
    (Nat × Option String) × ContractDictionary :=
  match mapGet cd.contractToIdx addr with
  | some idx => ((idx, none), cd)
  | none =>
    let idx := cd.idxToContract.length
    if idx ≠ maxUint then
      ((idx, none),
        { contractToIdx := mapSet cd.contractToIdx addr idx,
          idxToContract := cd.idxToContract ++ [addr] })
    else
      ((0, some errExhausted), cd)

/-- `Decode`: the address stored at `idx`. The result is `((addr, err), cd)` with `cd` the
dictionary after the call. -/
def ContractDictionary.Decode (cd : ContractDictionary) (idx : Nat) :
    (Address × Option String) × ContractDictionary :=
  if h : idx < cd.idxToContract.length then
    ((cd.idxToContract.get ⟨idx, h⟩, none), cd)
  else
    ((Address.zero, some errOutOfBound), cd)

/-- The dictionary after encoding the addresses `xs` one after another. -/
def encodeAll (maxUint : Nat) (cd : ContractDictionary) (xs : List Address) :
    ContractDictionary :=
  xs.foldl (fun d x => (d.Encode maxUint x).2) cd

/-- The results `(idx, err)` of encoding the addresses `xs` one after another, in call
order. -/
def encodeResults (maxUint : Nat) (cd : ContractDictionary) :
    List Address → List (Nat × Option String)
  | [] => []
  | x :: xs => (cd.Encode maxUint x).1 :: encodeResults maxUint (cd.Encode maxUint x).2 xs

/-! ## Write and Read -/

/-- `Write`: the content of the file after the call. The file is opened with `O_TRUNC`, so
it starts empty, and each `f.Write(addr.Bytes())` appends twenty bytes. Failures of the
operating system (`log.Fatal(err)` after open, write or close) are not modelled. -/
def ContractDictionary.Write (cd : ContractDictionary) : List Byte :=
  cd.idxToContract.foldl (fun file addr => file ++ addr.Bytes) []

/-- The call `n, err = f.Read(data)` of Go's `os.File` on a regular file whose unread
content is `file`, as the standard library documents it: it reads up to `len(data)` bytes
into the front of `data`, and "at end of file, Read returns 0, io.EOF". The result is
`(unread content, data, n, err)`. -/
def fileRead (file data : List Byte) : List Byte × List Byte × Nat × Option String :=
  if data.length = 0 then (file, data, 0, none)
  else if file.length = 0 then (file, data, 0, some "EOF")
  else
    let n := min data.length file.length
    (file.drop n, file.take n ++ data.drop n, n, none)

/-- How a run of `Read` ends: it returns, or the process is terminated by `log.Fatal`
with a message. `outOfFuel` belongs to the embedding only and never occurs
(`Read_ne_outOfFuel`). -/
inductive ReadOutcome where
  | returned
  | fatal (msg : String)
  | outOfFuel
deriving DecidableEq, Repr

/-- The message of `Read` for a trailing partial record. -/
def errCorrupted : String := "Contract dictionary file is corrupted"

/-- The message of `Read` for a table that reaches `math.MaxUint` entries. -/
def errTooMany : String := "Too many entries in dictionary; file corrupted"

/-- The `for` loop of `Read`. `file` is the unread content and `data` the 20-byte buffer.
The result is the dictionary at the moment the loop is left, and how it is left. -/
def readLoop (maxUint : Nat) :
    Nat → ContractDictionary → List Byte → List Byte → ContractDictionary × ReadOutcome
  | 0, cd, _, _ => (cd, .outOfFuel)
  | fuel + 1, cd, file, data =>
    match fileRead file data with
    | (_, _, _, some err) => (cd, .fatal err)
    | (file', data', n, none) =>
      if n < data'.length then
        if n ≠ 0 then (cd, .fatal errCorrupted) else (cd, .returned)
      else
        let addr := BytesToAddress data'
        let idx := cd.idxToContract.length
        if idx = maxUint then (cd, .fatal errTooMany)
        else
          readLoop maxUint fuel
            { contractToIdx := mapSet cd.contractToIdx addr cd.idxToContract.length,
              idxToContract := cd.idxToContract ++ [addr] }
            file' data'

/-- `Read`: both tables are emptied, whatever `cd` held, and the file is read record by
record. The result is the dictionary at the moment `Read` ends, and how it ends. Failure
to open or close the file is not modelled. -/
def ContractDictionary.Read (maxUint : Nat) (_cd : ContractDictionary) (file : List Byte) :
    ContractDictionary × ReadOutcome :=
  readLoop maxUint (file.length + 1) { contractToIdx := [], idxToContract := [] } file
    Address.zero.Bytes

end ContractDict

namespace Lfvm

/-! ## The LFVM execution context

`context`, `Stack`, `Instruction` and the opcode constants are declared in files of the
package that are not among the listed sources; `instructions.go` fixes how they are used:
`c.pc` is an `int32`, `c.code` a slice of instructions with a 16-bit `arg`, stack slots are
`uint256.Int` values. A handler becomes a function `context → Option context`; `none` is a
Go run-time panic (index out of range). -/

/-- A stack word: the value of a `uint256.Int`, a natural number below `2 ^ 256`. -/
abbrev Word := Nat

/-- The Go conversion to `int32` of an integer: reduction modulo `2 ^ 32` into the range
`-2 ^ 31 .. 2 ^ 31 - 1`. It also stands for `int32` arithmetic, which wraps around. -/
def toInt32 (n : Int) : Int := (n + 2 ^ 31) % 2 ^ 32 - 2 ^ 31

/-- `uint256.Int.Uint64()`: the lowest of the four 64-bit limbs. -/
def Uint64 (w : Word) : Nat := w % 2 ^ 64

/-- Modelled from the spec: the opcode constants are declared outside the listed sources.
Only `JUMPDEST` is inspected by the handlers below; the others name the instructions that
occur in the examples. -/
inductive OpCode where
  | STOP | POP | JUMP | JUMPI | JUMPDEST | PUSH1 | PUSH2 | SWAP1 | SWAP2 | ISZERO
  | PUSH2_JUMP | PUSH2_JUMPI | ISZERO_PUSH2_JUMPI | POP_JUMP | SWAP2_SWAP1_POP_JUMP
deriving DecidableEq, Repr

/-- Modelled from the spec: a decoded instruction, an opcode with its 16-bit inline
argument. -/
structure Instruction where
  opcode : OpCode
  arg : Nat
deriving DecidableEq, Repr

/-- Modelled from the spec: the status of a frame (section 4.5). `ERROR` is the generic
error-terminal state entered by `SignalError`. -/
inductive Status where
  | RUNNING | STOPPED | REVERTED | RETURNED | SUICIDED | INVALID_INSTRUCTION | OUT_OF_GAS
  | ERROR
deriving DecidableEq, Repr

/-- The errors of package `vm` that `instructions.go` signals or compares with, and two
further ones that a nested call or creation can return. -/
inductive VmError where
  | ErrInvalidJump
  | ErrReturnDataOutOfBounds
  | ErrExecutionReverted
  | ErrCodeStoreOutOfGas
  | ErrOutOfGas
  | ErrDepth
deriving DecidableEq, Repr

/-- A byte string (`[]byte`). -/
abbrev Bytes := List (Fin 256)

/-- A write to the ledger through `c.stateDB`, with its arguments: `SetState(addr, key,
value)`, `AddBalance(addr, amount)` and `Suicide(addr)`. Addresses, keys and values are
given by their big-endian values. -/
inductive LedgerCall where
  | SetState (addr key value : Nat)
  | AddBalance (addr amount : Nat)
  | Suicide (addr : Nat)
deriving DecidableEq, Repr

/-- Modelled from the spec: the execution context of one frame, restricted to what the
handlers below touch: program counter, decoded code, operand stack (top first), status, the
error recorded by `SignalError`, the remaining gas of the contract (`c.contract.Gas`), the
content of the linear memory, the output range recorded by `RETURN` and `REVERT`, the
return-data buffer (`nil` is the empty list), the input data `c.data`, the code and the
address of the contract (`c.contract.Code`, `c.contract.Address()`), and the writes made
to the ledger so far, in the order of the calls. -/
structure context where
  pc : Int
  code : List Instruction
  stack : List Word
  status : Status
  err : Option VmError
  gas : Nat
  memory : Bytes := []
  result_offset : Word := 0
  result_size : Word := 0
  return_data : Bytes := []
  data : Bytes := []
  contract_code : Bytes := []
  address : Nat := 0
  ledger : List LedgerCall := []
deriving DecidableEq, Repr

/-- Modelled from the spec: `context.SignalError`, declared outside the listed sources.
It records the error and puts the frame into the error-terminal state. -/
def SignalError (c : context) (e : VmError) : context :=
  { c with status := .ERROR, err := some e }

/-- Modelled from the spec: `context.UseGas`, declared outside the listed sources
(section 4.3): the amount is subtracted when the remaining gas covers it; otherwise
nothing is deducted and the status becomes out-of-gas. The result is the success flag and
the context after the call. -/
def UseGas (c : context) (amount : Nat) : Bool × context :=
  if amount ≤ c.gas then (true, { c with gas := c.gas - amount })
  else (false, { c with status := .OUT_OF_GAS })

/-- The slice access `c.code[i]` with an `int32` index: `none` is the index-out-of-range
panic, for a negative index as for one at or beyond the length. -/
def codeAt (c : context) (i : Int) : Option Instruction :=
  if i < 0 then none else c.code[i.toNat]?

/-- Modelled from the spec: `Stack.pop` (section 4.1): the top word and the context without
it; `none` on an empty stack. -/
def pop (c : context) : Option (Word × context) :=
  match c.stack with
  | [] => none
  | w :: rest => some (w, { c with stack := rest })

/-- Modelled from the spec: `Stack.swap(n)` (section 4.1): the top and the `n`-th word from
the top, the top being the first, change places; `none` when the stack is too short. -/
def stackSwap (s : List Word) (n : Nat) : Option (List Word) :=
  if n = 0 then none
  else
    match s[0]?, s[n - 1]? with
    | some top, some other => some ((s.set (n - 1) top).set 0 other)
    | _, _ => none

/-! ## Handlers -/

/-- `checkJumpDest`: the instruction after the program counter has to be a `JUMPDEST`;
then the program counter moves onto it and one gas is charged. -/
def checkJumpDest (c : context) : Option context :=
  let next := toInt32 (c.pc + 1)
  let checked : Option context :=
    if next ≥ (c.code.length : Int) then some (SignalError c .ErrInvalidJump)
    else
      match codeAt c next with
      | none => none
      | some ins =>
        if ins.opcode ≠ .JUMPDEST then some (SignalError c .ErrInvalidJump) else some c
  match checked with
  | none => none
  | some c1 => some (UseGas { c1 with pc := toInt32 (c1.pc + 1) } 1).2

/-- `opJump`. -/
def opJump (c : context) : Option context :=
  match pop c with
  | none => none
  | some (destination, c1) =>
    checkJumpDest { c1 with pc := toInt32 (toInt32 (Uint64 destination) - 1) }

/-- `opJumpi`. -/
def opJumpi (c : context) : Option context :=
  match pop c with
  | none => none
  | some (destination, c1) =>
    match pop c1 with
    | none => none
    | some (condition, c2) =>
      if condition ≠ 0 then
        checkJumpDest { c2 with pc := toInt32 (toInt32 (Uint64 destination) - 1) }
      else some c2

/-- `opPop`. -/
def opPop (c : context) : Option context :=
  match pop c with
  | none => none
  | some (_, c1) => some c1

/-- `opSwap`: `c.stack.swap(pos + 1)`. -/
def opSwap (c : context) (pos : Nat) : Option context :=
  match stackSwap c.stack (pos + 1) with
  | none => none
  | some s => some { c with stack := s }

/-- `opPush2_Jump`. -/
def opPush2_Jump (c : context) : Option context :=
  match codeAt c c.pc with
  | none => none
  | some ins => checkJumpDest { c with pc := toInt32 (toInt32 ins.arg - 1) }

/-- `opPush2_Jumpi`. -/
def opPush2_Jumpi (c : context) : Option context :=
  match pop c with
  | none => none
  | some (condition, c1) =>
    if condition ≠ 0 then
      match codeAt c1 c1.pc with
      | none => none
      | some ins => checkJumpDest { c1 with pc := toInt32 (toInt32 ins.arg - 1) }
    else some c1

/-- `opPop_Jump`. -/
def opPop_Jump (c : context) : Option context :=
  match opPop c with
  | none => none
  | some c1 => opJump c1

/-- `opIsZero_Push2_Jumpi`. -/
def opIsZero_Push2_Jumpi (c : context) : Option context :=
  match pop c with
  | none => none
  | some (condition, c1) =>
    if condition = 0 then
      match codeAt c1 c1.pc with
      | none => none
      | some ins => checkJumpDest { c1 with pc := toInt32 (toInt32 ins.arg - 1) }
    else some c1

/-- `opSwap2_Swap1_Pop_Jump`: `top` and `trg` are the first and the third word; the second
is dropped, the program counter is set from `trg`, and `top` is stored in its slot. -/
def opSwap2_Swap1_Pop_Jump (c : context) : Option context :=
  match pop c with
  | none => none
  | some (top, c1) =>
    match pop c1 with
    | none => none
    | some (_, c2) =>
      match c2.stack with
      | [] => none
      | trg :: rest =>
        some { c2 with pc := toInt32 (toInt32 (Uint64 trg) - 1), stack := top :: rest }

/-! ## Stack access

`Stack` is declared outside the listed sources. Its methods return pointers into the slot
array; here a read through such a pointer is the word in the slot and a write replaces
the word. The depth is bounded by `StackLimit`: a push onto a full stack fails. -/

/-- Modelled from the spec: the maximum depth of the operand stack (section 3), 1024
words. -/
def StackLimit : Nat := 1024

/-- Modelled from the spec: `Stack.Back(n)` read: the word `n` slots below the top, `none`
when the stack is not that deep. `Stack.peek()` is `Back(0)`. -/
def Back (c : context) (n : Nat) : Option Word := c.stack[n]?

/-- Modelled from the spec: a write through the pointer `Stack.Back(n)`. -/
def setBack (c : context) (n : Nat) (w : Word) : context :=
  { c with stack := c.stack.set n w }

/-- Modelled from the spec: `Stack.pushEmpty()` followed by a write of `w` to the new slot
(`push`, section 4.1): `none` is the failure with StackOverflow, when the depth would
exceed `StackLimit`. -/
def pushEmpty (c : context) (w : Word) : Option context :=
  if c.stack.length < StackLimit then some { c with stack := w :: c.stack } else none

/-- Modelled from the spec: `Stack.pushEmpty()` followed by a write of `w`, in a handler
that has popped at least one word before it pushes: on a stack within `StackLimit` the
depth is below the limit after the pop, so that this push cannot overflow
(`pushEmpty_after_pop`), and the test of the depth is left out. -/
def pushAfterPop (c : context) (w : Word) : context := { c with stack := w :: c.stack }

/-- Modelled from the spec: `Stack.dup(n)` (section 4.1): the `n`-th word from the top,
the top being the first, is pushed; `none` when the stack is not that deep, and when it is
full, the push failing with StackOverflow. -/
def stackDup (s : List Word) (n : Nat) : Option (List Word) :=
  if n = 0 then none
  else
    match s[n - 1]? with
    | some w => if s.length < StackLimit then some (w :: s) else none
    | none => none

/-- The shape `a := c.stack.pop(); b := c.stack.peek(); *b = f(a, b)` shared by the
binary handlers. -/
def popPeek (c : context) (f : Word → Word → Word) : Option context :=
  match pop c with
  | none => none
  | some (a, c1) =>
    match Back c1 0 with
    | none => none
    | some b => some (setBack c1 0 (f a b))

/-! ## Stack, return and comparison handlers -/

/-- `opDup`: `c.stack.dup(pos)`. -/
def opDup (c : context) (pos : Nat) : Option context :=
  match stackDup c.stack pos with
  | none => none
  | some s => some { c with stack := s }

/-- `opReturn`. -/
def opReturn (c : context) : Option context :=
  match pop c with
  | none => none
  | some (offset, c1) =>
    match pop { c1 with result_offset := offset } with
    | none => none
    | some (size, c2) => some { c2 with result_size := size, status := .RETURNED }

/-- `opRevert`. -/
def opRevert (c : context) : Option context :=
  match pop c with
  | none => none
  | some (offset, c1) =>
    match pop { c1 with result_offset := offset } with
    | none => none
    | some (size, c2) => some { c2 with result_size := size, status := .REVERTED }

/-- `uint256.Int.Lt`: unsigned less-than, as 0 or 1. -/
def u256Lt (a b : Word) : Bool := decide (a < b)

/-- `uint256.Int.Gt`: unsigned greater-than. -/
def u256Gt (a b : Word) : Bool := decide (a > b)

/-- `opLt`. -/
def opLt (c : context) : Option context :=
  popPeek c (fun a b => if u256Lt a b then 1 else 0)

/-- `opGt`. -/
def opGt (c : context) : Option context :=
  popPeek c (fun a b => if u256Gt a b then 1 else 0)

/-- `opSwap1_Pop`. -/
def opSwap1_Pop (c : context) : Option context :=
  match pop c with
  | none => none
  | some (a1, c1) =>
    match Back c1 0 with
    | none => none
    | some _ => some (setBack c1 0 a1)

/-- `opSwap2_Pop`. -/
def opSwap2_Pop (c : context) : Option context :=
  match pop c with
  | none => none
  | some (a1, c1) =>
    match Back c1 1 with
    | none => none
    | some _ => some (setBack c1 1 a1)

/-- `opSwap2_Swap1`: the three slots are read, then written. -/
def opSwap2_Swap1 (c : context) : Option context :=
  match Back c 0, Back c 1, Back c 2 with
  | some a1, some a2, some a3 => some (setBack (setBack (setBack c 0 a2) 1 a3) 2 a1)
  | _, _, _ => none

/-- `opDup2_Lt`. -/
def opDup2_Lt (c : context) : Option context :=
  match Back c 0, Back c 1 with
  | some b, some a => some (setBack c 0 (if u256Lt a b then 1 else 0))
  | _, _ => none

/-- `opSwap1_Pop_Swap2_Swap1`. -/
def opSwap1_Pop_Swap2_Swap1 (c : context) : Option context :=
  match pop c with
  | none => none
  | some (a1, c1) =>
    match Back c1 0, Back c1 1, Back c1 2 with
    | some _, some a3, some a4 => some (setBack (setBack (setBack c1 0 a3) 1 a4) 2 a1)
    | _, _, _ => none

/-- `opPop_Swap2_Swap1_Pop`. -/
def opPop_Swap2_Swap1_Pop (c : context) : Option context :=
  match pop c with
  | none => none
  | some (_, c1) =>
    match pop c1 with
    | none => none
    | some (a2, c2) =>
      match Back c2 0, Back c2 1 with
      | some _, some a4 => some (setBack (setBack c2 0 a4) 1 a2)
      | _, _ => none

/-! ## Arithmetic, comparison and shift handlers

The methods of `uint256.Int` belong to a library outside the repository; they are
modelled by the values they compute, except `Slt`, `Sgt` and `Sign`, which follow the
case distinction of the library, and the limb arithmetic that `instructions.go` itself
performs (`opPush1_Add`). -/

/-- `bits.Add64(x, y, carry)`: the sum modulo `2 ^ 64` and the carry out. -/
def Add64 (x y carry : Nat) : Nat × Nat :=
  ((x + y + carry) % 2 ^ 64, (x + y + carry) / 2 ^ 64)

/-- The limb `z[i]` of a word, `z[0]` being the least significant. -/
def limb (w : Nat) (i : Nat) : Nat := (w / 2 ^ (64 * i)) % 2 ^ 64

/-- The word with the four given limbs. -/
def ofLimbs (z0 z1 z2 z3 : Nat) : Nat := z0 + 2 ^ 64 * z1 + 2 ^ 128 * z2 + 2 ^ 192 * z3

/-- `uint256.Int.Add`: the sum modulo `2 ^ 256`. -/
def u256Add (x y : Word) : Word := (x + y) % 2 ^ 256

/-- `uint256.Int.Sub`: the difference `x - y` modulo `2 ^ 256`. -/
def u256Sub (x y : Word) : Word := (((x : Int) - (y : Int)) % 2 ^ 256).toNat

/-- `uint256.Int.Mul`: the product modulo `2 ^ 256`. -/
def u256Mul (x y : Word) : Word := (x * y) % 2 ^ 256

/-- `uint256.Int.Sign`: 0 for zero, -1 when the top bit of `z[3]` is set, else 1. -/
def u256Sign (z : Word) : Int :=
  if z = 0 then 0 else if limb z 3 < 0x8000000000000000 then 1 else -1

/-- `uint256.Int.Slt`: decided by the signs when they differ, else by `Lt`. -/
def u256Slt (z x : Word) : Bool :=
  if u256Sign z ≥ 0 ∧ u256Sign x < 0 then false
  else if u256Sign z < 0 ∧ u256Sign x ≥ 0 then true
  else u256Lt z x

/-- `uint256.Int.Sgt`: decided by the signs when they differ, else by `Gt`. -/
def u256Sgt (z x : Word) : Bool :=
  if u256Sign z ≥ 0 ∧ u256Sign x < 0 then true
  else if u256Sign z < 0 ∧ u256Sign x ≥ 0 then false
  else u256Gt z x

/-- `uint256.Int.Lsh(x, n)`: `x << n` within 256 bits. -/
def u256Lsh (x : Word) (n : Nat) : Word :=
  if n ≥ 256 then 0 else (x * 2 ^ n) % 2 ^ 256

/-- `uint256.Int.Rsh(x, n)`: `x >> n`. -/
def u256Rsh (x : Word) (n : Nat) : Word :=
  if n ≥ 256 then 0 else x / 2 ^ n

/-- `uint256.Int.SRsh(x, n)`: the arithmetic right shift; a word with the top bit set is
filled with ones from the left. -/
def u256SRsh (x : Word) (n : Nat) : Word :=
  if x < 2 ^ 255 then u256Rsh x n
  else if n ≥ 256 then 2 ^ 256 - 1
  else x / 2 ^ n + (2 ^ 256 - 2 ^ (256 - n))

/-- `opAdd`. -/
def opAdd (c : context) : Option context := popPeek c (fun a b => u256Add a b)

/-- `opSub`. -/
def opSub (c : context) : Option context := popPeek c (fun a b => u256Sub a b)

/-- `opMul`. -/
def opMul (c : context) : Option context := popPeek c (fun a b => u256Mul a b)

/-- `opSlt`. -/
def opSlt (c : context) : Option context :=
  popPeek c (fun a b => if u256Slt a b then 1 else 0)

/-- `opSgt`. -/
def opSgt (c : context) : Option context :=
  popPeek c (fun a b => if u256Sgt a b then 1 else 0)

/-- `opShr`: the shift amount is `uint(a.Uint64())`, on a 64-bit platform the lowest limb
of `a`. -/
def opShr (c : context) : Option context := popPeek c (fun a b => u256Rsh b (Uint64 a))

/-- `opShl`. -/
def opShl (c : context) : Option context := popPeek c (fun a b => u256Lsh b (Uint64 a))

/-- `opSar`. -/
def opSar (c : context) : Option context := popPeek c (fun a b => u256SRsh b (Uint64 a))

/-- `opIszero`. -/
def opIszero (c : context) : Option context :=
  match Back c 0 with
  | none => none
  | some top => some (setBack c 0 (if top = 0 then 1 else 0))

/-- `opPush1`: the high byte of the inline argument is pushed. -/
def opPush1 (c : context) : Option context :=
  match codeAt c c.pc with
  | none => none
  | some ins => pushEmpty c (ofLimbs (ins.arg >>> 8) 0 0 0)

/-- `opPush2`: the inline argument is pushed. -/
def opPush2 (c : context) : Option context :=
  match codeAt c c.pc with
  | none => none
  | some ins => pushEmpty c (ofLimbs ins.arg 0 0 0)

/-- `opPush1_Add`: the inline argument is added to the top word, limb by limb with the
carry of `bits.Add64`. -/
def opPush1_Add (c : context) : Option context :=
  match codeAt c c.pc with
  | none => none
  | some ins =>
    match Back c 0 with
    | none => none
    | some trg =>
      let r0 := Add64 (limb trg 0) ins.arg 0
      let r1 := Add64 (limb trg 1) 0 r0.2
      let r2 := Add64 (limb trg 2) 0 r1.2
      let r3 := Add64 (limb trg 3) 0 r2.2
      some (setBack c 0 (ofLimbs r0.1 r1.1 r2.1 r3.1))

/-- The unfused sequence `ISZERO, PUSH2, JUMPI`, one handler after the other on the same
frame, so that `opPush2` reads the inline argument that the fused handler reads. -/
def unfusedIsZero_Push2_Jumpi (c : context) : Option context :=
  ((opIszero c).bind opPush2).bind opJumpi

/-- The value of a word as a 256-bit two's-complement signed integer. -/
def toSigned (w : Word) : Int := if w < 2 ^ 255 then (w : Int) else (w : Int) - 2 ^ 256

/-- A running frame with 100 gas at program counter 0 of the given code, for concrete
evaluations. -/
def frame (code : List Instruction) (stack : List Word) : context :=
  { pc := 0, code := code, stack := stack, status := .RUNNING, err := none, gas := 100 }

/-! ## Call and create handlers

The linear memory, the gas rule `callGas`, the ledger and the nested executions of the EVM
are declared outside the listed sources. The handlers take them as the parameter `H`, so
that what is proved holds for every behaviour of these collaborators. -/

/-- The Go conversion to `int` (64 bits) of an integer: reduction modulo `2 ^ 64` into the
range `-2 ^ 63 .. 2 ^ 63 - 1`. -/
def toInt64 (n : Int) : Int := (n + 2 ^ 63) % 2 ^ 64 - 2 ^ 63

/-- The collaborators of the call and create handlers. An account address is the number
with the twenty bytes of the address as big-endian digits. A nested call returns
`(ret, returnGas, err)`, a nested creation `(res, addr, returnGas, suberr)`. -/
structure Host where
  /-- The frame after `c.memory.EnsureCapacity(offset, size, c)`. -/
  EnsureCapacity : context → Int → Int → context
  /-- The memory after `c.memory.Set(offset, size, value)`. -/
  Set : Bytes → Nat → Nat → Bytes → Bytes
  /-- The bytes returned by `c.memory.GetSlice(offset, size)`. -/
  GetSlice : Bytes → Int → Int → Bytes
  /-- The fee `c.memory.ExpansionCosts(size)`. -/
  ExpansionCosts : Bytes → Int → Nat
  /-- The gas to forward, `callGas(available, base, provided)`. -/
  callGas : Nat → Nat → Word → Nat
  /-- Whether the account exists, `c.stateDB.Exist(addr)`. -/
  Exist : Nat → Bool
  /-- The nested execution `c.evm.Call(c.contract, addr, args, gas, value)`. -/
  Call : context → Nat → Bytes → Nat → Word → Bytes × Nat × Option VmError
  /-- The nested execution `c.evm.StaticCall(c.contract, addr, args, gas)`. -/
  StaticCall : context → Nat → Bytes → Nat → Bytes × Nat × Option VmError
  /-- The nested execution `c.evm.DelegateCall(c.contract, addr, args, gas)`. -/
  DelegateCall : context → Nat → Bytes → Nat → Bytes × Nat × Option VmError
  /-- The nested creation `c.evm.Create(c.contract, input, gas, value)`. -/
  Create : context → Bytes → Nat → Word → Bytes × Nat × Nat × Option VmError
  /-- The nested creation `c.evm.Create2(c.contract, input, gas, endowment, salt)`. -/
  Create2 : context → Bytes → Nat → Word → Word → Bytes × Nat × Nat × Option VmError

/-- `params.CallValueTransferGas`. -/
def CallValueTransferGas : Nat := 9000

/-- `params.CallNewAccountGas`. -/
def CallNewAccountGas : Nat := 25000

/-- `params.CallStipend`. -/
def CallStipend : Nat := 2300

/-- `Contract.UseGas` of package `vm`, which `opCreate` calls on `c.contract` directly: the
amount is subtracted when the remaining gas covers it; the status is not touched. -/
def contractUseGas (c : context) (amount : Nat) : context :=
  if c.gas < amount then c else { c with gas := c.gas - amount }

/-- `neededMemorySize`. -/
def neededMemorySize (offset size : Word) : Nat :=
  if size = 0 then 0 else (Uint64 offset + Uint64 size) % 2 ^ 64

/-- The value `base_gas` that the three call handlers compute first:
`c.memory.ExpansionCosts` of the larger of the argument range and the return range. -/
def callBaseGas (H : Host) (c : context) (inOffset inSize retOffset retSize : Word) : Nat :=
  let arg_memory_size := neededMemorySize inOffset inSize
  let ret_memory_size := neededMemorySize retOffset retSize
  let needed_memory_size :=
    if ret_memory_size > arg_memory_size then ret_memory_size else arg_memory_size
  H.ExpansionCosts c.memory (toInt64 needed_memory_size)

/-- The statements after the nested call, which are the same in `opCall`, `opStaticCall`
and `opDelegateCall`: the conditional copy of `ret` into memory, the success flag, the
returned gas and the return-data buffer. -/
def afterCall (H : Host) (c : context) (retOffset retSize : Word) (ret : Bytes)
    (returnGas : Nat) (err : Option VmError) : context :=
  let c1 :=
    if err = none ∨ err = some .ErrExecutionReverted then
      let c' := H.EnsureCapacity c (toInt64 (Uint64 retOffset)) (toInt64 (Uint64 retSize))
      { c' with memory := H.Set c'.memory (Uint64 retOffset) (Uint64 retSize) ret }
    else c
  let c2 := pushAfterPop c1 (if err ≠ none then 0 else 1)
  { c2 with gas := (c2.gas + returnGas) % 2 ^ 64, return_data := ret }

/-- `opCall`. -/
def opCall (H : Host) (c : context) : Option context :=
  match c.stack with
  | provided_gas :: addr :: value :: inOffset :: inSize :: retOffset :: retSize :: rest =>
    let c0 := { c with stack := rest }
    let base_gas0 := callBaseGas H c0 inOffset inSize retOffset retSize
    let base_gas :=
      if value ≠ 0 then (base_gas0 + CallValueTransferGas) % 2 ^ 64 else base_gas0
    let gas := H.callGas c0.gas base_gas provided_gas
    let toAddr := addr % 2 ^ 160
    let r1 := if value ≠ 0 ∧ ¬ H.Exist toAddr then UseGas c0 CallNewAccountGas else (true, c0)
    if ¬ r1.1 then some r1.2
    else
      let r2 := if value ≠ 0 then UseGas r1.2 CallValueTransferGas else (true, r1.2)
      if ¬ r2.1 then some r2.2
      else
        let r3 := UseGas r2.2 gas
        if ¬ r3.1 then some r3.2
        else
          let c1 := r3.2
          let args := H.GetSlice c1.memory (toInt64 (Uint64 inOffset)) (toInt64 (Uint64 inSize))
          let gas' := if value ≠ 0 then (gas + CallStipend) % 2 ^ 64 else gas
          let r := H.Call c1 toAddr args gas' value
          some (afterCall H c1 retOffset retSize r.1 r.2.1 r.2.2)
  | _ => none

/-- `opStaticCall`. -/
def opStaticCall (H : Host) (c : context) : Option context :=
  match c.stack with
  | provided_gas :: addr :: inOffset :: inSize :: retOffset :: retSize :: rest =>
    let c0 := { c with stack := rest }
    let base_gas := callBaseGas H c0 inOffset inSize retOffset retSize
    let gas := H.callGas c0.gas base_gas provided_gas
    let r3 := UseGas c0 gas
    if ¬ r3.1 then some r3.2
    else
      let c1 := r3.2
      let toAddr := addr % 2 ^ 160
      let args := H.GetSlice c1.memory (toInt64 (Uint64 inOffset)) (toInt64 (Uint64 inSize))
      let r := H.StaticCall c1 toAddr args gas
      some (afterCall H c1 retOffset retSize r.1 r.2.1 r.2.2)
  | _ => none

/-- `opDelegateCall`. -/
def opDelegateCall (H : Host) (c : context) : Option context :=
  match c.stack with
  | provided_gas :: addr :: inOffset :: inSize :: retOffset :: retSize :: rest =>
    let c0 := { c with stack := rest }
    let base_gas := callBaseGas H c0 inOffset inSize retOffset retSize
    let gas := H.callGas c0.gas base_gas provided_gas
    let r3 := UseGas c0 gas
    if ¬ r3.1 then some r3.2
    else
      let c1 := r3.2
      let toAddr := addr % 2 ^ 160
      let args := H.GetSlice c1.memory (toInt64 (Uint64 inOffset)) (toInt64 (Uint64 inSize))
      let r := H.DelegateCall c1 toAddr args gas
      some (afterCall H c1 retOffset retSize r.1 r.2.1 r.2.2)
  | _ => none

/-- `opCreate`. The retained gas is computed from the gas at entry; `c.contract.UseGas`
takes the forwarded gas without a check of its result. -/
def opCreate (H : Host) (c : context) : Option context :=
  match c.stack with
  | value :: offset :: size :: rest =>
    let c0 := { c with stack := rest }
    let input := H.GetSlice c0.memory (toInt64 (Uint64 offset)) (toInt64 (Uint64 size))
    let gas := c0.gas - c0.gas / 64
    let c1 := contractUseGas c0 gas
    let r := H.Create c1 input gas value
    let res := r.1
    let addr := r.2.1
    let returnGas := r.2.2.1
    let suberr := r.2.2.2
    let c2 :=
      pushAfterPop c1
        (if suberr ≠ none ∧ suberr ≠ some .ErrCodeStoreOutOfGas then 0 else addr)
    let c3 := { c2 with gas := (c2.gas + returnGas) % 2 ^ 64 }
    some (if suberr = some .ErrExecutionReverted then { c3 with return_data := res }
      else { c3 with return_data := [] })
  | _ => none

/-- `opCreate2`. -/
def opCreate2 (H : Host) (c : context) : Option context :=
  match c.stack with
  | endowment :: offset :: size :: salt :: rest =>
    let c0 := { c with stack := rest }
    let c1 := H.EnsureCapacity c0 (toInt64 (Uint64 offset)) (toInt64 (Uint64 size))
    let input := H.GetSlice c1.memory (toInt64 (Uint64 offset)) (toInt64 (Uint64 size))
    let words := ((Uint64 size + 31) % 2 ^ 64) / 32
    let r1 := UseGas c1 ((6 * words) % 2 ^ 64)
    if ¬ r1.1 then some r1.2
    else
      let gas := r1.2.gas - r1.2.gas / 64
      let r2 := UseGas r1.2 gas
      if ¬ r2.1 then some r2.2
      else
        let c2 := r2.2
        let r := H.Create2 c2 input gas endowment salt
        let res := r.1
        let addr := r.2.1
        let returnGas := r.2.2.1
        let suberr := r.2.2.2
        let c3 := pushAfterPop c2 (if suberr ≠ none then 0 else addr)
        let c4 := { c3 with gas := (c3.gas + returnGas) % 2 ^ 64 }
        some (if suberr = some .ErrExecutionReverted then { c4 with return_data := res }
          else { c4 with return_data := [] })
  | _ => none

/-! ### A host for concrete evaluations -/

/-- Modelled from the spec: the expansion cost of a memory of `w` words (section 4.2),
`3 w + w² / 512`. -/
def memoryCost (w : Nat) : Nat := 3 * w + w * w / 512

/-- Modelled from the spec: `Memory.ExpansionCosts` (section 4.2): nothing when the memory
is large enough, else the cost of the new size in words less the cost of the present
size. -/
def specExpansionCosts (memory : Bytes) (size : Int) : Nat :=
  if size.toNat ≤ memory.length then 0
  else memoryCost ((size.toNat + 31) / 32) - memoryCost ((memory.length + 31) / 32)

/-- Modelled from the spec: `Memory.EnsureCapacity` (section 4.2): the memory grows to the
next multiple of 32 bytes that holds `offset + size`, the expansion is charged, and on
insufficient gas the memory is left unchanged. -/
def specEnsureCapacity (c : context) (offset size : Int) : context :=
  if size ≤ 0 then c
  else if (offset + size).toNat ≤ c.memory.length then c
  else
    let r := UseGas c (specExpansionCosts c.memory (offset + size))
    if r.1 then
      { r.2 with memory := r.2.memory ++
          List.replicate (((offset + size).toNat + 31) / 32 * 32 - r.2.memory.length) 0 }
    else r.2

/-- Modelled from the spec: `Memory.Set` (section 4.2): `size` bytes at `offset` are
replaced by `value`, padded with zero bytes on the right; a range that does not lie in
the memory is not written. -/
def specSet (memory : Bytes) (offset size : Nat) (value : Bytes) : Bytes :=
  if size = 0 ∨ memory.length < offset + size then memory
  else memory.take offset ++ (value ++ List.replicate size 0).take size ++
    memory.drop (offset + size)

/-- Modelled from the spec: `Memory.GetSlice` (section 4.2): `size` bytes from `offset`,
zero bytes beyond the end of the memory. -/
def specGetSlice (memory : Bytes) (offset size : Int) : Bytes :=
  ((memory.drop offset.toNat) ++ List.replicate size.toNat 0).take size.toNat

/-- Modelled from the spec: `callGas` (section 8, scenario B): the provided gas, capped at
all but one 64th of what is left after the base cost. -/
def specCallGas (available base : Nat) (provided : Word) : Nat :=
  let left := available - base
  let cap := left - left / 64
  if provided > cap then cap else provided

/-- A host with the memory of the spec, in which every account exists and every nested
execution succeeds with empty output and returns the gas it was given; a creation yields
the address `0x1234`. -/
def specHost : Host :=
  { EnsureCapacity := specEnsureCapacity
    Set := specSet
    GetSlice := specGetSlice
    ExpansionCosts := specExpansionCosts
    callGas := specCallGas
    Exist := fun _ => true
    Call := fun _ _ _ gas _ => ([], gas, none)
    StaticCall := fun _ _ _ gas => ([], gas, none)
    DelegateCall := fun _ _ _ gas => ([], gas, none)
    Create := fun _ _ gas _ => ([], 0x1234, gas, none)
    Create2 := fun _ _ gas _ _ => ([], 0x1234, gas, none) }

/-- The host `specHost` with a creation that runs out of gas when the code is stored: it
returns the address `0x1234`, no gas and `ErrCodeStoreOutOfGas`. -/
def codeStoreHost : Host :=
  { specHost with
    Create := fun _ _ _ _ => ([], 0x1234, 0, some .ErrCodeStoreOutOfGas)
    Create2 := fun _ _ _ _ _ => ([], 0x1234, 0, some .ErrCodeStoreOutOfGas) }

/-- The gas that `opCall` forwards before the stipend is added: `callGas` of the remaining
gas, of the base cost (with the value-transfer fee for a non-zero value) and of the
provided gas. -/
def callForwardedGas (H : Host) (c : context)
    (provided_gas value inOffset inSize retOffset retSize : Word) : Nat :=
  H.callGas c.gas
    (if value ≠ 0 then
        (callBaseGas H c inOffset inSize retOffset retSize + CallValueTransferGas) % 2 ^ 64
      else callBaseGas H c inOffset inSize retOffset retSize)
    provided_gas

/-- The fees that `opCall` charges before the forwarded gas: nothing for a zero value, else
the value-transfer fee and, for an account that does not exist, the new-account fee. -/
def callSurcharge (H : Host) (value addr : Word) : Nat :=
  if value ≠ 0 then
    (if H.Exist (addr % 2 ^ 160) then 0 else CallNewAccountGas) + CallValueTransferGas
  else 0

/-- The frame of `opCreate` at the moment the nested creation starts: the three operands
are popped and the forwarded gas, all but one 64th of the gas at entry, is taken. -/
def createFrame (c : context) (rest : List Word) : context :=
  contractUseGas { c with stack := rest } (c.gas - c.gas / 64)

/-- The code-size charge of `opCreate2`: 6 gas for each 32-byte word of `size.Uint64()`, in
64-bit arithmetic. -/
def create2WordGas (size : Word) : Nat := (6 * (((Uint64 size + 31) % 2 ^ 64) / 32)) % 2 ^ 64

/-- The frame of `opCreate2` after `EnsureCapacity` and the code-size charge. -/
def create2Charged (H : Host) (c : context) (offset size : Word) (rest : List Word) :
    context :=
  { H.EnsureCapacity { c with stack := rest } (toInt64 (Uint64 offset))
      (toInt64 (Uint64 size)) with
    gas := (H.EnsureCapacity { c with stack := rest } (toInt64 (Uint64 offset))
      (toInt64 (Uint64 size))).gas - create2WordGas size }

/-- The frame of `opCreate2` at the moment the nested creation starts: all but one 64th of
the gas left after the code-size charge is taken. -/
def create2Frame (H : Host) (c : context) (offset size : Word) (rest : List Word) : context :=
  { create2Charged H c offset size rest with
    gas := (create2Charged H c offset size rest).gas -
      ((create2Charged H c offset size rest).gas -
        (create2Charged H c offset size rest).gas / 64) }

/-! ## Data copies -/

/-- `uint256.Int.Uint64WithOverflow()`: the lowest limb, and whether one of the upper three
limbs is not zero. -/
def Uint64WithOverflow (w : Word) : Nat × Bool :=
  (limb w 0, decide (limb w 1 ≠ 0 ∨ limb w 2 ≠ 0 ∨ limb w 3 ≠ 0))

/-- `common.RightPadBytes(slice, l)` of go-ethereum, with `l` an `int`: the slice itself
when `l <= len(slice)`, else the slice followed by zero bytes up to the length `l`. The
allocation `make([]byte, l)` is taken to succeed: the limit of the Go run time on the size
of an allocation is not part of the model. -/
def RightPadBytes (slice : Bytes) (l : Int) : Bytes :=
  if l ≤ (slice.length : Int) then slice
  else slice ++ List.replicate (l.toNat - slice.length) 0

/-- The Go slice expression `s[low:high]` on a byte slice without spare capacity: `none`
is the slice-bounds-out-of-range panic, raised unless `low <= high <= len(s)`. -/
def sliceBytes (s : Bytes) (low high : Nat) : Option Bytes :=
  if low ≤ high ∧ high ≤ s.length then some ((s.drop low).take (high - low)) else none

/-- `getData`: `start` and `size` are `uint64` values, the sum `start + size` is a 64-bit
addition. -/
def getData (data : Bytes) (start size : Nat) : Option Bytes :=
  let length := data.length
  let start1 := if start > length then length else start
  let stop := (start1 + size) % 2 ^ 64
  let stop1 := if stop > length then length else stop
  match sliceBytes data start1 stop1 with
  | none => none
  | some s => some (RightPadBytes s (toInt64 size))

/-- The copy charge of `opCallDataCopy`, `opCodeCopy` and `opReturnDataCopy`:
`3 * ((length64 + 31) / 32)` in 64-bit arithmetic. -/
def copyPrice (length64 : Nat) : Nat := (3 * (((length64 + 31) % 2 ^ 64) / 32)) % 2 ^ 64

/-- `opCallDataCopy`. -/
def opCallDataCopy (H : Host) (c : context) : Option context :=
  match c.stack with
  | memOffset :: dataOffset :: length :: rest =>
    let c0 := { c with stack := rest }
    let dataOffset64 :=
      if (Uint64WithOverflow dataOffset).2 then 0xffffffffffffffff
      else (Uint64WithOverflow dataOffset).1
    let memOffset64 := Uint64 memOffset
    let length64 := Uint64 length
    let r := UseGas c0 (copyPrice length64)
    if ¬ r.1 then some r.2
    else
      let c1 := H.EnsureCapacity r.2 (toInt64 memOffset64) (toInt64 length64)
      match getData c1.data dataOffset64 length64 with
      | none => none
      | some d => some { c1 with memory := H.Set c1.memory memOffset64 length64 d }
  | _ => none

/-- `opCodeCopy`. -/
def opCodeCopy (H : Host) (c : context) : Option context :=
  match c.stack with
  | memOffset :: codeOffset :: length :: rest =>
    let c0 := { c with stack := rest }
    let uint64CodeOffset :=
      if (Uint64WithOverflow codeOffset).2 then 0xffffffffffffffff
      else (Uint64WithOverflow codeOffset).1
    let r := UseGas c0 (copyPrice (Uint64 length))
    if ¬ r.1 then some r.2
    else
      match getData r.2.contract_code uint64CodeOffset (Uint64 length) with
      | none => none
      | some codeCopy =>
        let c1 := H.EnsureCapacity r.2 (toInt64 (Uint64 memOffset)) (toInt64 (Uint64 length))
        some { c1 with memory := H.Set c1.memory (Uint64 memOffset) (Uint64 length) codeCopy }
  | _ => none

/-- `opReturnDataCopy`. The variable `end` is the slot of `dataOffset`, which receives
`dataOffset + length` modulo `2 ^ 256`. -/
def opReturnDataCopy (H : Host) (c : context) : Option context :=
  match c.stack with
  | memOffset :: dataOffset :: length :: rest =>
    let c0 := { c with stack := rest }
    if (Uint64WithOverflow dataOffset).2 then some (SignalError c0 .ErrReturnDataOutOfBounds)
    else
      let offset64 := (Uint64WithOverflow dataOffset).1
      let stop := u256Add dataOffset length
      let end64 := (Uint64WithOverflow stop).1
      if (Uint64WithOverflow stop).2 ∨ c0.return_data.length < end64 then
        some (SignalError c0 .ErrReturnDataOutOfBounds)
      else
        let c1 := H.EnsureCapacity c0 (toInt64 (Uint64 memOffset)) (toInt64 (Uint64 length))
        let r := UseGas c1 (copyPrice (Uint64 length))
        if ¬ r.1 then some r.2
        else
          match sliceBytes r.2.return_data offset64 end64 with
          | none => none
          | some d =>
            some { r.2 with memory := H.Set r.2.memory (Uint64 memOffset) (Uint64 length) d }
  | _ => none

/-! ## Memory stores and ledger writes -/

/-- The collaborators of the store handlers: those of `Host` and the two word and byte
writes of the memory. -/
structure MemHost extends Host where
  /-- The memory after `c.memory.SetWord(offset, value)`. -/
  SetWord : Bytes → Int → Word → Bytes
  /-- The memory after `c.memory.SetByte(offset, b)`. -/
  SetByte : Bytes → Int → Nat → Bytes

/-- `opMstore`. -/
def opMstore (M : MemHost) (c : context) : Option context :=
  match pop c with
  | none => none
  | some (addr, c1) =>
    match pop c1 with
    | none => none
    | some (value, c2) =>
      let offset := toInt64 (Uint64 addr)
      let c3 := M.EnsureCapacity c2 offset 32
      if c3.status = .RUNNING then some { c3 with memory := M.SetWord c3.memory offset value }
      else some c3

/-- `opMstore8`: the byte written is `byte(value.Uint64())`. -/
def opMstore8 (M : MemHost) (c : context) : Option context :=
  match pop c with
  | none => none
  | some (addr, c1) =>
    match pop c1 with
    | none => none
    | some (value, c2) =>
      let offset := toInt64 (Uint64 addr)
      let c3 := M.EnsureCapacity c2 offset 1
      if c3.status = .RUNNING then
        some { c3 with memory := M.SetByte c3.memory offset (Uint64 value % 256) }
      else some c3

/-- `opDup2_Mstore`: the value is popped, the address stays on the stack. -/
def opDup2_Mstore (M : MemHost) (c : context) : Option context :=
  match pop c with
  | none => none
  | some (value, c1) =>
    match Back c1 0 with
    | none => none
    | some addr =>
      let offset := toInt64 (Uint64 addr)
      let c3 := M.EnsureCapacity c1 offset 32
      if c3.status = .RUNNING then some { c3 with memory := M.SetWord c3.memory offset value }
      else some c3

/-- The collaborators of `opSstore` and `opSelfdestruct` that are declared outside the
listed sources: the two cost functions and the balance read of the ledger. What the cost
functions do to the ledger themselves is not part of the model. -/
structure LedgerHost where
  /-- The result `(price, err)` of `gasSStore(c)`; the error is given by its message. -/
  gasSStore : context → Nat × Option String
  /-- The price `gasSelfdestruct(c)`. -/
  gasSelfdestruct : context → Nat
  /-- The balance `c.stateDB.GetBalance(addr)`. -/
  GetBalance : Nat → Nat

/-- `opSstore`. -/
def opSstore (L : LedgerHost) (c : context) : Option context :=
  if (L.gasSStore c).2 ≠ none then some c
  else
    let r := UseGas c (L.gasSStore c).1
    if ¬ r.1 then some r.2
    else
      match pop r.2 with
      | none => none
      | some (key, c1) =>
        match pop c1 with
        | none => none
        | some (value, c2) =>
          some { c2 with ledger := c2.ledger ++ [.SetState c2.address key value] }

/-- `opSelfdestruct`: the beneficiary is `beneficiary.Bytes20()`, the low twenty bytes of
the popped word. -/
def opSelfdestruct (L : LedgerHost) (c : context) : Option context :=
  let r := UseGas c (L.gasSelfdestruct c)
  if ¬ r.1 then some r.2
  else
    match pop r.2 with
    | none => none
    | some (beneficiary, c1) =>
      let balance := L.GetBalance c1.address
      some { c1 with
        ledger := c1.ledger ++ [.AddBalance (beneficiary % 2 ^ 160) balance,
          .Suicide c1.address],
        status := .SUICIDED }

/-! ## Push handlers -/

/-- The Go slice expression `c.code[low:high]` with `int32` bounds on a code slice without
spare capacity: `none` is the slice-bounds-out-of-range panic. -/
def codeSlice (c : context) (low high : Int) : Option (List Instruction) :=
  if 0 ≤ low ∧ low ≤ high ∧ high ≤ (c.code.length : Int) then
    some ((c.code.drop low.toNat).take (high - low).toNat)
  else none

/-- `uint256.Int.SetBytes` on at most 32 bytes: the big-endian value of the bytes. -/
def bytesToWord (bs : List Nat) : Nat := bs.foldl (fun acc b => acc * 256 + b) 0

/-- The byte `value[i]` that the loop of `opPush` takes from the instructions `data`: the
high byte of `data[i/2].arg` for an even `i`, the low byte for an odd `i`. -/
def pushByte (data : List Instruction) (i : Nat) : Nat :=
  match data[i / 2]? with
  | none => 0
  | some ins => if i % 2 = 0 then (ins.arg >>> 8) % 256 else ins.arg % 256

/-- `opPush`. The access `data[num_instructions-1]` panics for `n = 0` and the slice
`value[0:n]` for `n > 32`. The slot is taken by `pushEmpty` first and written last; here
the push comes last, a failure of either step being the failure of the handler. -/
def opPush (c : context) (n : Nat) : Option context :=
  let num_instructions : Int := toInt32 ((n / 2 + n % 2 : Nat) : Int)
  match codeSlice c c.pc (toInt32 (c.pc + num_instructions)) with
  | none => none
  | some data =>
    if num_instructions - 1 < 0 ∨ (data.length : Int) ≤ num_instructions - 1 then none
    else if n > 32 then none
    else
      pushEmpty { c with pc := toInt32 (c.pc + toInt32 (num_instructions - 1)) }
        (bytesToWord ((List.range n).map (pushByte data)))

/-- The 64-bit value `uint64(arg) << k`. -/
def shl64 (arg k : Nat) : Nat := (arg <<< k) % 2 ^ 64

/-- `opPush3`. -/
def opPush3 (c : context) : Option context :=
  match codeSlice c c.pc (toInt32 (c.pc + 2)) with
  | none => none
  | some data =>
    match data[0]?, data[1]? with
    | some d0, some d1 =>
      pushEmpty { c with pc := toInt32 (c.pc + 1) }
        (ofLimbs (shl64 d0.arg 8 ||| (d1.arg >>> 8)) 0 0 0)
    | _, _ => none

/-- `opPush4`. -/
def opPush4 (c : context) : Option context :=
  match codeSlice c c.pc (toInt32 (c.pc + 2)) with
  | none => none
  | some data =>
    match data[0]?, data[1]? with
    | some d0, some d1 =>
      pushEmpty { c with pc := toInt32 (c.pc + 1) }
        (ofLimbs (shl64 d0.arg 16 ||| d1.arg) 0 0 0)
    | _, _ => none

/-- One limb of `opPush32`: the four arguments `a0 .. a3` joined, `a0` highest. -/
def limbOfArgs (a0 a1 a2 a3 : Nat) : Nat :=
  shl64 a0 48 ||| shl64 a1 32 ||| shl64 a2 16 ||| a3

/-- `opPush32`. -/
def opPush32 (c : context) : Option context :=
  match codeSlice c c.pc (toInt32 (c.pc + 16)) with
  | none => none
  | some data =>
    match data with
    | [d0, d1, d2, d3, d4, d5, d6, d7, d8, d9, d10, d11, d12, d13, d14, d15] =>
      pushEmpty { c with pc := toInt32 (c.pc + 15) }
        (ofLimbs (limbOfArgs d12.arg d13.arg d14.arg d15.arg)
          (limbOfArgs d8.arg d9.arg d10.arg d11.arg)
          (limbOfArgs d4.arg d5.arg d6.arg d7.arg)
          (limbOfArgs d0.arg d1.arg d2.arg d3.arg))
    | _ => none

/-! ### Further hosts for concrete evaluations -/

/-- Modelled from the spec: the host `specHost` with the word and byte writes of the memory
(section 4.2): both go through `specSet`, the word as 32 big-endian bytes. -/
def specMemHost : MemHost :=
  { specHost with
    SetWord := fun memory offset value =>
      specSet memory offset.toNat 32
        ((List.range 32).map (fun i => Fin.ofNat ((value / 256 ^ (31 - i)) % 256)))
    SetByte := fun memory offset b => specSet memory offset.toNat 1 [Fin.ofNat b] }

/-- A stack of `StackLimit` words, all zero: the full stack. -/
def fullStack : List Word := List.replicate StackLimit 0

/-- A ledger in which `SSTORE` costs 5 gas, `SELFDESTRUCT` 7 gas, and every account holds
a balance of 1000. -/
def specLedger : LedgerHost :=
  { gasSStore := fun _ => (5, none)
    gasSelfdestruct := fun _ => 7
    GetBalance := fun _ => 1000 }

/-- A running frame with 100 gas at program counter 0 of the code
`SWAP2_SWAP1_POP_JUMP, STOP, JUMPDEST`, for concrete evaluations: index 2 is the only valid
jump destination. -/
def sampleFrame (stack : List Word) : context :=
  { pc := 0
    code := [⟨.SWAP2_SWAP1_POP_JUMP, 0⟩, ⟨.STOP, 0⟩, ⟨.JUMPDEST, 0⟩]
    stack := stack
    status := .RUNNING
    err := none
    gas := 100 }

/-- The unfused sequence `SWAP2, SWAP1, POP, JUMP`, one handler after the other. -/
def unfusedSwap2_Swap1_Pop_Jump (c : context) : Option context :=
  (((opSwap c 2).bind (fun c1 => opSwap c1 1)).bind opPop).bind opJump

end Lfvm

namespace ContractDict

/-! ## Specification-side definitions -/

/-- The addresses of `xs` with repetitions removed, each kept at its first occurrence. -/
def firstOccurrences (xs : List Address) : List Address :=
  xs.foldl (fun acc x => if x ∈ acc then acc else acc ++ [x]) []

/-- The two tables describe the same relation: `contractToIdx[a] = i` exactly when
`idxToContract[i] = a`. -/
def Bijective (cd : ContractDictionary) : Prop :=
  ∀ a i, mapGet cd.contractToIdx a = some i ↔ cd.idxToContract[i]? = some a

/-- The dictionary that holds the addresses `as` in this order, each entered with the next
free index on top of `cd`: what the body of the loop of `Read` does for a list of
records. -/
def loadRecords (cd : ContractDictionary) (as : List Address) : ContractDictionary :=
  as.foldl (fun d a =>
    { contractToIdx := mapSet d.contractToIdx a d.idxToContract.length,
      idxToContract := d.idxToContract ++ [a] }) cd

/-- Sample addresses for concrete evaluations: twenty bytes `0x01`, resp. `0x02`. -/
def addr1 : Address := ⟨List.replicate 20 1, by simp⟩

/-- See `addr1`. -/
def addr2 : Address := ⟨List.replicate 20 2, by simp⟩

/-! ## Lemmas on the map operations -/

theorem mapGet_filter_ne (m : AddrMap) (k a : Address) (h : a ≠ k) :
    mapGet (m.filter (fun p => !decide (p.1 = k))) a = mapGet m a := by
  induction m with
  | nil => rfl
  | cons p rest ih =>
    obtain ⟨k', v⟩ := p
    by_cases hk : k' = k
    · subst hk
      have hne : ¬ k' = a := fun e => h e.symm
      simp [List.filter, mapGet, hne, ih]
    · simp [List.filter, mapGet, hk, ih]

theorem mapGet_mapSet (m : AddrMap) (k a : Address) (v : Nat) :
    mapGet (mapSet m k v) a = if k = a then some v else mapGet m a := by
  by_cases h : k = a
  · simp [mapSet, mapGet, h]
  · have h' : a ≠ k := fun e => h e.symm
    simp [mapSet, mapGet, h, mapGet_filter_ne m k a h']

/-! ## Lemmas on the invariant -/

theorem Bijective_new : Bijective NewContractDictionary := by
  intro a i
  simp [NewContractDictionary, mapGet]

theorem Bijective.mem_iff {cd : ContractDictionary} (h : Bijective cd) (a : Address) :
    a ∈ cd.idxToContract ↔ ∃ i, mapGet cd.contractToIdx a = some i := by
  constructor
  · intro ha
    obtain ⟨i, hi, hget⟩ := List.getElem_of_mem ha
    exact ⟨i, (h a i).2 (by simp [List.getElem?_eq_getElem hi, hget])⟩
  · rintro ⟨i, hi⟩
    exact List.getElem?_mem ((h a i).1 hi)

theorem Bijective.nodup {cd : ContractDictionary} (h : Bijective cd) :
    cd.idxToContract.Nodup := by
  rw [List.nodup_iff_injective_get]
  intro i j hij
  have hi : cd.idxToContract[i.1]? = some (cd.idxToContract.get i) := by
    simp [List.getElem?_eq_getElem i.2]
  have hj : cd.idxToContract[j.1]? = some (cd.idxToContract.get i) := by
    rw [hij]; simp [List.getElem?_eq_getElem j.2]
  have h1 := (h _ _).2 hi
  have h2 := (h _ _).2 hj
  rw [h1] at h2
  exact Fin.ext (Option.some.inj h2)

theorem Bijective.insert {cd : ContractDictionary} (h : Bijective cd) (x : Address)
    (hx : mapGet cd.contractToIdx x = none) :
    Bijective
      { contractToIdx := mapSet cd.contractToIdx x cd.idxToContract.length,
        idxToContract := cd.idxToContract ++ [x] } := by
  intro a i
  simp only [mapGet_mapSet, List.getElem?_append]
  by_cases hxa : x = a
  · subst hxa
    simp only [if_true]
    constructor
    · intro hi
      have : cd.idxToContract.length = i := Option.some.inj hi
      subst this
      simp
    · intro hi
      by_cases hlt : i < cd.idxToContract.length
      · rw [if_pos hlt] at hi
        have := (h x i).2 hi
        rw [hx] at this
        exact absurd this (by simp)
      · rw [if_neg hlt] at hi
        have hlen : i - cd.idxToContract.length < [x].length := by
          by_contra hc
          rw [List.getElem?_eq_none (by omega)] at hi
          exact absurd hi (by simp)
        simp at hlen
        have : cd.idxToContract.length = i := by omega
        rw [this]
  · simp only [if_neg hxa]
    constructor
    · intro hi
      have hi' := (h a i).1 hi
      have hlt : i < cd.idxToContract.length := by
        obtain ⟨hlt, _⟩ := List.getElem?_eq_some.1 hi'
        exact hlt
      rw [if_pos hlt]
      exact hi'
    · intro hi
      by_cases hlt : i < cd.idxToContract.length
      · rw [if_pos hlt] at hi
        exact (h a i).2 hi
      · rw [if_neg hlt] at hi
        exfalso
        by_cases h0 : i - cd.idxToContract.length = 0
        · rw [h0] at hi
          simp at hi
          exact hxa hi
        · rw [List.getElem?_eq_none (by simp; omega)] at hi
          exact absurd hi (by simp)

theorem Bijective.Encode (maxUint : Nat) {cd : ContractDictionary} (h : Bijective cd)
    (x : Address) : Bijective (cd.Encode maxUint x).2 := by
  unfold ContractDictionary.Encode
  cases hx : mapGet cd.contractToIdx x with
  | some idx => exact h
  | none =>
    by_cases hm : cd.idxToContract.length = maxUint
    · simp [hm]
      exact h
    · simp [hm]
      exact h.insert x hx

theorem Bijective.encodeAll (maxUint : Nat) (xs : List Address) :
    ∀ {cd : ContractDictionary}, Bijective cd → Bijective (encodeAll maxUint cd xs) := by
  induction xs with
  | nil => intro cd h; exact h
  | cons x xs ih =>
    intro cd h
    exact ih (h.Encode maxUint x)

/-! ## Decode and exhaustion -/

/-- C3: `Decode(idx)` returns an error exactly when `idx` is at or beyond the table size;
the address returned with the error is the all-zero address, and `Decode` leaves the
dictionary as it was. -/
theorem Decode_error_iff_out_of_range (cd : ContractDictionary) (idx : Nat) :
    ((cd.Decode idx).1.2 ≠ none ↔ cd.idxToContract.length ≤ idx) ∧
    ((cd.Decode idx).1.2 = none ∨ (cd.Decode idx).1 = (Address.zero, some errOutOfBound)) ∧
    Address.zero.Bytes = List.replicate 20 0 ∧
    (cd.Decode idx).2 = cd := by
  unfold ContractDictionary.Decode
  by_cases h : idx < cd.idxToContract.length
  · simp [h, Address.zero, Address.Bytes]
  · simp [h, Address.zero, Address.Bytes]
    omega

/-- C8: `Encode(x)` returns an error exactly when `x` has no entry and the table size is
`math.MaxUint`; it then returns index 0 with the exhaustion error and leaves both tables
as they were; that error differs from every error of `Decode`; and an address that has an
entry is encoded without error on every table, a full one included. -/
theorem Encode_exhaustion (maxUint : Nat) (cd : ContractDictionary) (x : Address) :
    (((cd.Encode maxUint x).1.2 ≠ none) ↔
      (mapGet cd.contractToIdx x = none ∧ cd.idxToContract.length = maxUint)) ∧
    ((cd.Encode maxUint x).1.2 = none ∨
      cd.Encode maxUint x = ((0, some errExhausted), cd)) ∧
    (∀ (cd' : ContractDictionary) (idx : Nat),
      (cd.Encode maxUint x).1.2 = none ∨ (cd'.Decode idx).1.2 ≠ (cd.Encode maxUint x).1.2) ∧
    (∀ i, mapGet cd.contractToIdx x = some i →
      cd.Encode maxUint x = ((i, none), cd)) := by
  unfold ContractDictionary.Encode
  cases hx : mapGet cd.contractToIdx x with
  | some i => simp
  | none =>
    by_cases hm : cd.idxToContract.length = maxUint
    · simp only [hm, ne_eq, not_true_eq_false, if_false, true_and, and_self, reduceCtorEq,
        not_false_eq_true, or_true, false_implies, implies_true, and_true, iff_true, true_and]
      intro cd' idx
      right
      unfold ContractDictionary.Decode
      by_cases hi : idx < cd'.idxToContract.length
      · simp [hi]
      · simp [hi, errOutOfBound, errExhausted]
    · simp [hm]

/-! ## Round trip and dense indices -/

theorem Encode_of_mapGet_none (maxUint : Nat) (cd : ContractDictionary) (x : Address)
    (hx : mapGet cd.contractToIdx x = none) (hm : cd.idxToContract.length ≠ maxUint) :
    cd.Encode maxUint x =
      ((cd.idxToContract.length, none),
        { contractToIdx := mapSet cd.contractToIdx x cd.idxToContract.length,
          idxToContract := cd.idxToContract ++ [x] }) := by
  unfold ContractDictionary.Encode
  simp [hx, hm]

theorem Encode_of_mapGet_some (maxUint : Nat) (cd : ContractDictionary) (x : Address) (i : Nat)
    (hx : mapGet cd.contractToIdx x = some i) :
    cd.Encode maxUint x = ((i, none), cd) := by
  unfold ContractDictionary.Encode
  simp [hx]

theorem Decode_of_getElem? (cd : ContractDictionary) (i : Nat) (a : Address)
    (h : cd.idxToContract[i]? = some a) : (cd.Decode i).1 = (a, none) := by
  obtain ⟨hlt, hget⟩ := List.getElem?_eq_some.1 h
  unfold ContractDictionary.Decode
  simp [hlt, hget]

theorem getElem?_of_Decode (cd : ContractDictionary) (i : Nat) (a : Address)
    (h : (cd.Decode i).1 = (a, none)) : cd.idxToContract[i]? = some a := by
  unfold ContractDictionary.Decode at h
  by_cases hlt : i < cd.idxToContract.length
  · simp [hlt] at h
    simp [List.getElem?_eq_getElem hlt, h]
  · simp [hlt] at h

theorem Encode_idxToContract_append (maxUint : Nat) (cd : ContractDictionary) (x : Address) :
    ∃ suffix, (cd.Encode maxUint x).2.idxToContract = cd.idxToContract ++ suffix := by
  unfold ContractDictionary.Encode
  cases hx : mapGet cd.contractToIdx x with
  | some i => exact ⟨[], by simp⟩
  | none =>
    by_cases hm : cd.idxToContract.length = maxUint
    · exact ⟨[], by simp [hm]⟩
    · exact ⟨[x], by simp [hm]⟩

/-- C4: in every dictionary reached from `NewContractDictionary` by `Encode` calls,
`contractToIdx[a] = i` holds exactly when `i` is below the table size and
`idxToContract[i] = a`; `idxToContract` holds no address twice; and a further `Encode`
only appends: the table after the call is the table before it followed by a suffix, so
every index that decoded to an address still decodes to it. -/
theorem Encode_keeps_bijection (maxUint : Nat) (xs : List Address) (x : Address) :
    (∀ a i, mapGet (encodeAll maxUint NewContractDictionary xs).contractToIdx a = some i ↔
      ∃ h : i < (encodeAll maxUint NewContractDictionary xs).idxToContract.length,
        (encodeAll maxUint NewContractDictionary xs).idxToContract.get ⟨i, h⟩ = a) ∧
    (encodeAll maxUint NewContractDictionary xs).idxToContract.Nodup ∧
    (∃ suffix, ((encodeAll maxUint NewContractDictionary xs).Encode maxUint x).2.idxToContract =
      (encodeAll maxUint NewContractDictionary xs).idxToContract ++ suffix) ∧
    (∀ i a, ((encodeAll maxUint NewContractDictionary xs).Decode i).1 = (a, none) →
      ((((encodeAll maxUint NewContractDictionary xs).Encode maxUint x).2).Decode i).1 =
        (a, none)) := by
  have hb : Bijective (encodeAll maxUint NewContractDictionary xs) :=
    Bijective.encodeAll maxUint xs Bijective_new
  refine ⟨?_, hb.nodup, Encode_idxToContract_append maxUint _ x, ?_⟩
  · intro a i
    rw [hb a i, List.getElem?_eq_some]
    rfl
  · intro i a h
    have h1 := getElem?_of_Decode _ i a h
    obtain ⟨suffix, hs⟩ := Encode_idxToContract_append maxUint
      (encodeAll maxUint NewContractDictionary xs) x
    apply Decode_of_getElem?
    rw [hs]
    obtain ⟨hlt, _⟩ := List.getElem?_eq_some.1 h1
    rw [List.getElem?_append_left hlt]
    exact h1

theorem Encode_Decode_of_Bijective (maxUint : Nat) (cd : ContractDictionary) (x : Address)
    (hb : Bijective cd) (hlt : cd.idxToContract.length < maxUint) :
    (cd.Encode maxUint x).1.2 = none ∧
    ((cd.Encode maxUint x).2.Decode (cd.Encode maxUint x).1.1).1 = (x, none) := by
  cases hx : mapGet cd.contractToIdx x with
  | some i =>
    rw [Encode_of_mapGet_some maxUint cd x i hx]
    exact ⟨rfl, Decode_of_getElem? cd i x ((hb x i).1 hx)⟩
  | none =>
    rw [Encode_of_mapGet_none maxUint cd x hx (by omega)]
    refine ⟨rfl, Decode_of_getElem? _ _ x ?_⟩
    simp

/-- C1: in a dictionary reached from `NewContractDictionary` by `Encode` calls whose table
size is below `math.MaxUint`, `Encode(x)` returns an index without error and `Decode` of
that index, on the dictionary after the call, returns `x` without error. -/
theorem Encode_Decode_round_trip (maxUint : Nat) (xs : List Address) (x : Address)
    (hlt : (encodeAll maxUint NewContractDictionary xs).idxToContract.length < maxUint) :
    ((encodeAll maxUint NewContractDictionary xs).Encode maxUint x).1.2 = none ∧
    ((((encodeAll maxUint NewContractDictionary xs).Encode maxUint x).2).Decode
      ((encodeAll maxUint NewContractDictionary xs).Encode maxUint x).1.1).1 = (x, none) :=
  Encode_Decode_of_Bijective maxUint _ x (Bijective.encodeAll maxUint xs Bijective_new) hlt

/-- Witness of C1: the table holding `addr1`, then `Encode(addr2)`, on a 64-bit
platform. -/
theorem Encode_Decode_round_trip_witness :
    (encodeAll (2 ^ 64 - 1) NewContractDictionary [addr1]).idxToContract.length < 2 ^ 64 - 1 ∧
    ((encodeAll (2 ^ 64 - 1) NewContractDictionary [addr1]).Encode (2 ^ 64 - 1) addr2).1.2
      = none ∧
    ((((encodeAll (2 ^ 64 - 1) NewContractDictionary [addr1]).Encode (2 ^ 64 - 1) addr2).2).Decode
      ((encodeAll (2 ^ 64 - 1) NewContractDictionary [addr1]).Encode (2 ^ 64 - 1) addr2).1.1).1
      = (addr2, none) :=
  ⟨by decide, Encode_Decode_round_trip (2 ^ 64 - 1) [addr1] addr2 (by decide)⟩

theorem foldl_firstOccurrences_append (xs : List Address) :
    ∀ acc : List Address, ∃ suffix,
      xs.foldl (fun acc x => if x ∈ acc then acc else acc ++ [x]) acc = acc ++ suffix := by
  induction xs with
  | nil => intro acc; exact ⟨[], by simp⟩
  | cons x xs ih =>
    intro acc
    simp only [List.foldl_cons]
    by_cases hx : x ∈ acc
    · simp only [if_pos hx]
      exact ih acc
    · simp only [if_neg hx]
      obtain ⟨s, hs⟩ := ih (acc ++ [x])
      exact ⟨x :: s, by rw [hs]; simp⟩

theorem Encode_step_of_Bijective (maxUint : Nat) (cd : ContractDictionary) (x : Address)
    (hb : Bijective cd) (hm : x ∈ cd.idxToContract ∨ cd.idxToContract.length ≠ maxUint) :
    (cd.Encode maxUint x).1 =
      (List.indexOf x (if x ∈ cd.idxToContract then cd.idxToContract
        else cd.idxToContract ++ [x]), none) ∧
    (cd.Encode maxUint x).2.idxToContract =
      (if x ∈ cd.idxToContract then cd.idxToContract else cd.idxToContract ++ [x]) := by
  cases hx : mapGet cd.contractToIdx x with
  | some i =>
    have hmem : x ∈ cd.idxToContract := (hb.mem_iff x).2 ⟨i, hx⟩
    rw [Encode_of_mapGet_some maxUint cd x i hx, if_pos hmem]
    obtain ⟨hlt, hget⟩ := List.getElem?_eq_some.1 ((hb x i).1 hx)
    have := List.indexOf_getElem hb.nodup i hlt
    rw [hget] at this
    simp [this]
  | none =>
    have hmem : x ∉ cd.idxToContract := by
      intro hmem
      obtain ⟨i, hi⟩ := (hb.mem_iff x).1 hmem
      rw [hx] at hi
      exact absurd hi (by simp)
    have hne : cd.idxToContract.length ≠ maxUint := by
      rcases hm with h | h
      · exact absurd h hmem
      · exact h
    rw [Encode_of_mapGet_none maxUint cd x hx hne, if_neg hmem]
    refine ⟨?_, rfl⟩
    have : List.indexOf x (cd.idxToContract ++ [x]) = cd.idxToContract.length := by
      rw [List.indexOf_append_of_not_mem hmem]
      simp
    rw [this]

theorem encodeAll_from_Bijective (maxUint : Nat) (xs : List Address) :
    ∀ cd : ContractDictionary, Bijective cd →
      (xs.foldl (fun acc x => if x ∈ acc then acc else acc ++ [x]) cd.idxToContract).length
        ≤ maxUint →
      (encodeAll maxUint cd xs).idxToContract =
        xs.foldl (fun acc x => if x ∈ acc then acc else acc ++ [x]) cd.idxToContract ∧
      encodeResults maxUint cd xs =
        xs.map (fun x => (List.indexOf x
          (xs.foldl (fun acc x => if x ∈ acc then acc else acc ++ [x]) cd.idxToContract),
          none)) := by
  induction xs with
  | nil => intro cd _ _; exact ⟨rfl, rfl⟩
  | cons x xs ih =>
    intro cd hb hlen
    simp only [List.foldl_cons] at hlen ⊢
    have hm : x ∈ cd.idxToContract ∨ cd.idxToContract.length ≠ maxUint := by
      by_cases hx : x ∈ cd.idxToContract
      · exact Or.inl hx
      · right
        rw [if_neg hx] at hlen
        obtain ⟨s, hs⟩ := foldl_firstOccurrences_append xs (cd.idxToContract ++ [x])
        rw [hs] at hlen
        simp at hlen
        omega
    obtain ⟨hres, hst⟩ := Encode_step_of_Bijective maxUint cd x hb hm
    have hb' := hb.Encode maxUint x
    rw [← hst] at hlen ⊢
    obtain ⟨ih1, ih2⟩ := ih _ hb' hlen
    refine ⟨ih1, ?_⟩
    simp only [encodeResults, List.map_cons]
    rw [ih2, hres, ← hst]
    congr 1
    obtain ⟨s, hs⟩ := foldl_firstOccurrences_append xs (cd.Encode maxUint x).2.idxToContract
    rw [hs]
    have hxin : x ∈ (cd.Encode maxUint x).2.idxToContract := by
      rw [hst]
      by_cases hx : x ∈ cd.idxToContract
      · simp [hx]
      · simp [hx]
    rw [List.indexOf_append_of_mem hxin]

theorem mem_firstOccurrences (xs : List Address) :
    ∀ (acc : List Address) (x : Address), x ∈ acc ∨ x ∈ xs →
      x ∈ xs.foldl (fun acc x => if x ∈ acc then acc else acc ++ [x]) acc := by
  induction xs with
  | nil => intro acc x h; simpa using h
  | cons y ys ih =>
    intro acc x h
    simp only [List.foldl_cons]
    apply ih
    by_cases hy : y ∈ acc
    · rw [if_pos hy]
      rcases h with h | h
      · exact Or.inl h
      · rcases List.mem_cons.1 h with h | h
        · exact Or.inl (h ▸ hy)
        · exact Or.inr h
    · rw [if_neg hy]
      rcases h with h | h
      · exact Or.inl (List.mem_append_left _ h)
      · rcases List.mem_cons.1 h with h | h
        · exact Or.inl (by simp [h])
        · exact Or.inr h

/-- C2: when the addresses `xs` are encoded one after another into a fresh dictionary, and
the number of distinct addresses does not exceed `math.MaxUint`, every call returns
without error the position of its address in `xs` with repetitions removed; the table then
holds exactly these distinct addresses in order of first occurrence, the one at position
`k` having index `k`; and encoding an address of `xs` again returns the same index and
leaves the dictionary unchanged. -/
theorem Encode_dense_first_occurrence (maxUint : Nat) (xs : List Address)
    (hlen : (firstOccurrences xs).length ≤ maxUint) :
    encodeResults maxUint NewContractDictionary xs =
      xs.map (fun x => (List.indexOf x (firstOccurrences xs), none)) ∧
    (encodeAll maxUint NewContractDictionary xs).idxToContract = firstOccurrences xs ∧
    (∀ (k : Nat) (hk : k < (firstOccurrences xs).length),
      List.indexOf ((firstOccurrences xs).get ⟨k, hk⟩) (firstOccurrences xs) = k) ∧
    (∀ x ∈ xs, (encodeAll maxUint NewContractDictionary xs).Encode maxUint x =
      ((List.indexOf x (firstOccurrences xs), none),
        encodeAll maxUint NewContractDictionary xs)) := by
  obtain ⟨h1, h2⟩ := encodeAll_from_Bijective maxUint xs NewContractDictionary Bijective_new hlen
  have hb : Bijective (encodeAll maxUint NewContractDictionary xs) :=
    Bijective.encodeAll maxUint xs Bijective_new
  have h1' : (encodeAll maxUint NewContractDictionary xs).idxToContract = firstOccurrences xs :=
    h1
  refine ⟨h2, h1', ?_, ?_⟩
  · intro k hk
    have hnd := hb.nodup
    rw [h1'] at hnd
    exact List.indexOf_getElem hnd k hk
  · intro x hx
    have hmem : x ∈ (encodeAll maxUint NewContractDictionary xs).idxToContract := by
      rw [h1']
      exact mem_firstOccurrences xs [] x (Or.inr hx)
    obtain ⟨i, hi⟩ := (hb.mem_iff x).1 hmem
    rw [Encode_of_mapGet_some maxUint _ x i hi]
    obtain ⟨hlt, hget⟩ := List.getElem?_eq_some.1 ((hb x i).1 hi)
    have := List.indexOf_getElem hb.nodup i hlt
    rw [hget, h1'] at this
    rw [this]

/-- Witness of C2: the sequence `addr1, addr2, addr1` on a 64-bit platform. -/
theorem Encode_dense_first_occurrence_witness :
    (firstOccurrences [addr1, addr2, addr1]).length ≤ 2 ^ 64 - 1 ∧
    encodeResults (2 ^ 64 - 1) NewContractDictionary [addr1, addr2, addr1] =
      [(0, none), (1, none), (0, none)] :=
  ⟨by decide, by
    rw [(Encode_dense_first_occurrence (2 ^ 64 - 1) [addr1, addr2, addr1] (by decide)).1]
    decide⟩

/-! ## Write and Read -/

theorem foldl_append_Bytes (l : List Address) :
    ∀ init : List Byte,
      l.foldl (fun file addr => file ++ addr.Bytes) init = init ++ l.flatMap Address.Bytes := by
  induction l with
  | nil => intro init; simp
  | cons a l ih => intro init; simp [ih]

theorem Write_eq_flatMap (cd : ContractDictionary) :
    cd.Write = cd.idxToContract.flatMap Address.Bytes := by
  unfold ContractDictionary.Write
  rw [foldl_append_Bytes]
  simp

theorem length_flatMap_Bytes (l : List Address) :
    (l.flatMap Address.Bytes).length = 20 * l.length := by
  induction l with
  | nil => simp
  | cons a l ih =>
    have : a.Bytes.length = 20 := a.property
    simp [ih, this]
    omega

theorem BytesToAddress_Bytes (a : Address) : BytesToAddress a.Bytes = a := by
  apply Subtype.ext
  have h : a.val.length = 20 := a.property
  simp [BytesToAddress, Address.Bytes, h]

theorem fileRead_record (a : Address) (rest data : List Byte) (hd : data.length = 20) :
    fileRead (a.Bytes ++ rest) data = (rest, a.Bytes, 20, none) := by
  have h : a.Bytes.length = 20 := a.property
  unfold fileRead
  simp [hd, h, List.take_append_eq_append_take, List.drop_append_eq_append_drop]

theorem loadRecords_idxToContract (as : List Address) :
    ∀ cd : ContractDictionary, (loadRecords cd as).idxToContract = cd.idxToContract ++ as := by
  induction as with
  | nil => intro cd; simp [loadRecords]
  | cons a as ih =>
    intro cd
    have := ih { contractToIdx := mapSet cd.contractToIdx a cd.idxToContract.length,
                 idxToContract := cd.idxToContract ++ [a] }
    simp only [loadRecords, List.foldl_cons] at this ⊢
    rw [this]
    simp

theorem Bijective.loadRecords (as : List Address) :
    ∀ cd : ContractDictionary, Bijective cd → (cd.idxToContract ++ as).Nodup →
      Bijective (loadRecords cd as) := by
  induction as with
  | nil => intro cd h _; exact h
  | cons a as ih =>
    intro cd h hnd
    have hnot : a ∉ cd.idxToContract := by
      intro hmem
      have := (List.nodup_append.1 hnd).2.2
      exact this hmem (by simp)
    have hx : mapGet cd.contractToIdx a = none := by
      cases hg : mapGet cd.contractToIdx a with
      | none => rfl
      | some i => exact absurd ((h.mem_iff a).2 ⟨i, hg⟩) hnot
    have hb' := h.insert a hx
    have := ih _ hb' (by simpa using hnd)
    simpa only [ContractDict.loadRecords, List.foldl_cons] using this

theorem readLoop_records (maxUint : Nat) (as : List Address) :
    ∀ (fuel : Nat) (cd : ContractDictionary) (data : List Byte),
      data.length = 20 → as.length < fuel → cd.idxToContract.length ≤ maxUint →
      readLoop maxUint fuel cd (as.flatMap Address.Bytes) data =
        if cd.idxToContract.length + as.length ≤ maxUint then
          (loadRecords cd as, .fatal "EOF")
        else
          (loadRecords cd (as.take (maxUint - cd.idxToContract.length)), .fatal errTooMany) := by
  induction as with
  | nil =>
    intro fuel cd data hd hf hc
    obtain ⟨fuel, rfl⟩ : ∃ k, fuel = k + 1 := ⟨fuel - 1, by simp at hf; omega⟩
    simp [readLoop, fileRead, hd, hc, loadRecords]
  | cons a as ih =>
    intro fuel cd data hd hf hc
    obtain ⟨fuel, rfl⟩ : ∃ k, fuel = k + 1 := ⟨fuel - 1, by omega⟩
    have ha : a.Bytes.length = 20 := a.property
    simp only [List.flatMap_cons, readLoop, fileRead_record a _ data hd, ha,
      lt_self_iff_false, if_false, BytesToAddress_Bytes]
    by_cases hm : cd.idxToContract.length = maxUint
    · have : ¬ (cd.idxToContract.length + (a :: as).length ≤ maxUint) := by
        simp; omega
      simp [hm, loadRecords]
    · rw [if_neg hm]
      rw [ih fuel _ a.Bytes ha (by simp at hf; omega) (by simp; omega)]
      have hlen : (cd.idxToContract ++ [a]).length = cd.idxToContract.length + 1 := by simp
      simp only [hlen, List.length_cons]
      have htake : (a :: as).take (maxUint - cd.idxToContract.length) =
          a :: as.take (maxUint - (cd.idxToContract.length + 1)) := by
        obtain ⟨k, hk⟩ : ∃ k, maxUint - cd.idxToContract.length = k + 1 :=
          ⟨maxUint - cd.idxToContract.length - 1, by omega⟩
        rw [hk, List.take_succ_cons]
        congr 2
        omega
      rw [htake]
      by_cases hle : cd.idxToContract.length + 1 + as.length ≤ maxUint
      · have hle' : cd.idxToContract.length + (as.length + 1) ≤ maxUint := by omega
        simp [hle, hle', loadRecords]
      · have hle' : ¬ cd.idxToContract.length + (as.length + 1) ≤ maxUint := by omega
        simp [hle, hle', loadRecords]

theorem Read_records (maxUint : Nat) (cd : ContractDictionary) (as : List Address) :
    cd.Read maxUint (as.flatMap Address.Bytes) =
      if as.length ≤ maxUint then (loadRecords NewContractDictionary as, .fatal "EOF")
      else (loadRecords NewContractDictionary (as.take maxUint), .fatal errTooMany) := by
  unfold ContractDictionary.Read
  have h := readLoop_records maxUint as ((as.flatMap Address.Bytes).length + 1)
    { contractToIdx := [], idxToContract := [] } Address.zero.Bytes Address.zero.property
    (by rw [length_flatMap_Bytes]; omega) (by simp)
  simpa [NewContractDictionary] using h

theorem readLoop_fatal (maxUint : Nat) :
    ∀ (fuel : Nat) (cd : ContractDictionary) (file data : List Byte),
      data.length ≠ 0 → file.length < fuel →
      ∃ msg, (readLoop maxUint fuel cd file data).2 = .fatal msg := by
  intro fuel
  induction fuel with
  | zero => intro cd file data _ hf; omega
  | succ fuel ih =>
    intro cd file data hd hf
    unfold readLoop fileRead
    by_cases hfile : file.length = 0
    · exact ⟨"EOF", by simp [hd, hfile]⟩
    · simp only [hd, hfile, if_false]
      have hlen : (List.take (min data.length file.length) file ++
          List.drop (min data.length file.length) data).length = data.length := by
        simp only [List.length_append, List.length_take, List.length_drop]
        omega
      by_cases hn : min data.length file.length <
          (List.take (min data.length file.length) file ++
            List.drop (min data.length file.length) data).length
      · have hn0 : min data.length file.length ≠ 0 := by omega
        exact ⟨errCorrupted, by simp only [hn, hn0, if_true, ne_eq, not_false_eq_true]⟩
      · simp only [hn, if_false]
        by_cases hm : cd.idxToContract.length = maxUint
        · exact ⟨errTooMany, by simp only [hm, if_true]⟩
        · simp only [hm, if_false]
          apply ih
          · rw [hlen]; exact hd
          · simp only [List.length_drop]
            rw [hlen] at hn
            omega

theorem Read_ne_outOfFuel (maxUint : Nat) (cd : ContractDictionary) (file : List Byte) :
    (cd.Read maxUint file).2 ≠ .outOfFuel := by
  obtain ⟨msg, h⟩ := readLoop_fatal maxUint (file.length + 1)
    { contractToIdx := [], idxToContract := [] } file Address.zero.Bytes
    (by simp [Address.zero, Address.Bytes]) (by omega)
  unfold ContractDictionary.Read
  rw [h]
  simp

theorem Encode_length_le (maxUint : Nat) (cd : ContractDictionary) (x : Address)
    (h : cd.idxToContract.length ≤ maxUint) :
    (cd.Encode maxUint x).2.idxToContract.length ≤ maxUint := by
  cases hx : mapGet cd.contractToIdx x with
  | some i => rw [Encode_of_mapGet_some maxUint cd x i hx]; exact h
  | none =>
    by_cases hm : cd.idxToContract.length = maxUint
    · unfold ContractDictionary.Encode
      simp only [hx, hm, ne_eq, not_true_eq_false, if_false]
      omega
    · rw [Encode_of_mapGet_none maxUint cd x hx hm]
      simp only [List.length_append, List.length_singleton]
      omega

theorem encodeAll_length_le (maxUint : Nat) (xs : List Address) :
    ∀ cd : ContractDictionary, cd.idxToContract.length ≤ maxUint →
      (encodeAll maxUint cd xs).idxToContract.length ≤ maxUint := by
  induction xs with
  | nil => intro cd h; exact h
  | cons x xs ih =>
    intro cd h
    exact ih _ (Encode_length_le maxUint cd x h)

theorem mapGet_eq_of_Bijective {c d : ContractDictionary} (hc : Bijective c) (hd : Bijective d)
    (h : c.idxToContract = d.idxToContract) (a : Address) :
    mapGet c.contractToIdx a = mapGet d.contractToIdx a := by
  apply Option.ext
  intro i
  simp only [Option.mem_def]
  rw [hc a i, hd a i, h]

theorem Decode_congr (c d : ContractDictionary) (h : c.idxToContract = d.idxToContract)
    (i : Nat) : (c.Decode i).1 = (d.Decode i).1 := by
  obtain ⟨cm, cl⟩ := c
  obtain ⟨dm, dl⟩ := d
  simp only at h
  subst h
  unfold ContractDictionary.Decode
  by_cases hlt : i < cl.length
  · simp [hlt]
  · simp [hlt]

theorem Encode_congr (maxUint : Nat) (c d : ContractDictionary) (a : Address)
    (hm : mapGet c.contractToIdx a = mapGet d.contractToIdx a)
    (h : c.idxToContract = d.idxToContract) :
    (c.Encode maxUint a).1 = (d.Encode maxUint a).1 := by
  unfold ContractDictionary.Encode
  rw [hm, h]
  cases mapGet d.contractToIdx a with
  | some i => rfl
  | none =>
    by_cases hlen : d.idxToContract.length = maxUint
    · simp [hlen]
    · simp [hlen]

/-- The table at the moment `Read` is terminated, for a file of two identical records
(forty zero bytes): it has two entries, `Decode(0)` returns the zero address without
error, and `Encode` of that address returns index 1, not 0. -/
theorem Read_duplicate_records_not_inverse :
    ((NewContractDictionary.Read (2 ^ 64 - 1) (List.replicate 40 0)).1).idxToContract.length = 2 ∧
    (((NewContractDictionary.Read (2 ^ 64 - 1) (List.replicate 40 0)).1).Decode 0).1 =
      (Address.zero, none) ∧
    (((NewContractDictionary.Read (2 ^ 64 - 1) (List.replicate 40 0)).1).Encode (2 ^ 64 - 1)
      Address.zero).1 = (1, none) ∧
    ¬ (∀ i, i < ((NewContractDictionary.Read (2 ^ 64 - 1)
          (List.replicate 40 0)).1).idxToContract.length →
        (((NewContractDictionary.Read (2 ^ 64 - 1) (List.replicate 40 0)).1).Decode i).1.2 = none ∧
        ((NewContractDictionary.Read (2 ^ 64 - 1) (List.replicate 40 0)).1).Encode (2 ^ 64 - 1)
          (((NewContractDictionary.Read (2 ^ 64 - 1) (List.replicate 40 0)).1).Decode i).1.1 =
          ((i, none), (NewContractDictionary.Read (2 ^ 64 - 1) (List.replicate 40 0)).1)) := by
  have hfile : (List.replicate 40 0 : List Byte) =
      [Address.zero, Address.zero].flatMap Address.Bytes := by decide
  rw [hfile, Read_records]
  refine ⟨by decide, by decide, by decide, ?_⟩
  intro h
  have h0 := (h 0 (by decide)).2
  revert h0
  decide

/-- The table at the moment `Read` is terminated, for a file of pairwise distinct records:
it is inverse in both directions: for every index `i` below the table size `Decode(i)`
returns an address without error and `Encode` of that address returns `(i, no error)` and
leaves the dictionary unchanged. -/
theorem Read_distinct_records_inverse (maxUint : Nat) (cd : ContractDictionary)
    (as : List Address) (hnd : as.Nodup) (i : Nat)
    (hi : i < ((cd.Read maxUint (as.flatMap Address.Bytes)).1).idxToContract.length) :
    (((cd.Read maxUint (as.flatMap Address.Bytes)).1).Decode i).1.2 = none ∧
    ((cd.Read maxUint (as.flatMap Address.Bytes)).1).Encode maxUint
      (((cd.Read maxUint (as.flatMap Address.Bytes)).1).Decode i).1.1 =
      ((i, none), (cd.Read maxUint (as.flatMap Address.Bytes)).1) := by
  have hb : Bijective (cd.Read maxUint (as.flatMap Address.Bytes)).1 := by
    rw [Read_records]
    by_cases hle : as.length ≤ maxUint
    · rw [if_pos hle]
      exact Bijective.loadRecords as _ Bijective_new (by simpa [NewContractDictionary] using hnd)
    · rw [if_neg hle]
      exact Bijective.loadRecords _ _ Bijective_new
        (by simpa [NewContractDictionary] using hnd.sublist (List.take_sublist _ _))
  generalize (cd.Read maxUint (as.flatMap Address.Bytes)).1 = d at hb hi ⊢
  have hget : d.idxToContract[i]? = some (d.idxToContract.get ⟨i, hi⟩) := by
    simp [List.getElem?_eq_getElem hi]
  have hdec := Decode_of_getElem? d i _ hget
  rw [hdec]
  exact ⟨rfl, Encode_of_mapGet_some maxUint d _ i ((hb _ i).2 hget)⟩

/-- An instance of `Read_distinct_records_inverse`: a file of the two records `addr1`,
`addr2`, index 1. -/
theorem Read_distinct_records_inverse_witness :
    [addr1, addr2].Nodup ∧
    1 < ((NewContractDictionary.Read (2 ^ 64 - 1)
      ([addr1, addr2].flatMap Address.Bytes)).1).idxToContract.length ∧
    (((NewContractDictionary.Read (2 ^ 64 - 1)
      ([addr1, addr2].flatMap Address.Bytes)).1).Decode 1).1.2 = none ∧
    ((NewContractDictionary.Read (2 ^ 64 - 1) ([addr1, addr2].flatMap Address.Bytes)).1).Encode
      (2 ^ 64 - 1)
      (((NewContractDictionary.Read (2 ^ 64 - 1)
        ([addr1, addr2].flatMap Address.Bytes)).1).Decode 1).1.1 =
      ((1, none),
        (NewContractDictionary.Read (2 ^ 64 - 1) ([addr1, addr2].flatMap Address.Bytes)).1) :=
  have hlt : 1 < ((NewContractDictionary.Read (2 ^ 64 - 1)
      ([addr1, addr2].flatMap Address.Bytes)).1).idxToContract.length := by
    rw [Read_records]; decide
  ⟨by decide, hlt,
    Read_distinct_records_inverse (2 ^ 64 - 1) NewContractDictionary [addr1, addr2]
      (by decide) 1 hlt⟩

/-- C5: `Read` loads no dictionary. On the file of the two records `addr1`, `addr2`, forty
bytes, it enters the two records and is then terminated by `log.Fatal` with the
end-of-file error of the next `f.Read`; so it is on every file that is a whole number of
20-byte records, at most `math.MaxUint` of them, for every dictionary: there is no
dictionary after `Read` on which `Decode` or `Encode` could be called. -/
theorem Read_of_whole_records_is_fatal :
    ([addr1, addr2].flatMap Address.Bytes).length = 40 ∧
    NewContractDictionary.Read (2 ^ 64 - 1) ([addr1, addr2].flatMap Address.Bytes) =
      (loadRecords NewContractDictionary [addr1, addr2], .fatal "EOF") ∧
    ∀ (maxUint : Nat) (cd : ContractDictionary) (as : List Address), as.length ≤ maxUint →
      (cd.Read maxUint (as.flatMap Address.Bytes)).2 = .fatal "EOF" := by
  refine ⟨by decide, ?_, ?_⟩
  · rw [Read_records, if_pos (by decide)]
  · intro maxUint cd as hle
    rw [Read_records, if_pos hle]

/-- C6: for a dictionary built by `Encode` calls, `Write` emits the addresses in index
order, twenty bytes each and nothing else; `Read` of these bytes, into any dictionary,
rebuilds a table whose `Decode` and `Encode` results are those of the written dictionary,
and is then terminated by `log.Fatal` with the end-of-file error instead of returning. -/
theorem Write_then_Read (maxUint : Nat) (xs : List Address) (cd : ContractDictionary) :
    (encodeAll maxUint NewContractDictionary xs).Write =
      (encodeAll maxUint NewContractDictionary xs).idxToContract.flatMap Address.Bytes ∧
    (encodeAll maxUint NewContractDictionary xs).Write.length =
      20 * (encodeAll maxUint NewContractDictionary xs).idxToContract.length ∧
    (cd.Read maxUint (encodeAll maxUint NewContractDictionary xs).Write).2 = .fatal "EOF" ∧
    (∀ i, ((cd.Read maxUint (encodeAll maxUint NewContractDictionary xs).Write).1.Decode i).1 =
      ((encodeAll maxUint NewContractDictionary xs).Decode i).1) ∧
    (∀ a, ((cd.Read maxUint (encodeAll maxUint NewContractDictionary xs).Write).1.Encode
        maxUint a).1 =
      ((encodeAll maxUint NewContractDictionary xs).Encode maxUint a).1) := by
  have hb : Bijective (encodeAll maxUint NewContractDictionary xs) :=
    Bijective.encodeAll maxUint xs Bijective_new
  have hle : (encodeAll maxUint NewContractDictionary xs).idxToContract.length ≤ maxUint :=
    encodeAll_length_le maxUint xs NewContractDictionary (by simp [NewContractDictionary])
  generalize encodeAll maxUint NewContractDictionary xs = d at hb hle ⊢
  have hread : cd.Read maxUint d.Write =
      (loadRecords NewContractDictionary d.idxToContract, .fatal "EOF") := by
    rw [Write_eq_flatMap, Read_records, if_pos hle]
  have hl : (loadRecords NewContractDictionary d.idxToContract).idxToContract =
      d.idxToContract := by
    rw [loadRecords_idxToContract]; simp [NewContractDictionary]
  have hb' : Bijective (loadRecords NewContractDictionary d.idxToContract) :=
    Bijective.loadRecords _ _ Bijective_new (by simpa [NewContractDictionary] using hb.nodup)
  refine ⟨Write_eq_flatMap d, ?_, ?_, ?_, ?_⟩
  · rw [Write_eq_flatMap, length_flatMap_Bytes]
  · rw [hread]
  · intro i
    rw [hread]
    exact Decode_congr _ _ hl i
  · intro a
    rw [hread]
    exact Encode_congr maxUint _ _ a (mapGet_eq_of_Bijective hb' hb hl a) hl

/-- C7: `Read` never returns. For every file content it is terminated by `log.Fatal`; for
a file of whole records it has entered the records in order (up to `math.MaxUint` of
them) and then fails on the end-of-file error of `f.Read`, or on the entry count; the
empty file is the smallest instance. -/
theorem Read_always_fatal (maxUint : Nat) (cd : ContractDictionary) (file : List Byte)
    (as : List Address) :
    (∃ msg, (cd.Read maxUint file).2 = .fatal msg) ∧
    (cd.Read maxUint (as.flatMap Address.Bytes)).2 =
      (if as.length ≤ maxUint then .fatal "EOF" else .fatal errTooMany) ∧
    (cd.Read maxUint (as.flatMap Address.Bytes)).1.idxToContract = as.take maxUint ∧
    cd.Read maxUint [] = (NewContractDictionary, .fatal "EOF") := by
  refine ⟨?_, ?_, ?_, ?_⟩
  · exact readLoop_fatal maxUint (file.length + 1) _ file Address.zero.Bytes
      (by simp [Address.zero, Address.Bytes]) (by omega)
  · rw [Read_records]
    by_cases hle : as.length ≤ maxUint
    · simp [hle]
    · simp [hle]
  · rw [Read_records]
    by_cases hle : as.length ≤ maxUint
    · simp [hle, loadRecords_idxToContract, NewContractDictionary, List.take_of_length_le]
    · simp [hle, loadRecords_idxToContract, NewContractDictionary]
  · have := Read_records maxUint cd []
    simpa [loadRecords] using this

end ContractDict

namespace Lfvm

/-! ## Jump validation -/

theorem toInt32_of_small (n : Int) (h0 : -1 ≤ n) (h1 : n < 2 ^ 31) : toInt32 n = n := by
  unfold toInt32
  norm_num at h1 ⊢
  omega

theorem UseGas_pc (c : context) (n : Nat) : (UseGas c n).2.pc = c.pc := by
  unfold UseGas; split <;> rfl

theorem UseGas_stack (c : context) (n : Nat) : (UseGas c n).2.stack = c.stack := by
  unfold UseGas; split <;> rfl

theorem UseGas_err (c : context) (n : Nat) : (UseGas c n).2.err = c.err := by
  unfold UseGas; split <;> rfl

theorem checkJumpDest_of_small (c : context) (t : Nat) (hpc : c.pc = (t : Int) - 1)
    (ht : t < 2 ^ 31) :
    checkJumpDest c =
      some (UseGas
        { (if (c.code[t]?).map (fun ins => ins.opcode) = some OpCode.JUMPDEST then c
            else SignalError c .ErrInvalidJump) with pc := (t : Int) } 1).2 := by
  have htI : (t : Int) < 2 ^ 31 := by exact_mod_cast ht
  have h1 : toInt32 (c.pc + 1) = (t : Int) := by
    rw [hpc]
    have : (t : Int) - 1 + 1 = t := by omega
    rw [this]
    exact toInt32_of_small _ (by omega) htI
  have h2 : toInt32 (t : Int) = (t : Int) := toInt32_of_small _ (by omega) htI
  unfold checkJumpDest
  simp only [h1]
  by_cases hlen : c.code.length ≤ t
  · have hge : (t : Int) ≥ (c.code.length : Int) := by exact_mod_cast hlen
    have hnone : c.code[t]? = none := List.getElem?_eq_none hlen
    simp [hge, hnone, SignalError, hpc, h1, h2]
  · have hlt : t < c.code.length := by omega
    have hge : ¬ ((t : Int) ≥ (c.code.length : Int)) := by
      intro h
      have : c.code.length ≤ t := by exact_mod_cast h
      omega
    have hcode : codeAt c (t : Int) = some (c.code.get ⟨t, hlt⟩) := by
      unfold codeAt
      simp [List.getElem?_eq_getElem hlt]
    simp only [hge, if_false, hcode, List.getElem?_eq_getElem hlt, Option.map_some']
    by_cases hop : (c.code.get ⟨t, hlt⟩).opcode = OpCode.JUMPDEST
    · have hop' : c.code[t].opcode = OpCode.JUMPDEST := hop
      simp [hop, hop', hpc, h1, h2]
    · have hop' : ¬ c.code[t].opcode = OpCode.JUMPDEST := hop
      simp [hop, hop', SignalError, hpc, h1, h2]

/-- For a destination below `2 ^ 31`, `opJump` does not panic, signals `InvalidJump` exactly
when the destination is beyond the code or not a `JUMPDEST`, and leaves the program counter
at the destination. -/
theorem opJump_of_small (c : context) (d : Word) (rest : List Word)
    (hs : c.stack = d :: rest) (hd : d < 2 ^ 31) (herr : c.err = none) :
    ∃ c', opJump c = some c' ∧ c'.pc = (d : Int) ∧ c'.stack = rest ∧
      (c'.err = some VmError.ErrInvalidJump ↔
        ¬ ((c.code[d]?).map (fun ins => ins.opcode) = some OpCode.JUMPDEST)) := by
  have hU : Uint64 d = d := by
    unfold Uint64
    apply Nat.mod_eq_of_lt
    calc d < 2 ^ 31 := hd
      _ < 2 ^ 64 := by norm_num
  have hdI : (d : Int) < 2 ^ 31 := by exact_mod_cast hd
  have hpc : toInt32 (toInt32 ((Uint64 d : Nat) : Int) - 1) = (d : Int) - 1 := by
    rw [hU, toInt32_of_small _ (by omega) hdI]
    exact toInt32_of_small _ (by omega) (by omega)
  unfold opJump pop
  simp only [hs, hpc]
  rw [checkJumpDest_of_small _ d rfl hd]
  refine ⟨_, rfl, ?_, ?_, ?_⟩
  · rw [UseGas_pc]
  · rw [UseGas_stack]
    split <;> rfl
  · rw [UseGas_err]
    by_cases hv : (c.code[d]?).map (fun ins => ins.opcode) = some OpCode.JUMPDEST
    · simp [hv, herr]
    · simp [hv, SignalError]

/-- Witness of `opJump_of_small`: destination 2 in the sample frame. -/
theorem opJump_of_small_witness :
    ∃ c', opJump (sampleFrame [2]) = some c' ∧ c'.pc = ((2 : Nat) : Int) ∧ c'.stack = [] ∧
      (c'.err = some VmError.ErrInvalidJump ↔
        ¬ (((sampleFrame [2]).code[2]?).map (fun ins => ins.opcode) = some OpCode.JUMPDEST)) :=
  opJump_of_small (sampleFrame [2]) 2 [] rfl (by norm_num) rfl

/-- C9: `opJump` does not validate every 256-bit destination. In the sample frame, whose
code has three instructions with the only `JUMPDEST` at index 2, the destinations
`2 ^ 32 + 2` and `2 ^ 64 + 2` are beyond the code, yet `opJump` signals nothing and
leaves the program counter at 2, and for the destination `2 ^ 31` it indexes the code at
`-2 ^ 31`, a run-time panic. -/
theorem opJump_truncates_destination :
    opJump (sampleFrame [2 ^ 32 + 2]) =
      some { sampleFrame [] with pc := 2, gas := 99 } ∧
    opJump (sampleFrame [2 ^ 64 + 2]) =
      some { sampleFrame [] with pc := 2, gas := 99 } ∧
    opJump (sampleFrame [2 ^ 31]) = none ∧
    toInt32 (toInt32 (toInt32 (Uint64 (2 ^ 31)) - 1) + 1) = -2 ^ 31 ∧
    (sampleFrame []).code.length = 3 := by
  refine ⟨by decide, by decide, by decide, by decide, by decide⟩

/-- The fused handler `opSwap2_Swap1_Pop_Jump` on a stack of at least three words: the
program counter is set from the third word, and status, error and gas are left as they
were, whatever the target is. -/
theorem opSwap2_Swap1_Pop_Jump_of_stack (c : context) (top x trg : Word) (rest : List Word)
    (hs : c.stack = top :: x :: trg :: rest) :
    opSwap2_Swap1_Pop_Jump c =
      some { c with pc := toInt32 (toInt32 (Uint64 trg) - 1), stack := top :: rest } := by
  unfold opSwap2_Swap1_Pop_Jump pop
  simp [hs]

/-- Witness of `opSwap2_Swap1_Pop_Jump_of_stack`: the sample frame with target 1. -/
theorem opSwap2_Swap1_Pop_Jump_of_stack_witness :
    opSwap2_Swap1_Pop_Jump (sampleFrame [7, 8, 1, 9]) =
      some { sampleFrame [7, 8, 1, 9] with
        pc := toInt32 (toInt32 (Uint64 1) - 1), stack := [7, 9] } :=
  opSwap2_Swap1_Pop_Jump_of_stack (sampleFrame [7, 8, 1, 9]) 7 8 1 [9] rfl

/-- C10: the fused handler `opSwap2_Swap1_Pop_Jump` does not validate its target. In the
sample frame the targets 1 (a `STOP`, not a `JUMPDEST`) and 5 (beyond the code) make
the unfused sequence `SWAP2, SWAP1, POP, JUMP` signal `InvalidJump` and charge one gas,
while the fused handler leaves the frame running without error and with all its gas; the
fused `opPop_Jump` and `opPush2_Jump` do signal `InvalidJump` for the target 1. -/
theorem opSwap2_Swap1_Pop_Jump_skips_validation :
    opSwap2_Swap1_Pop_Jump (sampleFrame [7, 8, 1, 9]) =
      some { sampleFrame [7, 9] with pc := 0 } ∧
    unfusedSwap2_Swap1_Pop_Jump (sampleFrame [7, 8, 1, 9]) =
      some { sampleFrame [7, 9] with
        pc := 1, status := .ERROR, err := some .ErrInvalidJump, gas := 99 } ∧
    opSwap2_Swap1_Pop_Jump (sampleFrame [7, 8, 5, 9]) =
      some { sampleFrame [7, 9] with pc := 4 } ∧
    unfusedSwap2_Swap1_Pop_Jump (sampleFrame [7, 8, 5, 9]) =
      some { sampleFrame [7, 9] with
        pc := 5, status := .ERROR, err := some .ErrInvalidJump, gas := 99 } ∧
    opPop_Jump (sampleFrame [8, 1, 9]) =
      some { sampleFrame [9] with
        pc := 1, status := .ERROR, err := some .ErrInvalidJump, gas := 99 } ∧
    opPush2_Jump { sampleFrame [9] with code := [⟨.PUSH2_JUMP, 1⟩, ⟨.STOP, 0⟩, ⟨.JUMPDEST, 0⟩] } =
      some { sampleFrame [9] with
        code := [⟨.PUSH2_JUMP, 1⟩, ⟨.STOP, 0⟩, ⟨.JUMPDEST, 0⟩],
        pc := 1, status := .ERROR, err := some .ErrInvalidJump, gas := 99 } := by
  refine ⟨by decide, by decide, by decide, by decide, by decide, by decide⟩

/-! ## Stack-only super-instructions, JUMPI, RETURN and REVERT -/

theorem fullStack_eq : fullStack = 0 :: 0 :: List.replicate 1022 0 := by
  show List.replicate (1022 + 1 + 1) 0 = 0 :: 0 :: List.replicate 1022 0
  rw [List.replicate_succ, List.replicate_succ]

theorem fullStack_length : fullStack.length = StackLimit := by
  unfold fullStack
  rw [List.length_replicate]

theorem stackDup_of_full (s : List Word) (n : Nat) (h : ¬ s.length < StackLimit) :
    stackDup s n = none := by
  unfold stackDup
  split
  · rfl
  · split <;> simp only [h, if_false]

theorem opDup_of_full (c : context) (n : Nat) (h : ¬ c.stack.length < StackLimit) :
    opDup c n = none := by
  unfold opDup
  rw [stackDup_of_full c.stack n h]

theorem opDup2_Lt_of_stack (c : context) (a b : Word) (rest : List Word)
    (hs : c.stack = a :: b :: rest) :
    opDup2_Lt c = some { c with stack := (if b < a then 1 else 0) :: b :: rest } := by
  simp only [opDup2_Lt, Back, hs, List.getElem?_cons_zero, List.getElem?_cons_succ, setBack,
    List.set_cons_zero, u256Lt, decide_eq_true_eq]

/-- A push after a pop meets no overflow on a stack within the limit. -/
theorem pushEmpty_after_pop (c c1 : context) (w v : Word) (hd : c.stack.length ≤ StackLimit)
    (hp : pop c = some (w, c1)) : pushEmpty c1 v = some (pushAfterPop c1 v) := by
  unfold pop at hp
  cases hst : c.stack with
  | nil => rw [hst] at hp; cases hp
  | cons a rest =>
    rw [hst] at hp hd
    simp only [Option.some.injEq, Prod.mk.injEq] at hp
    obtain ⟨-, rfl⟩ := hp
    simp only [List.length_cons] at hd
    unfold pushEmpty pushAfterPop
    rw [if_pos (by simp only; omega)]

/-- C11, as stated, fails for `opDup2_Lt` on a full stack: on the stack of 1024 zero words
`opDup2_Lt`, which writes the result over the top word, succeeds and leaves the stack as
it is, while `opDup(2)` fails with StackOverflow, so that the unfused handlers leave no
stack. -/
theorem opDup2_Lt_succeeds_on_full_stack :
    opDup2_Lt (frame [] fullStack) = some (frame [] fullStack) ∧
    (opDup (frame [] fullStack) 2).bind opLt = none ∧
    fullStack.length = 1024 := by
  refine ⟨?_, ?_, fullStack_length⟩
  · rw [opDup2_Lt_of_stack (frame [] fullStack) 0 0 (List.replicate 1022 0) fullStack_eq]
    rw [if_neg (Nat.lt_irrefl 0), ← fullStack_eq]
    rfl
  · have h : ¬ (frame [] fullStack).stack.length < StackLimit := by
      show ¬ fullStack.length < StackLimit
      rw [fullStack_length]
      exact Nat.lt_irrefl _
    rw [opDup_of_full (frame [] fullStack) 2 h]
    rfl

/-- C11, amended: on every stack that is deep enough, each stack-only super-instruction
leaves the stack that its unfused handlers, run in order, leave: `opSwap2_Swap1` as
`opSwap(2)`, `opSwap(1)`; `opSwap1_Pop` as `opSwap(1)`, `opPop`; `opSwap2_Pop` as
`opSwap(2)`, `opPop`; `opSwap1_Pop_Swap2_Swap1` as `opSwap(1)`, `opPop`, `opSwap(2)`,
`opSwap(1)`; `opPop_Swap2_Swap1_Pop` as `opPop`, `opSwap(2)`, `opSwap(1)`, `opPop`; and
`opDup2_Lt` as `opDup(2)`, `opLt` on a stack below the limit of 1024 words. Nothing but
the stack changes, and the resulting stack is given. -/
theorem stack_super_instructions_eq_unfused (c : context) (a b x y : Word)
    (rest : List Word) :
    (opSwap2_Swap1 { c with stack := a :: b :: x :: rest } =
        some { c with stack := b :: x :: a :: rest } ∧
      (opSwap { c with stack := a :: b :: x :: rest } 2).bind (fun c1 => opSwap c1 1) =
        some { c with stack := b :: x :: a :: rest }) ∧
    (opSwap1_Pop { c with stack := a :: b :: rest } = some { c with stack := a :: rest } ∧
      (opSwap { c with stack := a :: b :: rest } 1).bind opPop =
        some { c with stack := a :: rest }) ∧
    (opSwap2_Pop { c with stack := a :: b :: x :: rest } =
        some { c with stack := b :: a :: rest } ∧
      (opSwap { c with stack := a :: b :: x :: rest } 2).bind opPop =
        some { c with stack := b :: a :: rest }) ∧
    (opSwap1_Pop_Swap2_Swap1 { c with stack := a :: b :: x :: y :: rest } =
        some { c with stack := x :: y :: a :: rest } ∧
      ((((opSwap { c with stack := a :: b :: x :: y :: rest } 1).bind opPop).bind
          (fun c1 => opSwap c1 2)).bind (fun c1 => opSwap c1 1)) =
        some { c with stack := x :: y :: a :: rest }) ∧
    (opPop_Swap2_Swap1_Pop { c with stack := a :: b :: x :: y :: rest } =
        some { c with stack := y :: b :: rest } ∧
      ((((opPop { c with stack := a :: b :: x :: y :: rest }).bind
          (fun c1 => opSwap c1 2)).bind (fun c1 => opSwap c1 1)).bind opPop) =
        some { c with stack := y :: b :: rest }) ∧
    (opDup2_Lt { c with stack := a :: b :: rest } =
        some { c with stack := (if b < a then 1 else 0) :: b :: rest } ∧
      ((a :: b :: rest).length < StackLimit →
        (opDup { c with stack := a :: b :: rest } 2).bind opLt =
          some { c with stack := (if b < a then 1 else 0) :: b :: rest })) := by
  refine ⟨⟨?_, ?_⟩, ⟨?_, ?_⟩, ⟨?_, ?_⟩, ⟨?_, ?_⟩, ⟨?_, ?_⟩, ?_, ?_⟩
  · simp [opSwap2_Swap1, Back, setBack]
  · simp [opSwap, stackSwap]
  · simp [opSwap1_Pop, pop, Back, setBack]
  · simp [opSwap, stackSwap, opPop, pop]
  · simp [opSwap2_Pop, pop, Back, setBack]
  · simp [opSwap, stackSwap, opPop, pop]
  · simp [opSwap1_Pop_Swap2_Swap1, pop, Back, setBack]
  · simp [opSwap, stackSwap, opPop, pop]
  · simp [opPop_Swap2_Swap1_Pop, pop, Back, setBack]
  · simp [opSwap, stackSwap, opPop, pop]
  · simp [opDup2_Lt, Back, setBack, u256Lt]
  · intro hroom
    simp only [List.length_cons] at hroom
    simp [opDup, stackDup, hroom, opLt, popPeek, pop, Back, setBack, u256Lt]

/-- Witness of C11, amended: `opDup(2)`, `opLt` on the stack `[3, 5, 7]`, where 5 is not
below 3. -/
theorem stack_super_instructions_eq_unfused_witness :
    (opDup { frame [] [] with stack := 3 :: 5 :: [7] } 2).bind opLt =
      some { frame [] [] with stack := (if 5 < 3 then 1 else 0) :: 5 :: [7] } :=
  (stack_super_instructions_eq_unfused (frame [] []) 3 5 0 0 [7]).2.2.2.2.2.2 (by decide)

/-- C17: `opJumpi` pops the destination and then the condition. When the condition is zero
the frame is left as it is apart from the two popped words, so program counter, status and
gas are unchanged; when the condition is not zero the result is that of `opJump` on the
same frame with the destination on top of the remaining stack. -/
theorem opJumpi_jumps_iff_condition_nonzero (c : context) (destination condition : Word)
    (rest : List Word) :
    opJumpi { c with stack := destination :: condition :: rest } =
      if condition = 0 then some { c with stack := rest }
      else opJump { c with stack := destination :: rest } := by
  by_cases h : condition = 0
  · simp only [opJumpi, pop, h, ne_eq, not_true_eq_false, if_false, if_true]
  · simp only [opJumpi, opJump, pop, h, ne_eq, not_false_eq_true, if_false, if_true]

/-- C18: `opReturn` and `opRevert` pop two words, store the first (the top) as
`result_offset` and the second as `result_size`, and set the status to `RETURNED`, resp.
`REVERTED`; memory, gas, program counter, return-data buffer, code, recorded error and the
rest of the stack stay as they were. -/
theorem opReturn_opRevert_record_output (c : context) (offset size : Word)
    (rest : List Word) :
    opReturn { c with stack := offset :: size :: rest } =
      some { c with
        stack := rest, result_offset := offset, result_size := size, status := .RETURNED } ∧
    opRevert { c with stack := offset :: size :: rest } =
      some { c with
        stack := rest, result_offset := offset, result_size := size, status := .REVERTED } := by
  constructor
  · simp [opReturn, pop]
  · simp [opRevert, pop]

/-! ## Arithmetic, comparisons and shifts -/

theorem ofLimbs_limb (x : Nat) (hx : x < 2 ^ 256) :
    ofLimbs (limb x 0) (limb x 1) (limb x 2) (limb x 3) = x := by
  unfold ofLimbs limb
  norm_num at hx ⊢
  omega

theorem limb_chain (x0 x1 x2 x3 v r0 r1 r2 r3 c0 c1 c2 c3 : Nat)
    (h0 : x0 + v = r0 + 2 ^ 64 * c0) (h1 : x1 + c0 = r1 + 2 ^ 64 * c1)
    (h2 : x2 + c1 = r2 + 2 ^ 64 * c2) (h3 : x3 + c2 = r3 + 2 ^ 64 * c3)
    (hr0 : r0 < 2 ^ 64) (hr1 : r1 < 2 ^ 64) (hr2 : r2 < 2 ^ 64) (hr3 : r3 < 2 ^ 64) :
    ofLimbs x0 x1 x2 x3 + v = ofLimbs r0 r1 r2 r3 + 2 ^ 256 * c3 ∧
    ofLimbs r0 r1 r2 r3 < 2 ^ 256 := by
  unfold ofLimbs
  norm_num at *
  omega

theorem opPush1_Add_limbs (x v : Nat) (hx : x < 2 ^ 256) :
    ofLimbs (Add64 (limb x 0) v 0).1
      (Add64 (limb x 1) 0 (Add64 (limb x 0) v 0).2).1
      (Add64 (limb x 2) 0 (Add64 (limb x 1) 0 (Add64 (limb x 0) v 0).2).2).1
      (Add64 (limb x 3) 0
        (Add64 (limb x 2) 0 (Add64 (limb x 1) 0 (Add64 (limb x 0) v 0).2).2).2).1 =
      (x + v) % 2 ^ 256 := by
  have hB : (0 : Nat) < 2 ^ 64 := by norm_num
  simp only [Add64, Nat.add_zero]
  obtain ⟨h, hlt⟩ := limb_chain (limb x 0) (limb x 1) (limb x 2) (limb x 3) v
    ((limb x 0 + v) % 2 ^ 64)
    ((limb x 1 + (limb x 0 + v) / 2 ^ 64) % 2 ^ 64)
    ((limb x 2 + (limb x 1 + (limb x 0 + v) / 2 ^ 64) / 2 ^ 64) % 2 ^ 64)
    ((limb x 3 + (limb x 2 + (limb x 1 + (limb x 0 + v) / 2 ^ 64) / 2 ^ 64) / 2 ^ 64) % 2 ^ 64)
    ((limb x 0 + v) / 2 ^ 64)
    ((limb x 1 + (limb x 0 + v) / 2 ^ 64) / 2 ^ 64)
    ((limb x 2 + (limb x 1 + (limb x 0 + v) / 2 ^ 64) / 2 ^ 64) / 2 ^ 64)
    ((limb x 3 + (limb x 2 + (limb x 1 + (limb x 0 + v) / 2 ^ 64) / 2 ^ 64) / 2 ^ 64) / 2 ^ 64)
    (Nat.mod_add_div _ _).symm (Nat.mod_add_div _ _).symm (Nat.mod_add_div _ _).symm
    (Nat.mod_add_div _ _).symm
    (Nat.mod_lt _ hB) (Nat.mod_lt _ hB) (Nat.mod_lt _ hB) (Nat.mod_lt _ hB)
  rw [ofLimbs_limb x hx] at h
  rw [h, Nat.add_mul_mod_self_left, Nat.mod_eq_of_lt hlt]

theorem pushEmpty_of_room (c : context) (w : Word) (h : c.stack.length < StackLimit) :
    pushEmpty c w = some { c with stack := w :: c.stack } := by
  unfold pushEmpty
  rw [if_pos h]

theorem pushEmpty_of_full (c : context) (w : Word) (h : ¬ c.stack.length < StackLimit) :
    pushEmpty c w = none := by
  unfold pushEmpty
  rw [if_neg h]

theorem opPush1_of_full (c : context) (h : ¬ c.stack.length < StackLimit) :
    opPush1 c = none := by
  unfold opPush1
  split
  · rfl
  · exact pushEmpty_of_full c _ h

theorem opPush2_of_full (c : context) (h : ¬ c.stack.length < StackLimit) :
    opPush2 c = none := by
  unfold opPush2
  split
  · rfl
  · exact pushEmpty_of_full c _ h

theorem opPush1_Add_of_stack (c : context) (op : OpCode) (v x : Nat) (rest : List Word)
    (hx : x < 2 ^ 256) (hc : codeAt c c.pc = some ⟨op, v⟩) (hs : c.stack = x :: rest) :
    opPush1_Add c = some { c with stack := (x + v) % 2 ^ 256 :: rest } := by
  simp only [opPush1_Add, hc, Back, hs, List.getElem?_cons_zero, setBack, List.set_cons_zero]
  rw [opPush1_Add_limbs x v hx]

theorem opPush1_opAdd_of_room (c : context) (op : OpCode) (v x : Nat) (rest : List Word)
    (hc : codeAt c c.pc = some ⟨op, v <<< 8⟩) (hs : c.stack = x :: rest)
    (hroom : c.stack.length < StackLimit) :
    (opPush1 c).bind opAdd = some { c with stack := (x + v) % 2 ^ 256 :: rest } := by
  have h8 : (v <<< 8) >>> 8 = v := by
    rw [Nat.shiftLeft_eq, Nat.shiftRight_eq_div_pow]
    exact Nat.mul_div_cancel v (by norm_num)
  simp only [opPush1, hc, h8, pushEmpty_of_room c _ hroom, Option.some_bind]
  simp [opAdd, popPeek, pop, hs, Back, setBack, u256Add, ofLimbs, Nat.add_comm]

/-- C12, as stated, fails on a full stack: on the stack of 1024 zero words `opPush1_Add`
with inline argument 5 succeeds, the depth unchanged and the top 5, while `opPush1` with
inline argument `5 << 8` fails with StackOverflow, so that `opPush1`, `opAdd` leave no
stack. -/
theorem opPush1_Add_succeeds_on_full_stack :
    opPush1_Add (frame [⟨.PUSH1, 5⟩] fullStack) =
      some (frame [⟨.PUSH1, 5⟩] (5 :: 0 :: List.replicate 1022 0)) ∧
    (opPush1 (frame [⟨.PUSH1, 5 <<< 8⟩] fullStack)).bind opAdd = none ∧
    fullStack.length = 1024 := by
  refine ⟨?_, ?_, fullStack_length⟩
  · rw [opPush1_Add_of_stack (frame [⟨.PUSH1, 5⟩] fullStack) .PUSH1 5 0
      (0 :: List.replicate 1022 0) (by norm_num) rfl fullStack_eq]
    rfl
  · have h : ¬ (frame [⟨.PUSH1, 5 <<< 8⟩] fullStack).stack.length < StackLimit := by
      show ¬ fullStack.length < StackLimit
      rw [fullStack_length]
      exact Nat.lt_irrefl _
    rw [opPush1_of_full _ h]
    rfl

/-- C12, amended: with a byte `v` as inline argument and a top word `x`, `opPush1_Add`
leaves the depth unchanged and replaces the top by `(x + v) mod 2 ^ 256`; on a stack below
the limit of 1024 words, `opPush1` with inline argument `v << 8` followed by `opAdd`
leaves the same stack. -/
theorem opPush1_Add_exact (c c' : context) (op op' : OpCode) (v x : Nat) (rest : List Word)
    (_hv : v < 256) (hx : x < 2 ^ 256)
    (hc : codeAt c c.pc = some ⟨op, v⟩) (hs : c.stack = x :: rest)
    (hc' : codeAt c' c'.pc = some ⟨op', v <<< 8⟩) (hs' : c'.stack = x :: rest)
    (hroom : c'.stack.length < StackLimit) :
    opPush1_Add c = some { c with stack := (x + v) % 2 ^ 256 :: rest } ∧
    (opPush1 c').bind opAdd = some { c' with stack := (x + v) % 2 ^ 256 :: rest } :=
  ⟨opPush1_Add_of_stack c op v x rest hx hc hs,
    opPush1_opAdd_of_room c' op' v x rest hc' hs' hroom⟩

/-- Witness of C12, amended: `x = 2 ^ 256 - 1` and `v = 5`, the sum wraps to 4. -/
theorem opPush1_Add_exact_witness :
    opPush1_Add (frame [⟨.PUSH1, 5⟩] [2 ^ 256 - 1, 7]) =
      some { frame [⟨.PUSH1, 5⟩] [2 ^ 256 - 1, 7] with
        stack := (2 ^ 256 - 1 + 5) % 2 ^ 256 :: [7] } ∧
    (opPush1 (frame [⟨.PUSH1, 5 <<< 8⟩] [2 ^ 256 - 1, 7])).bind opAdd =
      some { frame [⟨.PUSH1, 5 <<< 8⟩] [2 ^ 256 - 1, 7] with
        stack := (2 ^ 256 - 1 + 5) % 2 ^ 256 :: [7] } :=
  opPush1_Add_exact (frame [⟨.PUSH1, 5⟩] [2 ^ 256 - 1, 7])
    (frame [⟨.PUSH1, 5 <<< 8⟩] [2 ^ 256 - 1, 7]) .PUSH1 .PUSH1 5 (2 ^ 256 - 1) [7]
    (by norm_num) (by norm_num) (by decide) rfl (by decide) rfl (by decide)

theorem opIszero_of_stack (c : context) (x : Word) (rest : List Word)
    (hs : c.stack = x :: rest) :
    opIszero c = some { c with stack := (if x = 0 then 1 else 0) :: rest } := by
  simp only [opIszero, Back, hs, List.getElem?_cons_zero, setBack, List.set_cons_zero]

theorem opPush2_of_code (c : context) (op : OpCode) (t : Nat)
    (hc : codeAt c c.pc = some ⟨op, t⟩) (hroom : c.stack.length < StackLimit) :
    opPush2 c = some { c with stack := t :: c.stack } := by
  simp only [opPush2, hc, pushEmpty_of_room c _ hroom, ofLimbs, Nat.mul_zero, Nat.add_zero]

theorem opIsZero_Push2_Jumpi_of_stack (c : context) (op : OpCode) (t x : Nat)
    (rest : List Word) (hc : codeAt c c.pc = some ⟨op, t⟩) (hs : c.stack = x :: rest) :
    opIsZero_Push2_Jumpi c =
      if x = 0 then checkJumpDest { c with stack := rest, pc := toInt32 (toInt32 t - 1) }
      else some { c with stack := rest } := by
  have hc1 : codeAt { c with stack := rest } c.pc = some ⟨op, t⟩ := hc
  by_cases hx : x = 0
  · simp only [opIsZero_Push2_Jumpi, pop, hs, hc1, hx, if_true]
  · simp only [opIsZero_Push2_Jumpi, pop, hs, hx, if_false]

theorem unfusedIsZero_Push2_Jumpi_of_full (c : context) (x : Word) (rest : List Word)
    (hs : c.stack = x :: rest) (hfull : ¬ c.stack.length < StackLimit) :
    unfusedIsZero_Push2_Jumpi c = none := by
  unfold unfusedIsZero_Push2_Jumpi
  rw [opIszero_of_stack c x rest hs, Option.some_bind, opPush2_of_full, Option.none_bind]
  rw [hs] at hfull
  exact hfull

theorem opIsZero_Push2_Jumpi_example (st : List Word) :
    opIsZero_Push2_Jumpi
        (frame [⟨.ISZERO_PUSH2_JUMPI, 2⟩, ⟨.STOP, 0⟩, ⟨.JUMPDEST, 0⟩] (0 :: st)) =
      some { frame [⟨.ISZERO_PUSH2_JUMPI, 2⟩, ⟨.STOP, 0⟩, ⟨.JUMPDEST, 0⟩] st with
        pc := 2, gas := 99 } := by
  rw [opIsZero_Push2_Jumpi_of_stack
    (frame [⟨.ISZERO_PUSH2_JUMPI, 2⟩, ⟨.STOP, 0⟩, ⟨.JUMPDEST, 0⟩] (0 :: st))
    .ISZERO_PUSH2_JUMPI 2 0 st rfl rfl]
  simp [frame, checkJumpDest, codeAt, toInt32, UseGas]

theorem opJumpi_of_stack (c : context) (destination condition : Word) (rest : List Word)
    (hs : c.stack = destination :: condition :: rest) :
    opJumpi c =
      if condition = 0 then some { c with stack := rest }
      else checkJumpDest
        { c with stack := rest, pc := toInt32 (toInt32 (Uint64 destination) - 1) } := by
  by_cases h : condition = 0
  · simp only [opJumpi, pop, hs, h, ne_eq, not_true_eq_false, if_false, if_true]
  · simp only [opJumpi, pop, hs, h, ne_eq, not_false_eq_true, if_false, if_true]

/-- C13, as stated, fails on a full stack: on the stack of 1024 zero words, with target 2,
a `JUMPDEST`, `opIsZero_Push2_Jumpi` pops the zero and jumps, while of the unfused handlers
`opPush2` fails with StackOverflow after `opIszero` has written its result in place. -/
theorem opIsZero_Push2_Jumpi_succeeds_on_full_stack :
    opIsZero_Push2_Jumpi
        (frame [⟨.ISZERO_PUSH2_JUMPI, 2⟩, ⟨.STOP, 0⟩, ⟨.JUMPDEST, 0⟩] fullStack) =
      some { frame [⟨.ISZERO_PUSH2_JUMPI, 2⟩, ⟨.STOP, 0⟩, ⟨.JUMPDEST, 0⟩]
          (0 :: List.replicate 1022 0) with
        pc := 2, gas := 99 } ∧
    unfusedIsZero_Push2_Jumpi
        (frame [⟨.ISZERO_PUSH2_JUMPI, 2⟩, ⟨.STOP, 0⟩, ⟨.JUMPDEST, 0⟩] fullStack) = none ∧
    fullStack.length = 1024 := by
  refine ⟨?_, ?_, fullStack_length⟩
  · rw [fullStack_eq]
    exact opIsZero_Push2_Jumpi_example (0 :: List.replicate 1022 0)
  · refine unfusedIsZero_Push2_Jumpi_of_full _ 0 (0 :: List.replicate 1022 0) fullStack_eq ?_
    show ¬ fullStack.length < StackLimit
    rw [fullStack_length]
    exact Nat.lt_irrefl _

/-- C13, amended: with top word `x` and inline target `t`, `opIsZero_Push2_Jumpi` pops
`x`, goes through `checkJumpDest` with the program counter set for `t` exactly when
`x = 0`, and changes nothing else when `x` is not 0; on a stack below the limit of 1024
words it returns what `opIszero`, `opPush2` and `opJumpi`, run in this order, return
(stack, status, gas, error and program counter). -/
theorem opIsZero_Push2_Jumpi_eq_unfused (c : context) (op : OpCode) (t x : Nat)
    (rest : List Word) (ht : t < 2 ^ 16)
    (hc : codeAt c c.pc = some ⟨op, t⟩) (hs : c.stack = x :: rest)
    (hroom : c.stack.length < StackLimit) :
    opIsZero_Push2_Jumpi c = unfusedIsZero_Push2_Jumpi c ∧
    opIsZero_Push2_Jumpi c =
      if x = 0 then checkJumpDest { c with stack := rest, pc := toInt32 (toInt32 t - 1) }
      else some { c with stack := rest } := by
  have hU : Uint64 t = t := by
    unfold Uint64
    apply Nat.mod_eq_of_lt
    calc t < 2 ^ 16 := ht
      _ < 2 ^ 64 := by norm_num
  have hfused := opIsZero_Push2_Jumpi_of_stack c op t x rest hc hs
  refine ⟨?_, hfused⟩
  rw [hfused]
  have hc2 : codeAt { c with stack := (if x = 0 then 1 else 0) :: rest }
      ({ c with stack := (if x = 0 then 1 else 0) :: rest } : context).pc = some ⟨op, t⟩ := hc
  have hroom2 : ({ c with stack := (if x = 0 then 1 else 0) :: rest } : context).stack.length
      < StackLimit := by
    rw [hs] at hroom
    exact hroom
  unfold unfusedIsZero_Push2_Jumpi
  rw [opIszero_of_stack c x rest hs, Option.some_bind, opPush2_of_code _ op t hc2 hroom2,
    Option.some_bind, opJumpi_of_stack _ t (if x = 0 then 1 else 0) rest rfl, hU]
  by_cases hx : x = 0
  · simp only [hx, if_true, one_ne_zero, if_false]
  · simp only [hx, if_false, if_true]

/-- Witness of C13, amended: target 2, a `JUMPDEST`, with `x = 0`. -/
theorem opIsZero_Push2_Jumpi_eq_unfused_witness :
    opIsZero_Push2_Jumpi
        (frame [⟨.ISZERO_PUSH2_JUMPI, 2⟩, ⟨.STOP, 0⟩, ⟨.JUMPDEST, 0⟩] [0, 7]) =
      unfusedIsZero_Push2_Jumpi
        (frame [⟨.ISZERO_PUSH2_JUMPI, 2⟩, ⟨.STOP, 0⟩, ⟨.JUMPDEST, 0⟩] [0, 7]) ∧
    opIsZero_Push2_Jumpi
        (frame [⟨.ISZERO_PUSH2_JUMPI, 2⟩, ⟨.STOP, 0⟩, ⟨.JUMPDEST, 0⟩] [0, 7]) =
      if (0 : Nat) = 0 then
        checkJumpDest
          { frame [⟨.ISZERO_PUSH2_JUMPI, 2⟩, ⟨.STOP, 0⟩, ⟨.JUMPDEST, 0⟩] [0, 7] with
            stack := [7], pc := toInt32 (toInt32 (2 : Nat) - 1) }
      else
        some { frame [⟨.ISZERO_PUSH2_JUMPI, 2⟩, ⟨.STOP, 0⟩, ⟨.JUMPDEST, 0⟩] [0, 7] with
          stack := [7] } :=
  opIsZero_Push2_Jumpi_eq_unfused
    (frame [⟨.ISZERO_PUSH2_JUMPI, 2⟩, ⟨.STOP, 0⟩, ⟨.JUMPDEST, 0⟩] [0, 7])
    .ISZERO_PUSH2_JUMPI 2 0 [7] (by norm_num) (by decide) rfl (by decide)

/-- C14: `opAdd`, `opSub` and `opMul` remove the top word `a` and replace the second word
`b` by `(a + b) mod 2 ^ 256`, `(a - b) mod 2 ^ 256` and `(a * b) mod 2 ^ 256`; the depth
falls by one and the words below are untouched. `ADD` of `2 ^ 256 - 1` and 1 is 0. -/
theorem arithmetic_wraps_mod_2_256 (c : context) (a b : Word) (rest : List Word) :
    opAdd { c with stack := a :: b :: rest } =
      some { c with stack := (a + b) % 2 ^ 256 :: rest } ∧
    opSub { c with stack := a :: b :: rest } =
      some { c with stack := (((a : Int) - (b : Int)) % 2 ^ 256).toNat :: rest } ∧
    opMul { c with stack := a :: b :: rest } =
      some { c with stack := (a * b) % 2 ^ 256 :: rest } ∧
    opAdd (frame [] [2 ^ 256 - 1, 1]) = some (frame [] [0]) := by
  refine ⟨?_, ?_, ?_, ?_⟩
  · simp [opAdd, popPeek, pop, Back, setBack, u256Add]
  · simp [opSub, popPeek, pop, Back, setBack, u256Sub]
  · simp [opMul, popPeek, pop, Back, setBack, u256Mul]
  · simp [frame, opAdd, popPeek, pop, Back, setBack, u256Add]

theorem limb3_lt_iff (a : Nat) (ha : a < 2 ^ 256) :
    limb a 3 < 0x8000000000000000 ↔ a < 2 ^ 255 := by
  unfold limb
  norm_num at ha ⊢
  omega

theorem u256Sign_nonneg_iff (a : Nat) (ha : a < 2 ^ 256) : u256Sign a ≥ 0 ↔ a < 2 ^ 255 := by
  unfold u256Sign
  by_cases h0 : a = 0
  · subst h0
    simp
  · by_cases h3 : limb a 3 < 0x8000000000000000
    · have := (limb3_lt_iff a ha).1 h3
      rw [if_neg h0, if_pos h3]
      exact ⟨fun _ => this, fun _ => by norm_num⟩
    · have : ¬ a < 2 ^ 255 := fun h => h3 ((limb3_lt_iff a ha).2 h)
      rw [if_neg h0, if_neg h3]
      exact ⟨fun h => absurd h (by norm_num), fun h => absurd h this⟩

theorem u256Sign_neg_iff (a : Nat) (ha : a < 2 ^ 256) : u256Sign a < 0 ↔ ¬ a < 2 ^ 255 := by
  rw [← u256Sign_nonneg_iff a ha]
  omega

theorem u256Slt_iff (a b : Nat) (ha : a < 2 ^ 256) (hb : b < 2 ^ 256) :
    u256Slt a b = true ↔ toSigned a < toSigned b := by
  unfold u256Slt
  simp only [u256Sign_nonneg_iff a ha, u256Sign_nonneg_iff b hb, u256Sign_neg_iff a ha,
    u256Sign_neg_iff b hb]
  unfold toSigned u256Lt
  by_cases h1 : a < 2 ^ 255 <;> by_cases h2 : b < 2 ^ 255
  · simp only [h1, h2, not_true_eq_false, and_false, false_and, if_false, if_true,
      decide_eq_true_eq]
    norm_num at ha hb h1 h2 ⊢
  · simp only [h1, h2, not_true_eq_false, not_false_eq_true, and_self, if_true]
    norm_num at ha hb h1 h2 ⊢
    omega
  · simp only [h1, h2, not_true_eq_false, not_false_eq_true, and_self, and_false, false_and,
      if_false, if_true, true_iff]
    norm_num at ha hb h1 h2 ⊢
    omega
  · simp only [h1, h2, not_false_eq_true, and_false, false_and, true_and, if_false,
      decide_eq_true_eq]
    norm_num at ha hb h1 h2 ⊢

theorem u256Sgt_iff (a b : Nat) (ha : a < 2 ^ 256) (hb : b < 2 ^ 256) :
    u256Sgt a b = true ↔ toSigned a > toSigned b := by
  unfold u256Sgt
  simp only [u256Sign_nonneg_iff a ha, u256Sign_nonneg_iff b hb, u256Sign_neg_iff a ha,
    u256Sign_neg_iff b hb]
  unfold toSigned u256Gt
  by_cases h1 : a < 2 ^ 255 <;> by_cases h2 : b < 2 ^ 255
  · simp only [h1, h2, not_true_eq_false, and_false, false_and, if_false, if_true,
      decide_eq_true_eq]
    norm_num at ha hb h1 h2 ⊢
  · simp only [h1, h2, not_true_eq_false, not_false_eq_true, and_self, if_true, true_iff]
    norm_num at ha hb h1 h2 ⊢
    omega
  · simp only [h1, h2, not_true_eq_false, not_false_eq_true, and_self, and_false, false_and,
      if_false, if_true]
    norm_num at ha hb h1 h2 ⊢
    omega
  · simp only [h1, h2, not_false_eq_true, and_false, false_and, true_and, if_false,
      decide_eq_true_eq]
    norm_num at ha hb h1 h2 ⊢

/-- C15: with top word `a` and second word `b`, both below `2 ^ 256`, `opLt` and `opGt`
replace `b` by 1 when `a < b`, resp. `a > b`, as unsigned integers, and by 0 otherwise;
`opSlt` and `opSgt` do so with `a` and `b` read as 256-bit two's-complement integers; each
removes `a`, so the depth falls by one. -/
theorem comparisons_top_is_left_operand (c : context) (a b : Word) (rest : List Word)
    (ha : a < 2 ^ 256) (hb : b < 2 ^ 256) :
    opLt { c with stack := a :: b :: rest } =
      some { c with stack := (if a < b then 1 else 0) :: rest } ∧
    opGt { c with stack := a :: b :: rest } =
      some { c with stack := (if a > b then 1 else 0) :: rest } ∧
    opSlt { c with stack := a :: b :: rest } =
      some { c with stack := (if toSigned a < toSigned b then 1 else 0) :: rest } ∧
    opSgt { c with stack := a :: b :: rest } =
      some { c with stack := (if toSigned a > toSigned b then 1 else 0) :: rest } := by
  refine ⟨?_, ?_, ?_, ?_⟩
  · simp [opLt, popPeek, pop, Back, setBack, u256Lt]
  · simp [opGt, popPeek, pop, Back, setBack, u256Gt]
  · simp only [opSlt, popPeek, pop, Back, List.getElem?_cons_zero, setBack, List.set_cons_zero,
      u256Slt_iff a b ha hb]
  · simp only [opSgt, popPeek, pop, Back, List.getElem?_cons_zero, setBack, List.set_cons_zero,
      u256Sgt_iff a b ha hb]

/-- Witness of C15: `a = 2 ^ 256 - 1`, which is -1 as a signed integer, and `b = 0`. -/
theorem comparisons_top_is_left_operand_witness :
    opLt { frame [] [] with stack := (2 ^ 256 - 1) :: 0 :: [] } =
      some { frame [] [] with stack := (if 2 ^ 256 - 1 < 0 then 1 else 0) :: [] } ∧
    opGt { frame [] [] with stack := (2 ^ 256 - 1) :: 0 :: [] } =
      some { frame [] [] with stack := (if 2 ^ 256 - 1 > 0 then 1 else 0) :: [] } ∧
    opSlt { frame [] [] with stack := (2 ^ 256 - 1) :: 0 :: [] } =
      some { frame [] [] with
        stack := (if toSigned (2 ^ 256 - 1) < toSigned 0 then 1 else 0) :: [] } ∧
    opSgt { frame [] [] with stack := (2 ^ 256 - 1) :: 0 :: [] } =
      some { frame [] [] with
        stack := (if toSigned (2 ^ 256 - 1) > toSigned 0 then 1 else 0) :: [] } :=
  comparisons_top_is_left_operand (frame [] []) (2 ^ 256 - 1) 0 [] (by norm_num) (by norm_num)

theorem Uint64_of_lt (s : Nat) (hs : s < 2 ^ 64) : Uint64 s = s := Nat.mod_eq_of_lt hs

/-- For a shift amount below `2 ^ 64`, `opShl` and `opShr` are exact: the second word `v`
becomes `(v * 2 ^ s) mod 2 ^ 256`, resp. `v / 2 ^ s`. -/
theorem shifts_exact_below_2_64 (c : context) (s v : Word) (rest : List Word)
    (hs : s < 2 ^ 64) (hv : v < 2 ^ 256) :
    opShl { c with stack := s :: v :: rest } =
      some { c with stack := (v * 2 ^ s) % 2 ^ 256 :: rest } ∧
    opShr { c with stack := s :: v :: rest } = some { c with stack := v / 2 ^ s :: rest } := by
  have hl : u256Lsh v s = (v * 2 ^ s) % 2 ^ 256 := by
    unfold u256Lsh
    by_cases h : s ≥ 256
    · rw [if_pos h]
      have hd : 2 ^ 256 ∣ v * 2 ^ s := Dvd.dvd.mul_left (pow_dvd_pow 2 h) v
      exact (Nat.mod_eq_zero_of_dvd hd).symm
    · rw [if_neg h]
  have hr : u256Rsh v s = v / 2 ^ s := by
    unfold u256Rsh
    by_cases h : s ≥ 256
    · rw [if_pos h]
      have hle : 2 ^ 256 ≤ 2 ^ s := Nat.pow_le_pow_right (by norm_num) h
      exact (Nat.div_eq_of_lt (lt_of_lt_of_le hv hle)).symm
    · rw [if_neg h]
  constructor
  · simp only [opShl, popPeek, pop, Back, List.getElem?_cons_zero, setBack, List.set_cons_zero,
      Uint64_of_lt s hs, hl]
  · simp only [opShr, popPeek, pop, Back, List.getElem?_cons_zero, setBack, List.set_cons_zero,
      Uint64_of_lt s hs, hr]

/-- C16: the shift handlers use only the lowest limb of the shift amount. With the shift
amount `2 ^ 64`, which is above 255, `opShl`, `opShr` and `opSar` leave the value 1
unchanged instead of giving 0, and with the shift amount `2 ^ 64 + 1` `opSar` shifts
`2 ^ 255` by one bit instead of giving `2 ^ 256 - 1`. -/
theorem shift_amount_truncated_to_64_bits :
    Uint64 (2 ^ 64) = 0 ∧ Uint64 (2 ^ 64 + 1) = 1 ∧
    opShl (frame [] [2 ^ 64, 1]) = some (frame [] [1]) ∧
    opShr (frame [] [2 ^ 64, 1]) = some (frame [] [1]) ∧
    opSar (frame [] [2 ^ 64, 1]) = some (frame [] [1]) ∧
    opSar (frame [] [2 ^ 64 + 1, 2 ^ 255]) = some (frame [] [2 ^ 255 + 2 ^ 254]) := by
  have h0 : Uint64 (2 ^ 64) = 0 := by unfold Uint64; norm_num
  have h1 : Uint64 (2 ^ 64 + 1) = 1 := by unfold Uint64; norm_num
  refine ⟨h0, h1, ?_, ?_, ?_, ?_⟩
  · simp only [frame, opShl, popPeek, pop, Back, List.getElem?_cons_zero, setBack,
      List.set_cons_zero, h0, u256Lsh]
    norm_num
  · simp only [frame, opShr, popPeek, pop, Back, List.getElem?_cons_zero, setBack,
      List.set_cons_zero, h0, u256Rsh]
    norm_num
  · simp only [frame, opSar, popPeek, pop, Back, List.getElem?_cons_zero, setBack,
      List.set_cons_zero, h0, u256SRsh, u256Rsh]
    norm_num
  · simp only [frame, opSar, popPeek, pop, Back, List.getElem?_cons_zero, setBack,
      List.set_cons_zero, h1, u256SRsh, u256Rsh]
    norm_num

/-! ## Calls and creations -/

theorem UseGas_of_le (c : context) (n : Nat) (h : n ≤ c.gas) :
    UseGas c n = (true, { c with gas := c.gas - n }) := by
  unfold UseGas
  rw [if_pos h]

theorem opStaticCall_of_return (H : Host) (c : context)
    (provided_gas addr inOffset inSize retOffset retSize : Word) (rest : List Word)
    (ret : Bytes) (returnGas : Nat) (err : Option VmError)
    (hgas : H.callGas c.gas (callBaseGas H c inOffset inSize retOffset retSize) provided_gas
      ≤ c.gas)
    (hret : H.StaticCall
        { c with stack := rest, gas := c.gas -
          H.callGas c.gas (callBaseGas H c inOffset inSize retOffset retSize) provided_gas }
        (addr % 2 ^ 160)
        (H.GetSlice c.memory (toInt64 (Uint64 inOffset)) (toInt64 (Uint64 inSize)))
        (H.callGas c.gas (callBaseGas H c inOffset inSize retOffset retSize) provided_gas) =
      (ret, returnGas, err)) :
    opStaticCall H
        { c with stack := provided_gas :: addr :: inOffset :: inSize :: retOffset :: retSize ::
          rest } =
      some (afterCall H
        { c with stack := rest, gas := c.gas -
            H.callGas c.gas (callBaseGas H c inOffset inSize retOffset retSize) provided_gas }
        retOffset retSize ret returnGas err) := by
  have hb : callBaseGas H { c with stack := rest } inOffset inSize retOffset retSize =
      callBaseGas H c inOffset inSize retOffset retSize := rfl
  have hu := UseGas_of_le { c with stack := rest } _ hgas
  simp only [opStaticCall, hb, hu, hret, not_true_eq_false, if_false]

theorem opDelegateCall_of_return (H : Host) (c : context)
    (provided_gas addr inOffset inSize retOffset retSize : Word) (rest : List Word)
    (ret : Bytes) (returnGas : Nat) (err : Option VmError)
    (hgas : H.callGas c.gas (callBaseGas H c inOffset inSize retOffset retSize) provided_gas
      ≤ c.gas)
    (hret : H.DelegateCall
        { c with stack := rest, gas := c.gas -
          H.callGas c.gas (callBaseGas H c inOffset inSize retOffset retSize) provided_gas }
        (addr % 2 ^ 160)
        (H.GetSlice c.memory (toInt64 (Uint64 inOffset)) (toInt64 (Uint64 inSize)))
        (H.callGas c.gas (callBaseGas H c inOffset inSize retOffset retSize) provided_gas) =
      (ret, returnGas, err)) :
    opDelegateCall H
        { c with stack := provided_gas :: addr :: inOffset :: inSize :: retOffset :: retSize ::
          rest } =
      some (afterCall H
        { c with stack := rest, gas := c.gas -
            H.callGas c.gas (callBaseGas H c inOffset inSize retOffset retSize) provided_gas }
        retOffset retSize ret returnGas err) := by
  have hb : callBaseGas H { c with stack := rest } inOffset inSize retOffset retSize =
      callBaseGas H c inOffset inSize retOffset retSize := rfl
  have hu := UseGas_of_le { c with stack := rest } _ hgas
  simp only [opDelegateCall, hb, hu, hret, not_true_eq_false, if_false]

theorem opCall_of_return (H : Host) (c : context)
    (provided_gas addr value inOffset inSize retOffset retSize : Word) (rest : List Word)
    (ret : Bytes) (returnGas : Nat) (err : Option VmError)
    (hgas : callSurcharge H value addr +
        callForwardedGas H c provided_gas value inOffset inSize retOffset retSize ≤ c.gas)
    (hret : H.Call
        { c with stack := rest, gas := c.gas - (callSurcharge H value addr +
          callForwardedGas H c provided_gas value inOffset inSize retOffset retSize) }
        (addr % 2 ^ 160)
        (H.GetSlice c.memory (toInt64 (Uint64 inOffset)) (toInt64 (Uint64 inSize)))
        (if value ≠ 0 then
          (callForwardedGas H c provided_gas value inOffset inSize retOffset retSize +
            CallStipend) % 2 ^ 64
          else callForwardedGas H c provided_gas value inOffset inSize retOffset retSize)
        value = (ret, returnGas, err)) :
    opCall H
        { c with stack := provided_gas :: addr :: value :: inOffset :: inSize :: retOffset ::
          retSize :: rest } =
      some (afterCall H
        { c with stack := rest, gas := c.gas - (callSurcharge H value addr +
          callForwardedGas H c provided_gas value inOffset inSize retOffset retSize) }
        retOffset retSize ret returnGas err) := by
  have hb : callBaseGas H { c with stack := rest } inOffset inSize retOffset retSize =
      callBaseGas H c inOffset inSize retOffset retSize := rfl
  by_cases hv : value = 0
  · have hs : callSurcharge H value addr = 0 := by simp [callSurcharge, hv]
    have hf : callForwardedGas H c provided_gas value inOffset inSize retOffset retSize =
        H.callGas c.gas (callBaseGas H c inOffset inSize retOffset retSize) provided_gas := by
      simp [callForwardedGas, hv]
    rw [hs, hf, Nat.zero_add] at hgas hret
    rw [hs, hf, Nat.zero_add]
    have hu := UseGas_of_le { c with stack := rest } _ hgas
    simp only [hv, ne_eq, not_true_eq_false, if_false] at hret
    simp only [opCall, hb, hv, ne_eq, not_true_eq_false, false_and, if_false, hu, hret]
  · have hf : callForwardedGas H c provided_gas value inOffset inSize retOffset retSize =
        H.callGas c.gas
          ((callBaseGas H c inOffset inSize retOffset retSize + CallValueTransferGas) % 2 ^ 64)
          provided_gas := by
      simp [callForwardedGas, hv]
    rw [hf] at hgas hret
    rw [hf]
    simp only [hv, ne_eq, not_false_eq_true, if_true] at hret
    by_cases he : H.Exist (addr % 2 ^ 160) = true
    · have hs : callSurcharge H value addr = CallValueTransferGas := by
        simp only [callSurcharge, hv, ne_eq, not_false_eq_true, if_true, he, Nat.zero_add]
      rw [hs] at hgas hret
      rw [hs]
      have hu2 := UseGas_of_le { c with stack := rest } CallValueTransferGas
        (show CallValueTransferGas ≤ c.gas by omega)
      have hu3 := UseGas_of_le { c with stack := rest, gas := c.gas - CallValueTransferGas }
        (H.callGas c.gas
          ((callBaseGas H c inOffset inSize retOffset retSize + CallValueTransferGas) % 2 ^ 64)
          provided_gas)
        (show H.callGas c.gas
          ((callBaseGas H c inOffset inSize retOffset retSize + CallValueTransferGas) % 2 ^ 64)
          provided_gas ≤ c.gas - CallValueTransferGas by omega)
      simp only [Nat.sub_sub] at hu3
      simp only [opCall, hb, hv, he, ne_eq, not_false_eq_true, not_true_eq_false, and_false,
        true_and, if_true, if_false, hu2, hu3, hret]
    · have he' : H.Exist (addr % 2 ^ 160) = false := Bool.eq_false_iff.2 he
      have hs : callSurcharge H value addr = CallNewAccountGas + CallValueTransferGas := by
        simp only [callSurcharge, hv, ne_eq, not_false_eq_true, if_true, he',
          Bool.false_eq_true, if_false]
      rw [hs] at hgas hret
      rw [hs]
      have hu1 := UseGas_of_le { c with stack := rest } CallNewAccountGas
        (show CallNewAccountGas ≤ c.gas by omega)
      have hu2 := UseGas_of_le { c with stack := rest, gas := c.gas - CallNewAccountGas }
        CallValueTransferGas (show CallValueTransferGas ≤ c.gas - CallNewAccountGas by omega)
      have hu3 : UseGas
          { c with stack := rest, gas := c.gas - CallNewAccountGas - CallValueTransferGas }
          (H.callGas c.gas
            ((callBaseGas H c inOffset inSize retOffset retSize + CallValueTransferGas) % 2 ^ 64)
            provided_gas) =
          (true, { c with stack := rest, gas := c.gas - (CallNewAccountGas +
            CallValueTransferGas + H.callGas c.gas
              ((callBaseGas H c inOffset inSize retOffset retSize + CallValueTransferGas) % 2 ^ 64)
              provided_gas) }) := by
        rw [UseGas_of_le
          { c with stack := rest, gas := c.gas - CallNewAccountGas - CallValueTransferGas } _
          (show H.callGas c.gas
            ((callBaseGas H c inOffset inSize retOffset retSize + CallValueTransferGas) % 2 ^ 64)
            provided_gas ≤ c.gas - CallNewAccountGas - CallValueTransferGas by omega)]
        simp only [Nat.sub_sub]
      simp only [opCall, hb, hv, he', ne_eq, not_false_eq_true, not_true_eq_false, and_self,
        Bool.false_eq_true, true_and, if_true, if_false, hu1, hu2, hu3, hret]

/-- C19: when `opCall`, `opStaticCall` or `opDelegateCall` has charged its gas and the
nested call returns `(ret, returnGas, err)`, the handler ends with the statements
`afterCall` on the charged frame. These push 1 when `err` is nil and 0 otherwise; they go
through `EnsureCapacity` and `Set` for the output range with `ret` when `err` is nil or
the execution-reverted error, and leave the memory untouched for every other error; they
add `returnGas` to the remaining gas (a 64-bit addition) and replace the return-data
buffer by `ret`. -/
theorem call_result_reconciliation (H : Host) (c : context)
    (provided_gas addr value inOffset inSize retOffset retSize : Word) (rest : List Word)
    (ret : Bytes) (returnGas : Nat) (err : Option VmError) :
    (callSurcharge H value addr +
        callForwardedGas H c provided_gas value inOffset inSize retOffset retSize ≤ c.gas →
      H.Call
        { c with stack := rest, gas := c.gas - (callSurcharge H value addr +
          callForwardedGas H c provided_gas value inOffset inSize retOffset retSize) }
        (addr % 2 ^ 160)
        (H.GetSlice c.memory (toInt64 (Uint64 inOffset)) (toInt64 (Uint64 inSize)))
        (if value ≠ 0 then
          (callForwardedGas H c provided_gas value inOffset inSize retOffset retSize +
            CallStipend) % 2 ^ 64
          else callForwardedGas H c provided_gas value inOffset inSize retOffset retSize)
        value = (ret, returnGas, err) →
      opCall H
        { c with stack := provided_gas :: addr :: value :: inOffset :: inSize :: retOffset ::
          retSize :: rest } =
      some (afterCall H
        { c with stack := rest, gas := c.gas - (callSurcharge H value addr +
          callForwardedGas H c provided_gas value inOffset inSize retOffset retSize) }
        retOffset retSize ret returnGas err)) ∧
    (H.callGas c.gas (callBaseGas H c inOffset inSize retOffset retSize) provided_gas ≤ c.gas →
      H.StaticCall
        { c with stack := rest, gas := c.gas -
          H.callGas c.gas (callBaseGas H c inOffset inSize retOffset retSize) provided_gas }
        (addr % 2 ^ 160)
        (H.GetSlice c.memory (toInt64 (Uint64 inOffset)) (toInt64 (Uint64 inSize)))
        (H.callGas c.gas (callBaseGas H c inOffset inSize retOffset retSize) provided_gas) =
        (ret, returnGas, err) →
      opStaticCall H
        { c with stack := provided_gas :: addr :: inOffset :: inSize :: retOffset :: retSize ::
          rest } =
      some (afterCall H
        { c with stack := rest, gas := c.gas -
            H.callGas c.gas (callBaseGas H c inOffset inSize retOffset retSize) provided_gas }
        retOffset retSize ret returnGas err)) ∧
    (H.callGas c.gas (callBaseGas H c inOffset inSize retOffset retSize) provided_gas ≤ c.gas →
      H.DelegateCall
        { c with stack := rest, gas := c.gas -
          H.callGas c.gas (callBaseGas H c inOffset inSize retOffset retSize) provided_gas }
        (addr % 2 ^ 160)
        (H.GetSlice c.memory (toInt64 (Uint64 inOffset)) (toInt64 (Uint64 inSize)))
        (H.callGas c.gas (callBaseGas H c inOffset inSize retOffset retSize) provided_gas) =
        (ret, returnGas, err) →
      opDelegateCall H
        { c with stack := provided_gas :: addr :: inOffset :: inSize :: retOffset :: retSize ::
          rest } =
      some (afterCall H
        { c with stack := rest, gas := c.gas -
            H.callGas c.gas (callBaseGas H c inOffset inSize retOffset retSize) provided_gas }
        retOffset retSize ret returnGas err)) ∧
    (∀ c1 : context,
      (afterCall H c1 retOffset retSize ret returnGas err).stack.head? =
        some (if err = none then 1 else 0) ∧
      (afterCall H c1 retOffset retSize ret returnGas err).return_data = ret ∧
      (err = none ∨ err = some .ErrExecutionReverted →
        (afterCall H c1 retOffset retSize ret returnGas err).memory =
          H.Set (H.EnsureCapacity c1 (toInt64 (Uint64 retOffset))
            (toInt64 (Uint64 retSize))).memory (Uint64 retOffset) (Uint64 retSize) ret ∧
        (afterCall H c1 retOffset retSize ret returnGas err).gas =
          ((H.EnsureCapacity c1 (toInt64 (Uint64 retOffset))
            (toInt64 (Uint64 retSize))).gas + returnGas) % 2 ^ 64) ∧
      (¬ (err = none ∨ err = some .ErrExecutionReverted) →
        (afterCall H c1 retOffset retSize ret returnGas err).memory = c1.memory ∧
        (afterCall H c1 retOffset retSize ret returnGas err).gas =
          (c1.gas + returnGas) % 2 ^ 64 ∧
        (afterCall H c1 retOffset retSize ret returnGas err).stack = 0 :: c1.stack)) := by
  refine ⟨?_, ?_, ?_, ?_⟩
  · intro hgas hret
    exact opCall_of_return H c provided_gas addr value inOffset inSize retOffset retSize rest
      ret returnGas err hgas hret
  · intro hgas hret
    exact opStaticCall_of_return H c provided_gas addr inOffset inSize retOffset retSize rest
      ret returnGas err hgas hret
  · intro hgas hret
    exact opDelegateCall_of_return H c provided_gas addr inOffset inSize retOffset retSize rest
      ret returnGas err hgas hret
  · intro c1
    by_cases he : err = none ∨ err = some .ErrExecutionReverted
    · refine ⟨?_, ?_, ?_, ?_⟩
      · by_cases h0 : err = none
        · simp [afterCall, pushAfterPop, h0]
        · simp [afterCall, pushAfterPop, h0]
      · simp [afterCall, pushAfterPop]
      · intro _
        simp [afterCall, pushAfterPop, he]
      · intro h
        exact absurd he h
    · have h0 : err ≠ none := fun h => he (Or.inl h)
      have h1 : err ≠ some .ErrExecutionReverted := fun h => he (Or.inr h)
      refine ⟨?_, ?_, ?_, ?_⟩
      · simp [afterCall, pushAfterPop, h0]
      · simp [afterCall, pushAfterPop]
      · intro h
        exact absurd h he
      · intro _
        simp [afterCall, pushAfterPop, h0, h1]

/-- Witness of C19: `opStaticCall` with `specHost` on 100 gas; 10 gas are provided and
returned, and the call succeeds. -/
theorem call_result_reconciliation_witness :
    opStaticCall specHost
        { frame [] [] with stack := 10 :: 5 :: 0 :: 0 :: 0 :: 0 :: [77] } =
      some (afterCall specHost
        { frame [] [] with stack := [77], gas := (frame [] []).gas -
            specHost.callGas (frame [] []).gas (callBaseGas specHost (frame [] []) 0 0 0 0) 10 }
        0 0 [] 10 none) :=
  (call_result_reconciliation specHost (frame [] []) 10 5 0 0 0 0 0 [77] [] 10 none).2.1
    (by decide) (by decide)

theorem opCreate_of_return (H : Host) (c : context) (value offset size : Word)
    (rest : List Word) (res : Bytes) (addr returnGas : Nat) (suberr : Option VmError)
    (hret : H.Create (createFrame c rest)
        (H.GetSlice c.memory (toInt64 (Uint64 offset)) (toInt64 (Uint64 size)))
        (c.gas - c.gas / 64) value = (res, addr, returnGas, suberr)) :
    opCreate H { c with stack := value :: offset :: size :: rest } =
      some { createFrame c rest with
        stack := (if suberr = none ∨ suberr = some .ErrCodeStoreOutOfGas then addr else 0) ::
          (createFrame c rest).stack,
        gas := ((createFrame c rest).gas + returnGas) % 2 ^ 64,
        return_data := if suberr = some .ErrExecutionReverted then res else [] } := by
  have hret' : H.Create (contractUseGas { c with stack := rest } (c.gas - c.gas / 64))
      (H.GetSlice c.memory (toInt64 (Uint64 offset)) (toInt64 (Uint64 size)))
      (c.gas - c.gas / 64) value = (res, addr, returnGas, suberr) := hret
  simp only [opCreate, hret', pushAfterPop, createFrame]
  by_cases h1 : suberr = some .ErrExecutionReverted
  · subst h1
    simp
  · by_cases h2 : suberr = none
    · subst h2
      simp
    · by_cases h3 : suberr = some .ErrCodeStoreOutOfGas
      · subst h3
        simp
      · simp [h1, h2, h3]

theorem opCreate2_of_return (H : Host) (c : context) (endowment offset size salt : Word)
    (rest : List Word) (res : Bytes) (addr returnGas : Nat) (suberr : Option VmError)
    (hgas : create2WordGas size ≤
      (H.EnsureCapacity { c with stack := rest } (toInt64 (Uint64 offset))
        (toInt64 (Uint64 size))).gas)
    (hret : H.Create2 (create2Frame H c offset size rest)
        (H.GetSlice
          (H.EnsureCapacity { c with stack := rest } (toInt64 (Uint64 offset))
            (toInt64 (Uint64 size))).memory
          (toInt64 (Uint64 offset)) (toInt64 (Uint64 size)))
        ((create2Charged H c offset size rest).gas -
          (create2Charged H c offset size rest).gas / 64)
        endowment salt = (res, addr, returnGas, suberr)) :
    opCreate2 H { c with stack := endowment :: offset :: size :: salt :: rest } =
      some { create2Frame H c offset size rest with
        stack := (if suberr = none then addr else 0) :: (create2Frame H c offset size rest).stack,
        gas := ((create2Frame H c offset size rest).gas + returnGas) % 2 ^ 64,
        return_data := if suberr = some .ErrExecutionReverted then res else [] } := by
  have hu1 := UseGas_of_le
    (H.EnsureCapacity { c with stack := rest } (toInt64 (Uint64 offset)) (toInt64 (Uint64 size)))
    (create2WordGas size) hgas
  have hu2 := UseGas_of_le (create2Charged H c offset size rest)
    ((create2Charged H c offset size rest).gas - (create2Charged H c offset size rest).gas / 64)
    (Nat.sub_le _ _)
  unfold create2WordGas at hu1
  simp only [opCreate2, hu1, not_true_eq_false, if_false]
  have hu2' := hu2
  unfold create2Charged create2WordGas at hu2'
  simp only at hu2'
  rw [hu2']
  have hret' := hret
  unfold create2Frame create2Charged create2WordGas at hret'
  simp only at hret'
  simp only [not_true_eq_false, if_false, hret', pushAfterPop, create2Frame, create2Charged,
    create2WordGas]
  by_cases h1 : suberr = some .ErrExecutionReverted
  · subst h1
    simp
  · by_cases h2 : suberr = none
    · subst h2
      simp
    · simp [h1, h2]

/-- C20: when the nested creation returns the address `0x1234` with the error
`ErrCodeStoreOutOfGas`, the creation has failed, yet `opCreate` pushes `0x1234` and not 0;
`opCreate2` on the same outcome pushes 0. Both clear the return-data buffer. -/
theorem opCreate_pushes_address_on_code_store_out_of_gas :
    codeStoreHost.Create (createFrame (frame [] []) [77])
        (codeStoreHost.GetSlice [] (toInt64 (Uint64 0)) (toInt64 (Uint64 0))) 99 0 =
      ([], 0x1234, 0, some .ErrCodeStoreOutOfGas) ∧
    opCreate codeStoreHost (frame [] [0, 0, 0, 77]) =
      some { frame [] [0x1234, 77] with gas := 1 } ∧
    (0x1234 : Nat) ≠ 0 ∧
    codeStoreHost.Create2 (create2Frame codeStoreHost (frame [] []) 0 0 [77])
        (codeStoreHost.GetSlice [] (toInt64 (Uint64 0)) (toInt64 (Uint64 0))) 99 0 0 =
      ([], 0x1234, 0, some .ErrCodeStoreOutOfGas) ∧
    opCreate2 codeStoreHost (frame [] [0, 0, 0, 0, 77]) =
      some { frame [] [0, 77] with gas := 1 } := by
  refine ⟨rfl, ?_, by norm_num, rfl, ?_⟩
  · decide
  · decide

/-- What the two handlers do with the result `(res, addr, returnGas, suberr)` of the nested
creation: `opCreate` pushes `addr` if `suberr` is nil or the code-store-out-of-gas error
and 0 for every other error, and `opCreate2`, once its code-size charge has succeeded,
pushes `addr` if `suberr` is nil and 0 for every error; both set the return-data buffer to
`res` if `suberr` is the execution-reverted error and clear it otherwise, and both add
`returnGas` to the remaining gas. -/
theorem create_result_reconciliation (H : Host) (c : context)
    (value offset size salt : Word) (rest : List Word)
    (res : Bytes) (addr returnGas : Nat) (suberr : Option VmError) :
    (H.Create (createFrame c rest)
        (H.GetSlice c.memory (toInt64 (Uint64 offset)) (toInt64 (Uint64 size)))
        (c.gas - c.gas / 64) value = (res, addr, returnGas, suberr) →
      opCreate H { c with stack := value :: offset :: size :: rest } =
        some { createFrame c rest with
          stack := (if suberr = none ∨ suberr = some .ErrCodeStoreOutOfGas then addr else 0) ::
            (createFrame c rest).stack,
          gas := ((createFrame c rest).gas + returnGas) % 2 ^ 64,
          return_data := if suberr = some .ErrExecutionReverted then res else [] }) ∧
    (create2WordGas size ≤
        (H.EnsureCapacity { c with stack := rest } (toInt64 (Uint64 offset))
          (toInt64 (Uint64 size))).gas →
      H.Create2 (create2Frame H c offset size rest)
        (H.GetSlice
          (H.EnsureCapacity { c with stack := rest } (toInt64 (Uint64 offset))
            (toInt64 (Uint64 size))).memory
          (toInt64 (Uint64 offset)) (toInt64 (Uint64 size)))
        ((create2Charged H c offset size rest).gas -
          (create2Charged H c offset size rest).gas / 64)
        value salt = (res, addr, returnGas, suberr) →
      opCreate2 H { c with stack := value :: offset :: size :: salt :: rest } =
        some { create2Frame H c offset size rest with
          stack := (if suberr = none then addr else 0) ::
            (create2Frame H c offset size rest).stack,
          gas := ((create2Frame H c offset size rest).gas + returnGas) % 2 ^ 64,
          return_data := if suberr = some .ErrExecutionReverted then res else [] }) := by
  constructor
  · intro hret
    exact opCreate_of_return H c value offset size rest res addr returnGas suberr hret
  · intro hgas hret
    exact opCreate2_of_return H c value offset size salt rest res addr returnGas suberr hgas hret

/-- An instance of `create_result_reconciliation`: `opCreate` with `codeStoreHost` on 100
gas; the nested creation returns the address `0x1234` with `ErrCodeStoreOutOfGas`. -/
theorem create_result_reconciliation_witness :
    opCreate codeStoreHost { frame [] [] with stack := 0 :: 0 :: 0 :: [77] } =
      some { createFrame (frame [] []) [77] with
        stack := (if (some VmError.ErrCodeStoreOutOfGas : Option VmError) = none ∨
            (some VmError.ErrCodeStoreOutOfGas : Option VmError) =
              some .ErrCodeStoreOutOfGas then 0x1234 else 0) ::
          (createFrame (frame [] []) [77]).stack,
        gas := ((createFrame (frame [] []) [77]).gas + 0) % 2 ^ 64,
        return_data :=
          if (some VmError.ErrCodeStoreOutOfGas : Option VmError) = some .ErrExecutionReverted
          then [] else [] } :=
  (create_result_reconciliation codeStoreHost (frame [] []) 0 0 0 0 [77] [] 0x1234 0
    (some .ErrCodeStoreOutOfGas)).1 rfl

/-! ## Gas of the create handlers -/

theorem createFrame_gas (c : context) (rest : List Word) :
    (createFrame c rest).gas = c.gas / 64 := by
  unfold createFrame contractUseGas
  have h : ¬ c.gas < c.gas - c.gas / 64 := by omega
  simp only [h, if_false]
  omega

theorem create2Frame_gas (H : Host) (c : context) (offset size : Word) (rest : List Word) :
    (create2Frame H c offset size rest).gas = (create2Charged H c offset size rest).gas / 64 := by
  unfold create2Frame
  simp only
  omega

theorem create2WordGas_of_lt (n : Nat) (h : n < 2 ^ 64 - 31) :
    create2WordGas n = 6 * ((n + 31) / 32) := by
  unfold create2WordGas Uint64
  norm_num at h ⊢
  omega

/-- C21: with `g` the remaining gas when `opCreate` is entered, resp. the remaining gas of
`opCreate2` after its code-size charge, the nested creation is started with the gas
`g - g / 64` on a frame that keeps `g / 64`, and when it returns `returnGas` the remaining
gas is `g / 64 + returnGas` (the sum being within 64 bits). -/
theorem create_keeps_one_64th (H : Host) (c : context)
    (value offset size salt : Word) (rest : List Word)
    (res : Bytes) (addr returnGas : Nat) (suberr : Option VmError) :
    (createFrame c rest).gas = c.gas / 64 ∧
    (H.Create (createFrame c rest)
        (H.GetSlice c.memory (toInt64 (Uint64 offset)) (toInt64 (Uint64 size)))
        (c.gas - c.gas / 64) value = (res, addr, returnGas, suberr) →
      c.gas / 64 + returnGas < 2 ^ 64 →
      (opCreate H { c with stack := value :: offset :: size :: rest }).map (fun f => f.gas) =
        some (c.gas / 64 + returnGas)) ∧
    (create2Frame H c offset size rest).gas = (create2Charged H c offset size rest).gas / 64 ∧
    (create2WordGas size ≤
        (H.EnsureCapacity { c with stack := rest } (toInt64 (Uint64 offset))
          (toInt64 (Uint64 size))).gas →
      H.Create2 (create2Frame H c offset size rest)
        (H.GetSlice
          (H.EnsureCapacity { c with stack := rest } (toInt64 (Uint64 offset))
            (toInt64 (Uint64 size))).memory
          (toInt64 (Uint64 offset)) (toInt64 (Uint64 size)))
        ((create2Charged H c offset size rest).gas -
          (create2Charged H c offset size rest).gas / 64)
        value salt = (res, addr, returnGas, suberr) →
      (create2Charged H c offset size rest).gas / 64 + returnGas < 2 ^ 64 →
      (opCreate2 H { c with stack := value :: offset :: size :: salt :: rest }).map
          (fun f => f.gas) =
        some ((create2Charged H c offset size rest).gas / 64 + returnGas)) := by
  refine ⟨createFrame_gas c rest, ?_, create2Frame_gas H c offset size rest, ?_⟩
  · intro hret hlt
    rw [opCreate_of_return H c value offset size rest res addr returnGas suberr hret]
    simp only [Option.map_some', createFrame_gas]
    rw [Nat.mod_eq_of_lt hlt]
  · intro hgas hret hlt
    rw [opCreate2_of_return H c value offset size salt rest res addr returnGas suberr hgas hret]
    simp only [Option.map_some', create2Frame_gas]
    rw [Nat.mod_eq_of_lt hlt]

/-- Witness of C21: `opCreate` with `specHost` on 100 gas: 99 are forwarded and returned, 1
is kept. -/
theorem create_keeps_one_64th_witness :
    (opCreate specHost { frame [] [] with stack := 0 :: 0 :: 0 :: [77] }).map
        (fun f => f.gas) = some ((frame [] []).gas / 64 + 99) :=
  (create_keeps_one_64th specHost (frame [] []) 0 0 0 0 [77] [] 0x1234 99 none).2.1
    rfl (by decide)

/-- C22, as stated, fails for `opCreate`: with an init-code size of 64 bytes, two words
that would cost 12 gas, `opCreate` on 100 gas forwards 99 gas, all but one 64th of the
100, and ends with 100 gas when the creation returns the 99: no code-size gas was
charged. -/
theorem opCreate_charges_no_code_size_gas :
    opCreate specHost (frame [] [0, 0, 64, 77]) =
      some { frame [] [0x1234, 77] with gas := 100 } ∧
    specHost.Create (createFrame (frame [] []) [77])
        (specHost.GetSlice [] (toInt64 (Uint64 0)) (toInt64 (Uint64 64))) 99 0 =
      ([], 0x1234, 99, none) ∧
    6 * ((64 + 31) / 32) = 12 := by
  refine ⟨?_, rfl, by norm_num⟩
  decide

/-- The two outcomes of the code-size charge of `opCreate2`, with the charge as the
handler computes it, and the gas of `opCreate` after the creation. -/
theorem opCreate2_charge_cases (H : Host) (c : context)
    (value offset size salt : Word) (rest : List Word) :
    (size < 2 ^ 64 - 31 → create2WordGas size = 6 * ((size + 31) / 32)) ∧
    (¬ create2WordGas size ≤
        (H.EnsureCapacity { c with stack := rest } (toInt64 (Uint64 offset))
          (toInt64 (Uint64 size))).gas →
      opCreate2 H { c with stack := value :: offset :: size :: salt :: rest } =
        some { H.EnsureCapacity { c with stack := rest } (toInt64 (Uint64 offset))
          (toInt64 (Uint64 size)) with status := .OUT_OF_GAS }) ∧
    (create2WordGas size ≤
        (H.EnsureCapacity { c with stack := rest } (toInt64 (Uint64 offset))
          (toInt64 (Uint64 size))).gas →
      (create2Charged H c offset size rest).gas =
        (H.EnsureCapacity { c with stack := rest } (toInt64 (Uint64 offset))
          (toInt64 (Uint64 size))).gas - create2WordGas size ∧
      opCreate2 H { c with stack := value :: offset :: size :: salt :: rest } =
        some { create2Frame H c offset size rest with
          stack := (if (H.Create2 (create2Frame H c offset size rest)
              (H.GetSlice
                (H.EnsureCapacity { c with stack := rest } (toInt64 (Uint64 offset))
                  (toInt64 (Uint64 size))).memory
                (toInt64 (Uint64 offset)) (toInt64 (Uint64 size)))
              ((create2Charged H c offset size rest).gas -
                (create2Charged H c offset size rest).gas / 64)
              value salt).2.2.2 = none then
            (H.Create2 (create2Frame H c offset size rest)
              (H.GetSlice
                (H.EnsureCapacity { c with stack := rest } (toInt64 (Uint64 offset))
                  (toInt64 (Uint64 size))).memory
                (toInt64 (Uint64 offset)) (toInt64 (Uint64 size)))
              ((create2Charged H c offset size rest).gas -
                (create2Charged H c offset size rest).gas / 64)
              value salt).2.1 else 0) :: (create2Frame H c offset size rest).stack,
          gas := ((create2Frame H c offset size rest).gas +
            (H.Create2 (create2Frame H c offset size rest)
              (H.GetSlice
                (H.EnsureCapacity { c with stack := rest } (toInt64 (Uint64 offset))
                  (toInt64 (Uint64 size))).memory
                (toInt64 (Uint64 offset)) (toInt64 (Uint64 size)))
              ((create2Charged H c offset size rest).gas -
                (create2Charged H c offset size rest).gas / 64)
              value salt).2.2.1) % 2 ^ 64,
          return_data := if (H.Create2 (create2Frame H c offset size rest)
              (H.GetSlice
                (H.EnsureCapacity { c with stack := rest } (toInt64 (Uint64 offset))
                  (toInt64 (Uint64 size))).memory
                (toInt64 (Uint64 offset)) (toInt64 (Uint64 size)))
              ((create2Charged H c offset size rest).gas -
                (create2Charged H c offset size rest).gas / 64)
              value salt).2.2.2 = some .ErrExecutionReverted then
            (H.Create2 (create2Frame H c offset size rest)
              (H.GetSlice
                (H.EnsureCapacity { c with stack := rest } (toInt64 (Uint64 offset))
                  (toInt64 (Uint64 size))).memory
                (toInt64 (Uint64 offset)) (toInt64 (Uint64 size)))
              ((create2Charged H c offset size rest).gas -
                (create2Charged H c offset size rest).gas / 64)
              value salt).1 else [] }) ∧
    (opCreate H { c with stack := value :: offset :: size :: rest }).map (fun f => f.gas) =
      some ((c.gas / 64 +
        (H.Create (createFrame c rest)
          (H.GetSlice c.memory (toInt64 (Uint64 offset)) (toInt64 (Uint64 size)))
          (c.gas - c.gas / 64) value).2.2.1) % 2 ^ 64) := by
  refine ⟨?_, ?_, ?_, ?_⟩
  · intro hs
    exact create2WordGas_of_lt size hs
  · intro hgas
    have hu : UseGas (H.EnsureCapacity { c with stack := rest } (toInt64 (Uint64 offset))
        (toInt64 (Uint64 size))) (create2WordGas size) =
        (false, { H.EnsureCapacity { c with stack := rest } (toInt64 (Uint64 offset))
          (toInt64 (Uint64 size)) with status := .OUT_OF_GAS }) := by
      unfold UseGas
      rw [if_neg hgas]
    unfold create2WordGas at hu
    simp only [opCreate2, hu, Bool.false_eq_true, not_false_eq_true, if_true]
  · intro hgas
    refine ⟨rfl, ?_⟩
    exact opCreate2_of_return H c value offset size salt rest _ _ _ _ hgas rfl
  · rw [opCreate_of_return H c value offset size rest _ _ _ _ rfl]
    simp only [Option.map_some', createFrame_gas]

/-- C22, amended: for an init-code size below `2 ^ 64 - 31`, `opCreate2` charges, after
`EnsureCapacity` and before the gas to forward is computed, 6 gas for each 32-byte word of
the init code, the size rounded up to whole words; when the remaining gas does not cover
the charge the handler returns with status out of gas and the nested creation is not
started; when it does, the gas to forward is computed from the gas left after the charge.
`opCreate` makes no code-size charge. -/
theorem create2_code_size_charge (H : Host) (c : context)
    (value offset size salt : Word) (rest : List Word) (hs : size < 2 ^ 64 - 31) :
    (¬ 6 * ((size + 31) / 32) ≤
        (H.EnsureCapacity { c with stack := rest } (toInt64 (Uint64 offset))
          (toInt64 (Uint64 size))).gas →
      opCreate2 H { c with stack := value :: offset :: size :: salt :: rest } =
        some { H.EnsureCapacity { c with stack := rest } (toInt64 (Uint64 offset))
          (toInt64 (Uint64 size)) with status := .OUT_OF_GAS }) ∧
    (6 * ((size + 31) / 32) ≤
        (H.EnsureCapacity { c with stack := rest } (toInt64 (Uint64 offset))
          (toInt64 (Uint64 size))).gas →
      (create2Charged H c offset size rest).gas =
        (H.EnsureCapacity { c with stack := rest } (toInt64 (Uint64 offset))
          (toInt64 (Uint64 size))).gas - 6 * ((size + 31) / 32) ∧
      (create2Frame H c offset size rest).gas =
        ((H.EnsureCapacity { c with stack := rest } (toInt64 (Uint64 offset))
          (toInt64 (Uint64 size))).gas - 6 * ((size + 31) / 32)) / 64 ∧
      (opCreate2 H { c with stack := value :: offset :: size :: salt :: rest }).map
          (fun f => f.gas) =
        some ((((H.EnsureCapacity { c with stack := rest } (toInt64 (Uint64 offset))
            (toInt64 (Uint64 size))).gas - 6 * ((size + 31) / 32)) / 64 +
          (H.Create2 (create2Frame H c offset size rest)
            (H.GetSlice
              (H.EnsureCapacity { c with stack := rest } (toInt64 (Uint64 offset))
                (toInt64 (Uint64 size))).memory
              (toInt64 (Uint64 offset)) (toInt64 (Uint64 size)))
            ((create2Charged H c offset size rest).gas -
              (create2Charged H c offset size rest).gas / 64)
            value salt).2.2.1) % 2 ^ 64)) ∧
    (opCreate H { c with stack := value :: offset :: size :: rest }).map (fun f => f.gas) =
      some ((c.gas / 64 +
        (H.Create (createFrame c rest)
          (H.GetSlice c.memory (toInt64 (Uint64 offset)) (toInt64 (Uint64 size)))
          (c.gas - c.gas / 64) value).2.2.1) % 2 ^ 64) := by
  have hw : create2WordGas size = 6 * ((size + 31) / 32) := create2WordGas_of_lt size hs
  have old := opCreate2_charge_cases H c value offset size salt rest
  rw [hw] at old
  refine ⟨old.2.1, ?_, old.2.2.2⟩
  intro hgas
  obtain ⟨h1, h2⟩ := old.2.2.1 hgas
  refine ⟨h1, ?_, ?_⟩
  · rw [create2Frame_gas, h1]
  · rw [h2]
    simp only [Option.map_some', create2Frame_gas, h1]

/-- Witness of C22, amended: `opCreate2` with `specHost`, an init code of 64 bytes and 100
gas; the expansion of the memory costs 6 gas, the two words cost 12, and 94 cover it: 82
are left, of which 81 are forwarded and returned. -/
theorem create2_code_size_charge_witness :
    (create2Charged specHost (frame [] []) 0 64 [77]).gas =
      (specHost.EnsureCapacity { frame [] [] with stack := [77] } (toInt64 (Uint64 0))
        (toInt64 (Uint64 64))).gas - 6 * ((64 + 31) / 32) ∧
    (create2Charged specHost (frame [] []) 0 64 [77]).gas = 82 ∧
    (opCreate2 specHost (frame [] [0, 0, 64, 0, 77])).map (fun f => f.gas) = some 82 :=
  ⟨((create2_code_size_charge specHost (frame [] []) 0 0 64 0 [77] (by norm_num)).2.1
      (by decide)).1,
    by decide, by decide⟩

/-! ## Data copies -/

theorem toInt64_of_lt (n : Nat) (h : n < 2 ^ 63) : toInt64 (n : Int) = n := by
  unfold toInt64
  norm_num at h ⊢
  omega

/-- When neither `len(data) + size` leaves 64 bits nor `size` the positive range of `int`,
`getData` returns the `size` bytes of `data` from `start` on, zero bytes standing for what
lies beyond the end of `data`. -/
theorem getData_of_no_wrap (data : Bytes) (start size : Nat)
    (hs : size < 2 ^ 63) (hl : data.length + size < 2 ^ 64) :
    getData data start size = some ((data.drop start ++ List.replicate size 0).take size) := by
  unfold getData
  simp only [toInt64_of_lt size hs]
  by_cases h : start > data.length
  · have h1 : (data.length + size) % 2 ^ 64 = data.length + size := Nat.mod_eq_of_lt hl
    have h2 : (if data.length + size > data.length then data.length else data.length + size)
        = data.length := by split <;> omega
    simp only [h, if_true, h1, h2, sliceBytes, le_refl, and_self, Nat.sub_self, List.take_zero,
      RightPadBytes]
    rw [List.drop_eq_nil_of_le (by omega)]
    by_cases h0 : size = 0
    · subst h0; simp
    · have : ¬ ((size : Int) ≤ ((([] : Bytes).length : Nat) : Int)) := by
        simp only [List.length_nil]; omega
      simp only [this, if_false]
      simp
  · have hle : start ≤ data.length := by omega
    have h1 : (start + size) % 2 ^ 64 = start + size := Nat.mod_eq_of_lt (by omega)
    simp only [h, if_false, h1]
    by_cases h3 : start + size > data.length
    · simp only [h3, if_true, sliceBytes, hle, le_refl, and_self, RightPadBytes]
      have hlen : ((data.drop start).take (data.length - start)).length =
          data.length - start := by
        simp
      have : ¬ ((size : Int) ≤
          ((((data.drop start).take (data.length - start)).length : Nat) : Int)) := by
        rw [hlen]; omega
      simp only [this, if_false, hlen]
      rw [List.take_of_length_le (by simp)]
      rw [List.take_append_eq_append_take]
      rw [List.take_of_length_le (by simp; omega)]
      simp only [List.length_drop, List.take_replicate, Int.toNat_ofNat]
      rw [if_neg (by omega)]
      congr 3
      omega
    · have : start ≤ start + size ∧ start + size ≤ data.length := by omega
      simp only [h3, if_false, sliceBytes, this, and_self, if_true, RightPadBytes,
        Nat.add_sub_cancel_left]
      have hlen : ((data.drop start).take size).length = size := by
        simp; omega
      have : ((size : Int) ≤ ((((data.drop start).take size).length : Nat) : Int)) := by
        rw [hlen]
      simp only [this, if_true]
      rw [List.take_append_of_le_length (by simp; omega)]

/-- C28: `getData` is not total. For a `data` of three bytes, `start = 1` and
`size = 2 ^ 64 - 1` the 64-bit sum `start + size` is 0, so the slice expression is
`data[1:0]`, which panics; for `start = 0` and `size = 2 ^ 63` the conversion `int(size)`
is negative and the three bytes of `data` are returned, not `size` bytes. When
`len(data) + size` stays below `2 ^ 64` and `size` below `2 ^ 63`, the result is as
claimed: the `size` bytes of `data` from `start` on, continued with zero bytes. -/
theorem getData_end_wraps :
    getData [1, 2, 3] 1 (2 ^ 64 - 1) = none ∧
    (1 + (2 ^ 64 - 1)) % 2 ^ 64 = 0 ∧
    sliceBytes [1, 2, 3] 1 0 = none ∧
    getData [1, 2, 3] 0 (2 ^ 63) = some [1, 2, 3] ∧
    getData [1, 2, 3] 1 5 = some [2, 3, 0, 0, 0] ∧
    ∀ (data : Bytes) (start size : Nat), size < 2 ^ 63 → data.length + size < 2 ^ 64 →
      getData data start size =
        some ((data.drop start ++ List.replicate size 0).take size) := by
  refine ⟨by decide, by decide, by decide, by decide, by decide, ?_⟩
  intro data start size hs hl
  exact getData_of_no_wrap data start size hs hl

theorem copyPrice_of_lt (n : Nat) (h : n < 2 ^ 64 - 31) :
    copyPrice n = 3 * ((n + 31) / 32) := by
  unfold copyPrice
  norm_num at h ⊢
  omega

/-- C26: the copy charge is computed in 64-bit arithmetic from the low 64 bits of the
length. For the lengths `2 ^ 64` and `2 ^ 64 - 1`, where `3 * ceil(L / 32)` is
`3 * 2 ^ 59`, the charge is 0: `opCallDataCopy` and `opCodeCopy` on 100 gas keep the 100
gas and stay `RUNNING`. For a length below `2 ^ 64 - 31` the charge is
`3 * ceil(L / 32)`, and when the remaining gas does not cover the charge, the two handlers
return out of gas with nothing but the operands popped. -/
theorem copyPrice_wraps_at_64_bits :
    copyPrice (Uint64 (2 ^ 64)) = 0 ∧ copyPrice (Uint64 (2 ^ 64 - 1)) = 0 ∧
    3 * ((2 ^ 64 + 31) / 32) = 3 * 2 ^ 59 ∧
    opCallDataCopy specHost { frame [] [0, 0, 2 ^ 64, 77] with data := [1, 2, 3] } =
      some { frame [] [77] with data := [1, 2, 3] } ∧
    opCodeCopy specHost { frame [] [0, 0, 2 ^ 64, 77] with contract_code := [1, 2, 3] } =
      some { frame [] [77] with contract_code := [1, 2, 3] } ∧
    opCallDataCopy specHost { frame [] [0, 0, 2 ^ 64 - 1, 77] with data := [1, 2, 3] } =
      some { frame [] [77] with data := [1, 2, 3] } ∧
    opCodeCopy specHost { frame [] [0, 0, 2 ^ 64 - 1, 77] with contract_code := [1, 2, 3] } =
      some { frame [] [77] with contract_code := [1, 2, 3] } ∧
    (∀ L : Nat, L < 2 ^ 64 - 31 → copyPrice (Uint64 L) = 3 * ((L + 31) / 32)) ∧
    ∀ (H : Host) (c : context) (memOffset offset length : Word) (rest : List Word),
      c.gas < copyPrice (Uint64 length) →
      opCallDataCopy H { c with stack := memOffset :: offset :: length :: rest } =
        some { c with stack := rest, status := .OUT_OF_GAS } ∧
      opCodeCopy H { c with stack := memOffset :: offset :: length :: rest } =
        some { c with stack := rest, status := .OUT_OF_GAS } := by
  refine ⟨by decide, by decide, by norm_num, by decide, by decide, by decide, by decide,
    ?_, ?_⟩
  · intro L hL
    rw [Uint64_of_lt L (by omega)]
    exact copyPrice_of_lt L hL
  · intro H c memOffset offset length rest hgas
    have hu : UseGas { c with stack := rest } (copyPrice (Uint64 length)) =
        (false, { c with stack := rest, status := .OUT_OF_GAS }) := by
      unfold UseGas
      rw [if_neg (by simp only; omega)]
    constructor
    · simp only [opCallDataCopy, hu, Bool.false_eq_true, not_false_eq_true, if_true]
    · simp only [opCodeCopy, hu, Bool.false_eq_true, not_false_eq_true, if_true]

theorem Uint64WithOverflow_of_lt (w : Nat) (h : w < 2 ^ 256) :
    Uint64WithOverflow w = (w % 2 ^ 64, decide (2 ^ 64 ≤ w)) := by
  unfold Uint64WithOverflow limb
  refine Prod.ext ?_ ?_
  · simp
  · simp only [decide_eq_decide]
    norm_num at h ⊢
    omega

/-- When `dataOffset + length` stays below `2 ^ 256`, `opReturnDataCopy` signals
`ErrReturnDataOutOfBounds` exactly when the sum exceeds the length of the buffer, and
otherwise writes `return_data[dataOffset : dataOffset+length]` once the copy is paid. -/
theorem opReturnDataCopy_of_no_wrap (H : Host) (c : context)
    (memOffset dataOffset length : Nat) (rest : List Word)
    (hsum : dataOffset + length < 2 ^ 256) (hlen : c.return_data.length < 2 ^ 64)
    (hE : (H.EnsureCapacity { c with stack := rest } (toInt64 (Uint64 memOffset))
      (toInt64 (Uint64 length))).return_data = c.return_data) :
    opReturnDataCopy H { c with stack := memOffset :: dataOffset :: length :: rest } =
      if c.return_data.length < dataOffset + length then
        some (SignalError { c with stack := rest } .ErrReturnDataOutOfBounds)
      else if copyPrice length ≤ (H.EnsureCapacity { c with stack := rest }
          (toInt64 (Uint64 memOffset)) (toInt64 (Uint64 length))).gas then
        some { H.EnsureCapacity { c with stack := rest } (toInt64 (Uint64 memOffset))
            (toInt64 (Uint64 length)) with
          gas := (H.EnsureCapacity { c with stack := rest } (toInt64 (Uint64 memOffset))
            (toInt64 (Uint64 length))).gas - copyPrice length,
          memory := H.Set (H.EnsureCapacity { c with stack := rest }
              (toInt64 (Uint64 memOffset)) (toInt64 (Uint64 length))).memory
            (Uint64 memOffset) length ((c.return_data.drop dataOffset).take length) }
      else
        some { H.EnsureCapacity { c with stack := rest } (toInt64 (Uint64 memOffset))
          (toInt64 (Uint64 length)) with status := .OUT_OF_GAS } := by
  have hd : dataOffset < 2 ^ 256 := by omega
  have hadd : u256Add dataOffset length = dataOffset + length := Nat.mod_eq_of_lt hsum
  simp only [opReturnDataCopy, hadd, Uint64WithOverflow_of_lt dataOffset hd,
    Uint64WithOverflow_of_lt (dataOffset + length) hsum, decide_eq_true_eq]
  by_cases h1 : 2 ^ 64 ≤ dataOffset
  · have h2 : c.return_data.length < dataOffset + length := by omega
    simp only [h1, h2, if_true]
  · simp only [h1, if_false]
    by_cases h2 : c.return_data.length < dataOffset + length
    · have h3 : 2 ^ 64 ≤ dataOffset + length ∨
          c.return_data.length < (dataOffset + length) % 2 ^ 64 := by omega
      simp only [h2, h3, if_true]
    · have h3 : ¬ (2 ^ 64 ≤ dataOffset + length ∨
          c.return_data.length < (dataOffset + length) % 2 ^ 64) := by omega
      have hl : Uint64 length = length := Uint64_of_lt length (by omega)
      have hm1 : dataOffset % 2 ^ 64 = dataOffset := Nat.mod_eq_of_lt (by omega)
      have hm2 : (dataOffset + length) % 2 ^ 64 = dataOffset + length :=
        Nat.mod_eq_of_lt (by omega)
      rw [if_neg h3, if_neg h2]
      simp only [hm1, hm2]
      rw [hl] at hE ⊢
      by_cases h4 : copyPrice length ≤ (H.EnsureCapacity { c with stack := rest }
          (toInt64 (Uint64 memOffset)) (toInt64 length)).gas
      · have hs : dataOffset ≤ dataOffset + length ∧
            dataOffset + length ≤ c.return_data.length := by omega
        simp only [UseGas, h4, if_true, not_true_eq_false, if_false, sliceBytes, hE, hs,
          and_self, Nat.add_sub_cancel_left]
      · simp only [UseGas, h4, if_false, Bool.false_eq_true, not_false_eq_true, if_true]

/-- C23: the sum `dataOffset + length` is formed modulo `2 ^ 256`. With a buffer of three
bytes, `dataOffset = 1` and `length = 2 ^ 256 - 1` the sum is 0, so nothing is signalled
although `1 + (2 ^ 256 - 1)` exceeds 3, and the slice expression `return_data[1:0]`
panics. When `dataOffset + length` is below `2 ^ 256`, the handler signals exactly when
the sum exceeds the length of the buffer, and otherwise what it hands to `Memory.Set`,
once the copy is paid, is `return_data[dataOffset : dataOffset+length]`. -/
theorem opReturnDataCopy_sum_wraps :
    opReturnDataCopy specHost
      { frame [] [0, 1, 2 ^ 256 - 1, 77] with return_data := [1, 2, 3] } = none ∧
    u256Add 1 (2 ^ 256 - 1) = 0 ∧
    sliceBytes [1, 2, 3] 1 0 = none ∧
    opReturnDataCopy specHost
      { frame [] [0, 1, 2, 77] with return_data := [1, 2, 3] } =
      some { frame [] [77] with
        return_data := [1, 2, 3],
        gas := 94,
        memory := [2, 3] ++ List.replicate 30 0 } ∧
    opReturnDataCopy specHost
      { frame [] [0, 1, 3, 77] with return_data := [1, 2, 3] } =
      some (SignalError { frame [] [77] with return_data := [1, 2, 3] }
        .ErrReturnDataOutOfBounds) ∧
    ∀ (H : Host) (c : context) (memOffset dataOffset length : Word) (rest : List Word),
      dataOffset + length < 2 ^ 256 → c.return_data.length < 2 ^ 64 →
      (H.EnsureCapacity { c with stack := rest } (toInt64 (Uint64 memOffset))
        (toInt64 (Uint64 length))).return_data = c.return_data →
      opReturnDataCopy H { c with stack := memOffset :: dataOffset :: length :: rest } =
        if c.return_data.length < dataOffset + length then
          some (SignalError { c with stack := rest } .ErrReturnDataOutOfBounds)
        else if copyPrice length ≤ (H.EnsureCapacity { c with stack := rest }
            (toInt64 (Uint64 memOffset)) (toInt64 (Uint64 length))).gas then
          some { H.EnsureCapacity { c with stack := rest } (toInt64 (Uint64 memOffset))
              (toInt64 (Uint64 length)) with
            gas := (H.EnsureCapacity { c with stack := rest } (toInt64 (Uint64 memOffset))
              (toInt64 (Uint64 length))).gas - copyPrice length,
            memory := H.Set (H.EnsureCapacity { c with stack := rest }
                (toInt64 (Uint64 memOffset)) (toInt64 (Uint64 length))).memory
              (Uint64 memOffset) length ((c.return_data.drop dataOffset).take length) }
        else
          some { H.EnsureCapacity { c with stack := rest } (toInt64 (Uint64 memOffset))
            (toInt64 (Uint64 length)) with status := .OUT_OF_GAS } := by
  refine ⟨by decide, by decide, by decide, by decide, by decide, ?_⟩
  intro H c memOffset dataOffset length rest hsum hlen hE
  exact opReturnDataCopy_of_no_wrap H c memOffset dataOffset length rest hsum hlen hE

/-! ## Push handlers -/

theorem or_eq_add_of_lt (i a b : Nat) (h : b < 2 ^ i) : 2 ^ i * a ||| b = 2 ^ i * a + b :=
  (Nat.mul_add_lt_is_or h a).symm

theorem limbOfArgs_eq (a0 a1 a2 a3 : Nat) (h0 : a0 < 2 ^ 16) (h1 : a1 < 2 ^ 16)
    (h2 : a2 < 2 ^ 16) (h3 : a3 < 2 ^ 16) :
    limbOfArgs a0 a1 a2 a3 = 2 ^ 48 * a0 + 2 ^ 32 * a1 + 2 ^ 16 * a2 + a3 := by
  unfold limbOfArgs shl64
  simp only [Nat.shiftLeft_eq]
  rw [Nat.mod_eq_of_lt (by norm_num at h0 ⊢; omega), Nat.mod_eq_of_lt (by norm_num at h1 ⊢; omega),
    Nat.mod_eq_of_lt (by norm_num at h2 ⊢; omega)]
  rw [Nat.or_assoc, Nat.or_assoc]
  rw [Nat.mul_comm a2, or_eq_add_of_lt 16 a2 a3 h3]
  have e1 : 2 ^ 16 * a2 + a3 < 2 ^ 32 := by norm_num at h2 h3 ⊢; omega
  rw [Nat.mul_comm a1, or_eq_add_of_lt 32 a1 _ e1]
  have e2 : 2 ^ 32 * a1 + (2 ^ 16 * a2 + a3) < 2 ^ 48 := by norm_num at h1 h2 h3 ⊢; omega
  rw [Nat.mul_comm a0, or_eq_add_of_lt 48 a0 _ e2]
  omega

theorem push3_word (a0 a1 : Nat) (h0 : a0 < 2 ^ 16) (h1 : a1 < 2 ^ 16) :
    bytesToWord [(a0 >>> 8) % 256, a0 % 256, (a1 >>> 8) % 256] =
      ofLimbs (shl64 a0 8 ||| (a1 >>> 8)) 0 0 0 := by
  unfold shl64
  simp only [Nat.shiftLeft_eq, Nat.shiftRight_eq_div_pow]
  rw [Nat.mod_eq_of_lt (show a0 * 2 ^ 8 < 2 ^ 64 by norm_num at h0 ⊢; omega)]
  have e : a1 / 2 ^ 8 < 2 ^ 8 := by norm_num at h1 ⊢; omega
  rw [Nat.mul_comm a0, or_eq_add_of_lt 8 a0 _ e]
  simp only [bytesToWord, List.foldl, ofLimbs]
  norm_num at h0 h1 ⊢
  omega

theorem push4_word (a0 a1 : Nat) (h0 : a0 < 2 ^ 16) (h1 : a1 < 2 ^ 16) :
    bytesToWord [(a0 >>> 8) % 256, a0 % 256, (a1 >>> 8) % 256, a1 % 256] =
      ofLimbs (shl64 a0 16 ||| a1) 0 0 0 := by
  unfold shl64
  simp only [Nat.shiftLeft_eq, Nat.shiftRight_eq_div_pow]
  rw [Nat.mod_eq_of_lt (show a0 * 2 ^ 16 < 2 ^ 64 by norm_num at h0 ⊢; omega)]
  rw [Nat.mul_comm a0, or_eq_add_of_lt 16 a0 _ h1]
  simp only [bytesToWord, List.foldl, ofLimbs]
  norm_num at h0 h1 ⊢
  omega

theorem push1_word (a0 : Nat) (h0 : a0 < 2 ^ 16) :
    bytesToWord [(a0 >>> 8) % 256] = ofLimbs (a0 >>> 8) 0 0 0 := by
  simp only [Nat.shiftRight_eq_div_pow, bytesToWord, List.foldl, ofLimbs]
  norm_num at h0 ⊢
  omega

theorem push2_word (a0 : Nat) (h0 : a0 < 2 ^ 16) :
    bytesToWord [(a0 >>> 8) % 256, a0 % 256] = ofLimbs a0 0 0 0 := by
  simp only [Nat.shiftRight_eq_div_pow, bytesToWord, List.foldl, ofLimbs]
  norm_num at h0 ⊢
  omega

/-- The two bytes of a 16-bit argument, high byte first, continue a big-endian value by
the argument. -/
theorem foldl_pair (acc a : Nat) (h : a < 2 ^ 16) :
    (acc * 256 + (a >>> 8) % 256) * 256 + a % 256 = acc * 2 ^ 16 + a := by
  simp only [Nat.shiftRight_eq_div_pow]
  norm_num at h ⊢
  omega

theorem push32_word (a0 a1 a2 a3 a4 a5 a6 a7 a8 a9 a10 a11 a12 a13 a14 a15 : Nat)
    (h0 : a0 < 2 ^ 16) (h1 : a1 < 2 ^ 16) (h2 : a2 < 2 ^ 16) (h3 : a3 < 2 ^ 16)
    (h4 : a4 < 2 ^ 16) (h5 : a5 < 2 ^ 16) (h6 : a6 < 2 ^ 16) (h7 : a7 < 2 ^ 16)
    (h8 : a8 < 2 ^ 16) (h9 : a9 < 2 ^ 16) (h10 : a10 < 2 ^ 16) (h11 : a11 < 2 ^ 16)
    (h12 : a12 < 2 ^ 16) (h13 : a13 < 2 ^ 16) (h14 : a14 < 2 ^ 16) (h15 : a15 < 2 ^ 16) :
    bytesToWord [(a0 >>> 8) % 256, a0 % 256, (a1 >>> 8) % 256, a1 % 256,
      (a2 >>> 8) % 256, a2 % 256, (a3 >>> 8) % 256, a3 % 256,
      (a4 >>> 8) % 256, a4 % 256, (a5 >>> 8) % 256, a5 % 256,
      (a6 >>> 8) % 256, a6 % 256, (a7 >>> 8) % 256, a7 % 256,
      (a8 >>> 8) % 256, a8 % 256, (a9 >>> 8) % 256, a9 % 256,
      (a10 >>> 8) % 256, a10 % 256, (a11 >>> 8) % 256, a11 % 256,
      (a12 >>> 8) % 256, a12 % 256, (a13 >>> 8) % 256, a13 % 256,
      (a14 >>> 8) % 256, a14 % 256, (a15 >>> 8) % 256, a15 % 256] =
      ofLimbs (limbOfArgs a12 a13 a14 a15) (limbOfArgs a8 a9 a10 a11)
        (limbOfArgs a4 a5 a6 a7) (limbOfArgs a0 a1 a2 a3) := by
  rw [limbOfArgs_eq a12 a13 a14 a15 h12 h13 h14 h15, limbOfArgs_eq a8 a9 a10 a11 h8 h9 h10 h11,
    limbOfArgs_eq a4 a5 a6 a7 h4 h5 h6 h7, limbOfArgs_eq a0 a1 a2 a3 h0 h1 h2 h3]
  simp only [bytesToWord, List.foldl]
  rw [foldl_pair _ a0 h0, foldl_pair _ a1 h1, foldl_pair _ a2 h2, foldl_pair _ a3 h3,
    foldl_pair _ a4 h4, foldl_pair _ a5 h5, foldl_pair _ a6 h6, foldl_pair _ a7 h7,
    foldl_pair _ a8 h8, foldl_pair _ a9 h9, foldl_pair _ a10 h10, foldl_pair _ a11 h11,
    foldl_pair _ a12 h12, foldl_pair _ a13 h13, foldl_pair _ a14 h14, foldl_pair _ a15 h15]
  unfold ofLimbs
  ring

theorem codeSlice_in_range (c : context) (k : Nat) (h0 : 0 ≤ c.pc)
    (h : c.pc + (k : Int) ≤ (c.code.length : Int)) (hlen : c.code.length < 2 ^ 31) :
    codeSlice c c.pc (toInt32 (c.pc + (k : Int))) =
      some ((c.code.drop c.pc.toNat).take k) := by
  have e : toInt32 (c.pc + (k : Int)) = c.pc + (k : Int) := by unfold toInt32; omega
  unfold codeSlice
  rw [e, if_pos (by omega)]
  have e2 : (c.pc + (k : Int) - c.pc).toNat = k := by omega
  rw [e2]

theorem codeSlice_out_of_range (c : context) (k : Nat) (hk : 0 < k) (hk2 : k < 2 ^ 31)
    (h : ¬ (0 ≤ c.pc ∧ c.pc + (k : Int) ≤ (c.code.length : Int))) :
    codeSlice c c.pc (toInt32 (c.pc + (k : Int))) = none := by
  unfold codeSlice
  rw [if_neg]
  unfold toInt32
  omega

theorem opPush_of_slice (c : context) (n k : Nat) (data : List Instruction)
    (hk : n / 2 + n % 2 = k) (hk0 : 0 < k) (hn : n ≤ 32)
    (hs : codeSlice c c.pc (toInt32 (c.pc + (k : Int))) = some data)
    (hl : data.length = k) :
    opPush c n = pushEmpty { c with pc := toInt32 (c.pc + toInt32 ((k : Int) - 1)) }
      (bytesToWord ((List.range n).map (pushByte data))) := by
  have e : toInt32 ((k : Nat) : Int) = (k : Int) := by unfold toInt32; omega
  unfold opPush
  simp only [hk, e, hs]
  rw [if_neg (by omega), if_neg (by omega)]

theorem opPush_of_no_slice (c : context) (n k : Nat) (hk : n / 2 + n % 2 = k) (hn : n ≤ 32)
    (hs : codeSlice c c.pc (toInt32 (c.pc + (k : Int))) = none) :
    opPush c n = none := by
  have e : toInt32 ((k : Nat) : Int) = (k : Int) := by unfold toInt32; omega
  unfold opPush
  simp only [hk, e, hs]

theorem slice_args (c : context) (k : Nat) (hargs : ∀ ins ∈ c.code, ins.arg < 2 ^ 16) :
    ∀ d ∈ (c.code.drop c.pc.toNat).take k, d.arg < 2 ^ 16 :=
  fun d hd => hargs d (List.mem_of_mem_drop (List.mem_of_mem_take hd))

theorem slice_length (c : context) (k : Nat) (h0 : 0 ≤ c.pc)
    (h : c.pc + (k : Int) ≤ (c.code.length : Int)) :
    ((c.code.drop c.pc.toNat).take k).length = k := by
  simp only [List.length_take, List.length_drop]
  omega

theorem opPush_one (c : context) (hlen : c.code.length < 2 ^ 31)
    (hargs : ∀ ins ∈ c.code, ins.arg < 2 ^ 16) : opPush c 1 = opPush1 c := by
  by_cases hr : 0 ≤ c.pc ∧ c.pc + ((1 : Nat) : Int) ≤ (c.code.length : Int)
  · have hs := codeSlice_in_range c 1 hr.1 hr.2 hlen
    have hi : c.pc.toNat < c.code.length := by omega
    rw [List.drop_eq_getElem_cons hi] at hs
    simp only [List.take_succ_cons, List.take_zero] at hs
    rw [opPush_of_slice c 1 1 _ (by norm_num) (by norm_num) (by norm_num) hs (by simp)]
    have hc : codeAt c c.pc = some (c.code[c.pc.toNat]) := by
      unfold codeAt
      rw [if_neg (by omega), List.getElem?_eq_getElem hi]
    have hp : toInt32 (c.pc + toInt32 (((1 : Nat) : Int) - 1)) = c.pc := by
      unfold toInt32; omega
    simp only [opPush1, hc, hp]
    have ha := hargs _ (List.getElem_mem hi)
    have hw := push1_word _ ha
    simp only [List.range_succ, List.range_zero, List.nil_append, List.map_cons, List.map_nil,
      pushByte, Nat.zero_div, List.getElem?_cons_zero, Nat.zero_mod, if_true, hw]
  · have hs := codeSlice_out_of_range c 1 (by norm_num) (by norm_num) hr
    rw [opPush_of_no_slice c 1 1 (by norm_num) (by norm_num) hs]
    unfold opPush1 codeAt
    by_cases hneg : c.pc < 0
    · rw [if_pos hneg]
    · rw [if_neg hneg, List.getElem?_eq_none (by omega)]

theorem opPush_two (c : context) (hlen : c.code.length < 2 ^ 31)
    (hargs : ∀ ins ∈ c.code, ins.arg < 2 ^ 16) : opPush c 2 = opPush2 c := by
  by_cases hr : 0 ≤ c.pc ∧ c.pc + ((1 : Nat) : Int) ≤ (c.code.length : Int)
  · have hs := codeSlice_in_range c 1 hr.1 hr.2 hlen
    have hi : c.pc.toNat < c.code.length := by omega
    rw [List.drop_eq_getElem_cons hi] at hs
    simp only [List.take_succ_cons, List.take_zero] at hs
    rw [opPush_of_slice c 2 1 _ (by norm_num) (by norm_num) (by norm_num) hs (by simp)]
    have hc : codeAt c c.pc = some (c.code[c.pc.toNat]) := by
      unfold codeAt
      rw [if_neg (by omega), List.getElem?_eq_getElem hi]
    have hp : toInt32 (c.pc + toInt32 (((1 : Nat) : Int) - 1)) = c.pc := by
      unfold toInt32; omega
    simp only [opPush2, hc, hp]
    have ha := hargs _ (List.getElem_mem hi)
    have hw := push2_word _ ha
    simp only [List.range_succ, List.range_zero, List.nil_append, List.cons_append,
      List.map_cons, List.map_nil, pushByte, Nat.zero_div, List.getElem?_cons_zero,
      Nat.zero_mod, if_true, Nat.reduceDiv, Nat.reduceMod, one_ne_zero, if_false, hw]
  · have hs := codeSlice_out_of_range c 1 (by norm_num) (by norm_num) hr
    rw [opPush_of_no_slice c 2 1 (by norm_num) (by norm_num) hs]
    unfold opPush2 codeAt
    by_cases hneg : c.pc < 0
    · rw [if_pos hneg]
    · rw [if_neg hneg, List.getElem?_eq_none (by omega)]

theorem toInt32_add_toInt32 (a b : Int) : toInt32 (a + toInt32 b) = toInt32 (a + b) := by
  unfold toInt32
  omega

theorem opPush_three (c : context) (hlen : c.code.length < 2 ^ 31)
    (hargs : ∀ ins ∈ c.code, ins.arg < 2 ^ 16) : opPush c 3 = opPush3 c := by
  by_cases hr : 0 ≤ c.pc ∧ c.pc + ((2 : Nat) : Int) ≤ (c.code.length : Int)
  · have hs := codeSlice_in_range c 2 hr.1 hr.2 hlen
    have hl := slice_length c 2 hr.1 hr.2
    have hm := slice_args c 2 hargs
    generalize (c.code.drop c.pc.toNat).take 2 = data at hs hl hm
    obtain ⟨d0, d1, rfl⟩ := List.length_eq_two.mp hl
    rw [opPush_of_slice c 3 2 _ (by norm_num) (by norm_num) (by norm_num) hs (by simp)]
    rw [toInt32_add_toInt32]
    simp only [Nat.cast_ofNat] at hs
    have hw := push3_word d0.arg d1.arg (hm d0 (by simp)) (hm d1 (by simp))
    simp only [opPush3, hs, List.getElem?_cons_zero, List.getElem?_cons_succ, ← hw]
    simp [List.range_succ, pushByte]
  · have hs := codeSlice_out_of_range c 2 (by norm_num) (by norm_num) hr
    rw [opPush_of_no_slice c 3 2 (by norm_num) (by norm_num) hs]
    simp only [Nat.cast_ofNat] at hs
    simp only [opPush3, hs]

theorem opPush_four (c : context) (hlen : c.code.length < 2 ^ 31)
    (hargs : ∀ ins ∈ c.code, ins.arg < 2 ^ 16) : opPush c 4 = opPush4 c := by
  by_cases hr : 0 ≤ c.pc ∧ c.pc + ((2 : Nat) : Int) ≤ (c.code.length : Int)
  · have hs := codeSlice_in_range c 2 hr.1 hr.2 hlen
    have hl := slice_length c 2 hr.1 hr.2
    have hm := slice_args c 2 hargs
    generalize (c.code.drop c.pc.toNat).take 2 = data at hs hl hm
    obtain ⟨d0, d1, rfl⟩ := List.length_eq_two.mp hl
    rw [opPush_of_slice c 4 2 _ (by norm_num) (by norm_num) (by norm_num) hs (by simp)]
    rw [toInt32_add_toInt32]
    simp only [Nat.cast_ofNat] at hs
    have hw := push4_word d0.arg d1.arg (hm d0 (by simp)) (hm d1 (by simp))
    simp only [opPush4, hs, List.getElem?_cons_zero, List.getElem?_cons_succ, ← hw]
    simp [List.range_succ, pushByte]
  · have hs := codeSlice_out_of_range c 2 (by norm_num) (by norm_num) hr
    rw [opPush_of_no_slice c 4 2 (by norm_num) (by norm_num) hs]
    simp only [Nat.cast_ofNat] at hs
    simp only [opPush4, hs]

theorem list_of_length_16 (l : List Instruction) (h : l.length = 16) :
    ∃ d0 d1 d2 d3 d4 d5 d6 d7 d8 d9 d10 d11 d12 d13 d14 d15,
      l = [d0, d1, d2, d3, d4, d5, d6, d7, d8, d9, d10, d11, d12, d13, d14, d15] := by
  match l, h with
  | [d0, d1, d2, d3, d4, d5, d6, d7, d8, d9, d10, d11, d12, d13, d14, d15], _ =>
    exact ⟨d0, d1, d2, d3, d4, d5, d6, d7, d8, d9, d10, d11, d12, d13, d14, d15, rfl⟩

theorem opPush_thirty_two (c : context) (hlen : c.code.length < 2 ^ 31)
    (hargs : ∀ ins ∈ c.code, ins.arg < 2 ^ 16) : opPush c 32 = opPush32 c := by
  by_cases hr : 0 ≤ c.pc ∧ c.pc + ((16 : Nat) : Int) ≤ (c.code.length : Int)
  · have hs := codeSlice_in_range c 16 hr.1 hr.2 hlen
    have hl := slice_length c 16 hr.1 hr.2
    have hm := slice_args c 16 hargs
    generalize (c.code.drop c.pc.toNat).take 16 = data at hs hl hm
    obtain ⟨d0, d1, d2, d3, d4, d5, d6, d7, d8, d9, d10, d11, d12, d13, d14, d15, rfl⟩ :=
      list_of_length_16 data hl
    rw [opPush_of_slice c 32 16 _ (by norm_num) (by norm_num) (by norm_num) hs (by simp)]
    rw [toInt32_add_toInt32]
    simp only [Nat.cast_ofNat] at hs
    have hw := push32_word d0.arg d1.arg d2.arg d3.arg d4.arg d5.arg d6.arg d7.arg d8.arg
      d9.arg d10.arg d11.arg d12.arg d13.arg d14.arg d15.arg
      (hm d0 (by simp)) (hm d1 (by simp)) (hm d2 (by simp)) (hm d3 (by simp))
      (hm d4 (by simp)) (hm d5 (by simp)) (hm d6 (by simp)) (hm d7 (by simp))
      (hm d8 (by simp)) (hm d9 (by simp)) (hm d10 (by simp)) (hm d11 (by simp))
      (hm d12 (by simp)) (hm d13 (by simp)) (hm d14 (by simp)) (hm d15 (by simp))
    simp only [opPush32, hs, ← hw]
    simp [List.range_succ, pushByte]
  · have hs := codeSlice_out_of_range c 16 (by norm_num) (by norm_num) hr
    rw [opPush_of_no_slice c 32 16 (by norm_num) (by norm_num) hs]
    simp only [Nat.cast_ofNat] at hs
    simp only [opPush32, hs]

/-- C27: on a code of fewer than `2 ^ 31` instructions with 16-bit arguments, `opPush(c, n)`
for `n = 1, 2, 3, 4, 32` has the result of `opPush1`, `opPush2`, `opPush3`, `opPush4` and
`opPush32`, a failure of the one being a failure of the other; and when the `ceil(n / 2)`
instructions from the program counter on lie in the code, the word pushed is the
big-endian value of the first `n` bytes of their arguments, high byte first, and the
program counter advances by `ceil(n / 2) - 1`. -/
theorem opPush_agrees_with_specialised (c : context) (hlen : c.code.length < 2 ^ 31)
    (hargs : ∀ ins ∈ c.code, ins.arg < 2 ^ 16) :
    opPush c 1 = opPush1 c ∧ opPush c 2 = opPush2 c ∧ opPush c 3 = opPush3 c ∧
    opPush c 4 = opPush4 c ∧ opPush c 32 = opPush32 c ∧
    ∀ n : Nat, 0 < n → n ≤ 32 → 0 ≤ c.pc →
      c.pc + (((n + 1) / 2 : Nat) : Int) ≤ (c.code.length : Int) →
      opPush c n = pushEmpty { c with pc := c.pc + (((n + 1) / 2 - 1 : Nat) : Int) }
        (bytesToWord ((List.range n).map
          (pushByte ((c.code.drop c.pc.toNat).take ((n + 1) / 2))))) := by
  refine ⟨opPush_one c hlen hargs, opPush_two c hlen hargs, opPush_three c hlen hargs,
    opPush_four c hlen hargs, opPush_thirty_two c hlen hargs, ?_⟩
  intro n hn hn2 h0 h
  rw [opPush_of_slice c n ((n + 1) / 2) _ (by omega) (by omega) hn2
    (codeSlice_in_range c ((n + 1) / 2) h0 h hlen) (slice_length c ((n + 1) / 2) h0 h)]
  have hp : toInt32 (c.pc + toInt32 ((((n + 1) / 2 : Nat) : Int) - 1)) =
      c.pc + (((n + 1) / 2 - 1 : Nat) : Int) := by
    unfold toInt32
    omega
  rw [hp]

/-- Witness of C27: three bytes pushed from the arguments `0x1234` and `0x5678`. -/
theorem opPush_agrees_with_specialised_witness :
    opPush (frame [⟨.PUSH1, 0x1234⟩, ⟨.PUSH1, 0x5678⟩] [77]) 3 =
      opPush3 (frame [⟨.PUSH1, 0x1234⟩, ⟨.PUSH1, 0x5678⟩] [77]) ∧
    opPush3 (frame [⟨.PUSH1, 0x1234⟩, ⟨.PUSH1, 0x5678⟩] [77]) =
      some { frame [⟨.PUSH1, 0x1234⟩, ⟨.PUSH1, 0x5678⟩] [0x123456, 77] with pc := 1 } :=
  ⟨(opPush_agrees_with_specialised (frame [⟨.PUSH1, 0x1234⟩, ⟨.PUSH1, 0x5678⟩] [77])
      (by decide) (by decide)).2.2.1,
    by decide⟩

/-! ## Charges before ledger writes and memory writes -/

/-- C24: when `gasSStore` returns an error, `opSstore` returns the frame as it is, and
when the remaining gas is below the price, the frame with status out of gas: nothing is
popped and no `SetState` call is made. When the remaining gas is below the price of
`gasSelfdestruct`, `opSelfdestruct` returns the frame with status out of gas: nothing is
popped, no ledger call is made, the status is not `SUICIDED`. When the gas covers the
price, `opSelfdestruct` pops the beneficiary, adds to its balance the whole balance
`GetBalance(address)` of the contract, marks the contract destroyed and sets the status
`SUICIDED`. -/
theorem ledger_writes_follow_the_charge (L : LedgerHost) (c : context) :
    ((L.gasSStore c).2 ≠ none → opSstore L c = some c) ∧
    ((L.gasSStore c).2 = none → c.gas < (L.gasSStore c).1 →
      opSstore L c = some { c with status := .OUT_OF_GAS }) ∧
    (∀ (key value : Word) (rest : List Word), (L.gasSStore c).2 = none →
      (L.gasSStore c).1 ≤ c.gas → c.stack = key :: value :: rest →
      opSstore L c = some { c with
        gas := c.gas - (L.gasSStore c).1,
        stack := rest,
        ledger := c.ledger ++ [.SetState c.address key value] }) ∧
    (c.gas < L.gasSelfdestruct c →
      opSelfdestruct L c = some { c with status := .OUT_OF_GAS }) ∧
    (∀ (beneficiary : Word) (rest : List Word), L.gasSelfdestruct c ≤ c.gas →
      c.stack = beneficiary :: rest →
      opSelfdestruct L c = some { c with
        gas := c.gas - L.gasSelfdestruct c,
        stack := rest,
        ledger := c.ledger ++ [.AddBalance (beneficiary % 2 ^ 160) (L.GetBalance c.address),
          .Suicide c.address],
        status := .SUICIDED }) ∧
    opSstore specLedger { frame [] [1, 2, 77] with gas := 4 } =
      some { frame [] [1, 2, 77] with gas := 4, status := .OUT_OF_GAS } ∧
    opSelfdestruct specLedger { frame [] [1, 2, 77] with gas := 4 } =
      some { frame [] [1, 2, 77] with gas := 4, status := .OUT_OF_GAS } ∧
    opSelfdestruct specLedger (frame [] [1, 2, 77]) =
      some { frame [] [2, 77] with
        gas := 93,
        ledger := [.AddBalance 1 1000, .Suicide 0],
        status := .SUICIDED } := by
  refine ⟨?_, ?_, ?_, ?_, ?_, by decide, by decide, by decide⟩
  · intro he
    simp only [opSstore, he, ne_eq, not_false_eq_true, if_true]
  · intro he hg
    have hu : UseGas c (L.gasSStore c).1 = (false, { c with status := .OUT_OF_GAS }) := by
      unfold UseGas
      rw [if_neg (by omega)]
    simp only [opSstore, he, ne_eq, not_true_eq_false, if_false, hu, Bool.false_eq_true,
      not_false_eq_true, if_true]
  · intro key value rest he hg hst
    have hu := UseGas_of_le c (L.gasSStore c).1 hg
    simp only [opSstore, he, ne_eq, not_true_eq_false, if_false, hu, not_true_eq_false, pop,
      hst]
  · intro hg
    have hu : UseGas c (L.gasSelfdestruct c) = (false, { c with status := .OUT_OF_GAS }) := by
      unfold UseGas
      rw [if_neg (by omega)]
    simp only [opSelfdestruct, hu, Bool.false_eq_true, not_false_eq_true, if_true]
  · intro beneficiary rest hg hst
    have hu := UseGas_of_le c (L.gasSelfdestruct c) hg
    simp only [opSelfdestruct, hu, not_true_eq_false, if_false, pop, hst]

theorem specEnsureCapacity_of_fail (c : context) (offset size : Int)
    (h0 : c.status = .RUNNING) (h : (specEnsureCapacity c offset size).status ≠ .RUNNING) :
    specEnsureCapacity c offset size = { c with status := .OUT_OF_GAS } ∧ 0 < size ∧
      c.memory.length < (offset + size).toNat := by
  unfold specEnsureCapacity at h ⊢
  by_cases h1 : size ≤ 0
  · rw [if_pos h1] at h
    exact absurd h0 h
  · rw [if_neg h1] at h ⊢
    by_cases h2 : (offset + size).toNat ≤ c.memory.length
    · rw [if_pos h2] at h
      exact absurd h0 h
    · rw [if_neg h2] at h ⊢
      by_cases h3 : specExpansionCosts c.memory (offset + size) ≤ c.gas
      · simp only [UseGas, h3, if_true] at h
        exact absurd h0 h
      · refine ⟨?_, by omega, by omega⟩
        simp only [UseGas, h3, if_false, Bool.false_eq_true]

theorem specMemHost_EnsureCapacity : specMemHost.EnsureCapacity = specEnsureCapacity := rfl

theorem specHost_EnsureCapacity : specHost.EnsureCapacity = specEnsureCapacity := rfl

theorem specHost_Set : specHost.Set = specSet := rfl

theorem specSet_of_short (memory : Bytes) (offset size : Nat) (value : Bytes)
    (h : memory.length < offset + size) : specSet memory offset size value = memory := by
  unfold specSet
  rw [if_pos (Or.inr h)]

/-- The range that `Memory.Set` is given after a failed `EnsureCapacity` lies beyond the
end of the memory. -/
theorem range_beyond_memory (len m l : Nat) (hm : m < 2 ^ 64) (hl : l < 2 ^ 64)
    (hs : 0 < toInt64 (l : Int)) (h : len < (toInt64 (m : Int) + toInt64 (l : Int)).toNat) :
    len < m + l := by
  unfold toInt64 at hs h
  omega

theorem opMstore_of_fail (M : MemHost) (c : context) (addr value : Word) (rest : List Word)
    (h : (M.EnsureCapacity { c with stack := rest } (toInt64 (Uint64 addr)) 32).status ≠
      .RUNNING) :
    opMstore M { c with stack := addr :: value :: rest } =
      some (M.EnsureCapacity { c with stack := rest } (toInt64 (Uint64 addr)) 32) := by
  simp only [opMstore, pop, h, if_false]

theorem opMstore8_of_fail (M : MemHost) (c : context) (addr value : Word) (rest : List Word)
    (h : (M.EnsureCapacity { c with stack := rest } (toInt64 (Uint64 addr)) 1).status ≠
      .RUNNING) :
    opMstore8 M { c with stack := addr :: value :: rest } =
      some (M.EnsureCapacity { c with stack := rest } (toInt64 (Uint64 addr)) 1) := by
  simp only [opMstore8, pop, h, if_false]

theorem opDup2_Mstore_of_fail (M : MemHost) (c : context) (addr value : Word)
    (rest : List Word)
    (h : (M.EnsureCapacity { c with stack := addr :: rest } (toInt64 (Uint64 addr)) 32).status ≠
      .RUNNING) :
    opDup2_Mstore M { c with stack := value :: addr :: rest } =
      some (M.EnsureCapacity { c with stack := addr :: rest } (toInt64 (Uint64 addr)) 32) := by
  simp only [opDup2_Mstore, pop, Back, List.getElem?_cons_zero, h, if_false]

theorem copies_of_fail (c : context) (rest : List Word) (memOffset offset length : Nat)
    (h0 : c.status = .RUNNING) (hg : copyPrice (Uint64 length) ≤ c.gas)
    (h : (specEnsureCapacity
        { c with stack := rest, gas := c.gas - copyPrice (Uint64 length) }
        (toInt64 (Uint64 memOffset)) (toInt64 (Uint64 length))).status ≠ .RUNNING) :
    (c.data.length < 2 ^ 63 →
      opCallDataCopy specHost { c with stack := memOffset :: offset :: length :: rest } =
        some { c with
          stack := rest,
          gas := c.gas - copyPrice (Uint64 length),
          status := .OUT_OF_GAS }) ∧
    (c.contract_code.length < 2 ^ 63 →
      opCodeCopy specHost { c with stack := memOffset :: offset :: length :: rest } =
        some { c with
          stack := rest,
          gas := c.gas - copyPrice (Uint64 length),
          status := .OUT_OF_GAS }) := by
  obtain ⟨hE, hs, hm⟩ := specEnsureCapacity_of_fail
    { c with stack := rest, gas := c.gas - copyPrice (Uint64 length) } _ _ h0 h
  have hm' : c.memory.length <
      (toInt64 (Uint64 memOffset) + toInt64 (Uint64 length)).toNat := hm
  have hu := UseGas_of_le { c with stack := rest } (copyPrice (Uint64 length)) hg
  have hmlt : Uint64 memOffset < 2 ^ 64 := Nat.mod_lt _ (by norm_num)
  have hllt : Uint64 length < 2 ^ 64 := Nat.mod_lt _ (by norm_num)
  have hrange : c.memory.length < Uint64 memOffset + Uint64 length :=
    range_beyond_memory c.memory.length (Uint64 memOffset) (Uint64 length) hmlt hllt hs hm'
  have hl63 : Uint64 length < 2 ^ 63 := by
    have := hs
    unfold toInt64 at this
    omega
  have hset : ∀ d : Bytes, specSet c.memory (Uint64 memOffset) (Uint64 length) d =
      c.memory := fun d => specSet_of_short c.memory _ _ d hrange
  refine ⟨?_, ?_⟩
  · intro hd
    have hgd := getData_of_no_wrap c.data
      (if (Uint64WithOverflow offset).2 then 0xffffffffffffffff
        else (Uint64WithOverflow offset).1) (Uint64 length) hl63 (by omega)
    simp only [opCallDataCopy, hu, not_true_eq_false, if_false, specHost_EnsureCapacity,
      specHost_Set, hE, hgd, hset]
  · intro hd
    have hgd := getData_of_no_wrap c.contract_code
      (if (Uint64WithOverflow offset).2 then 0xffffffffffffffff
        else (Uint64WithOverflow offset).1) (Uint64 length) hl63 (by omega)
    simp only [opCodeCopy, hu, not_true_eq_false, if_false, specHost_EnsureCapacity,
      specHost_Set, hE, hgd, hset]

theorem opReturnDataCopy_of_fail (c : context) (rest : List Word)
    (memOffset dataOffset length : Nat) (h0 : c.status = .RUNNING)
    (hsum : dataOffset + length ≤ c.return_data.length) (hlen : c.return_data.length < 2 ^ 64)
    (h : (specEnsureCapacity { c with stack := rest }
      (toInt64 (Uint64 memOffset)) (toInt64 (Uint64 length))).status ≠ .RUNNING) :
    opReturnDataCopy specHost { c with stack := memOffset :: dataOffset :: length :: rest } =
      some (UseGas { c with stack := rest, status := .OUT_OF_GAS } (copyPrice length)).2 := by
  obtain ⟨hE, hs, hm⟩ := specEnsureCapacity_of_fail { c with stack := rest } _ _ h0 h
  have hl : Uint64 length = length := Uint64_of_lt length (by omega)
  rw [hl] at hs hm hE
  have hm' : c.memory.length < (toInt64 (Uint64 memOffset) + toInt64 length).toNat := hm
  have hmlt : Uint64 memOffset < 2 ^ 64 := Nat.mod_lt _ (by norm_num)
  have hrange : c.memory.length < Uint64 memOffset + length :=
    range_beyond_memory c.memory.length (Uint64 memOffset) length hmlt (by omega) hs hm'
  have hset : ∀ d : Bytes, specSet c.memory (Uint64 memOffset) length d = c.memory :=
    fun d => specSet_of_short c.memory _ _ d hrange
  rw [opReturnDataCopy_of_no_wrap specHost c memOffset dataOffset length rest
    (by omega) hlen (by rw [specHost_EnsureCapacity, hl, hE])]
  rw [if_neg (by omega)]
  simp only [specHost_EnsureCapacity, specHost_Set, hl, hE]
  by_cases hg : copyPrice length ≤ c.gas
  · simp only [hg, if_true, hset, UseGas]
  · simp only [hg, if_false, UseGas]

/-- C25: `opMstore`, `opMstore8` and `opDup2_Mstore` write only when the status is
`RUNNING` after `EnsureCapacity`, whatever the memory: otherwise the frame is returned as
`EnsureCapacity` left it. With the memory of the spec, on a running frame whose
`EnsureCapacity` fails for lack of gas, each of the six handlers returns the frame with
status out of gas and the memory it had before the instruction: the stores make no write,
and the range that `opCallDataCopy`, `opCodeCopy` and `opReturnDataCopy` pass to
`Memory.Set` lies beyond the end of the memory, which `Set` leaves as it is. -/
theorem no_write_after_failed_expansion (c : context) (rest : List Word) :
    (∀ (M : MemHost) (addr value : Word),
      ((M.EnsureCapacity { c with stack := rest } (toInt64 (Uint64 addr)) 32).status ≠
          .RUNNING →
        opMstore M { c with stack := addr :: value :: rest } =
          some (M.EnsureCapacity { c with stack := rest } (toInt64 (Uint64 addr)) 32)) ∧
      ((M.EnsureCapacity { c with stack := rest } (toInt64 (Uint64 addr)) 1).status ≠
          .RUNNING →
        opMstore8 M { c with stack := addr :: value :: rest } =
          some (M.EnsureCapacity { c with stack := rest } (toInt64 (Uint64 addr)) 1)) ∧
      ((M.EnsureCapacity { c with stack := addr :: rest } (toInt64 (Uint64 addr)) 32).status ≠
          .RUNNING →
        opDup2_Mstore M { c with stack := value :: addr :: rest } =
          some (M.EnsureCapacity { c with stack := addr :: rest }
            (toInt64 (Uint64 addr)) 32))) ∧
    (∀ (addr value : Word), c.status = .RUNNING →
      ((specEnsureCapacity { c with stack := rest } (toInt64 (Uint64 addr)) 32).status ≠
          .RUNNING →
        opMstore specMemHost { c with stack := addr :: value :: rest } =
          some { c with stack := rest, status := .OUT_OF_GAS }) ∧
      ((specEnsureCapacity { c with stack := rest } (toInt64 (Uint64 addr)) 1).status ≠
          .RUNNING →
        opMstore8 specMemHost { c with stack := addr :: value :: rest } =
          some { c with stack := rest, status := .OUT_OF_GAS }) ∧
      ((specEnsureCapacity { c with stack := addr :: rest }
            (toInt64 (Uint64 addr)) 32).status ≠ .RUNNING →
        opDup2_Mstore specMemHost { c with stack := value :: addr :: rest } =
          some { c with stack := addr :: rest, status := .OUT_OF_GAS })) ∧
    (∀ (memOffset offset length : Word), c.status = .RUNNING →
      copyPrice (Uint64 length) ≤ c.gas →
      (specEnsureCapacity
          { c with stack := rest, gas := c.gas - copyPrice (Uint64 length) }
          (toInt64 (Uint64 memOffset)) (toInt64 (Uint64 length))).status ≠ .RUNNING →
      (c.data.length < 2 ^ 63 →
        opCallDataCopy specHost { c with stack := memOffset :: offset :: length :: rest } =
          some { c with
            stack := rest,
            gas := c.gas - copyPrice (Uint64 length),
            status := .OUT_OF_GAS }) ∧
      (c.contract_code.length < 2 ^ 63 →
        opCodeCopy specHost { c with stack := memOffset :: offset :: length :: rest } =
          some { c with
            stack := rest,
            gas := c.gas - copyPrice (Uint64 length),
            status := .OUT_OF_GAS })) ∧
    (∀ (memOffset dataOffset length : Word), c.status = .RUNNING →
      dataOffset + length ≤ c.return_data.length → c.return_data.length < 2 ^ 64 →
      (specEnsureCapacity { c with stack := rest }
          (toInt64 (Uint64 memOffset)) (toInt64 (Uint64 length))).status ≠ .RUNNING →
      opReturnDataCopy specHost
          { c with stack := memOffset :: dataOffset :: length :: rest } =
        some (UseGas { c with stack := rest, status := .OUT_OF_GAS } (copyPrice length)).2 ∧
      (UseGas { c with stack := rest, status := .OUT_OF_GAS } (copyPrice length)).2.memory =
        c.memory ∧
      (UseGas { c with stack := rest, status := .OUT_OF_GAS } (copyPrice length)).2.status =
        .OUT_OF_GAS) ∧
    opCallDataCopy specHost { frame [] [0, 0, 32, 77] with data := [1, 2, 3], gas := 4 } =
      some { frame [] [77] with data := [1, 2, 3], gas := 1, status := .OUT_OF_GAS } ∧
    opCodeCopy specHost
        { frame [] [0, 0, 32, 77] with contract_code := [1, 2, 3], gas := 4 } =
      some { frame [] [77] with contract_code := [1, 2, 3], gas := 1, status := .OUT_OF_GAS } ∧
    opReturnDataCopy specHost
        { frame [] [64, 0, 3, 77] with return_data := [1, 2, 3], gas := 5 } =
      some { frame [] [77] with return_data := [1, 2, 3], gas := 2, status := .OUT_OF_GAS } ∧
    opMstore specMemHost { frame [] [0, 5, 77] with gas := 2 } =
      some { frame [] [77] with gas := 2, status := .OUT_OF_GAS } ∧
    opMstore specMemHost { frame [] [0, 5, 77] with gas := 3 } =
      some { frame [] [77] with gas := 0, memory := List.replicate 31 0 ++ [5] } := by
  refine ⟨?_, ?_, ?_, ?_, by decide, by decide, by decide, by decide, by decide⟩
  · intro M addr value
    exact ⟨opMstore_of_fail M c addr value rest, opMstore8_of_fail M c addr value rest,
      opDup2_Mstore_of_fail M c addr value rest⟩
  · intro addr value h0
    refine ⟨?_, ?_, ?_⟩
    · intro h
      rw [opMstore_of_fail specMemHost c addr value rest h, specMemHost_EnsureCapacity,
        (specEnsureCapacity_of_fail { c with stack := rest } _ _ h0 h).1]
    · intro h
      rw [opMstore8_of_fail specMemHost c addr value rest h, specMemHost_EnsureCapacity,
        (specEnsureCapacity_of_fail { c with stack := rest } _ _ h0 h).1]
    · intro h
      rw [opDup2_Mstore_of_fail specMemHost c addr value rest h, specMemHost_EnsureCapacity,
        (specEnsureCapacity_of_fail { c with stack := addr :: rest } _ _ h0 h).1]
  · intro memOffset offset length h0 hg h
    exact copies_of_fail c rest memOffset offset length h0 hg h
  · intro memOffset dataOffset length h0 hsum hlen h
    refine ⟨opReturnDataCopy_of_fail c rest memOffset dataOffset length h0 hsum hlen h,
      ?_, ?_⟩
    · unfold UseGas
      split <;> rfl
    · unfold UseGas
      split <;> rfl

end Lfvm
